import Mathlib

/-! A shallow embedding of the BSP builder and software renderer of `main.c`

The C program works on `float`s.  The embedding replaces them by the elements
of an arbitrary linearly ordered field `K` (exact arithmetic): every definition
below is computable at `K = ℚ`, and the theorems hold for every such field,
the reals included.  The libm functions the program calls (`SDL_cosf`,
`SDL_sinf`, `SDL_tanf`, `SDL_atan2f`, `SDL_sqrtf`) and the constant `M_PI` are
not part of the program; they are taken as a parameter `Libm K`.

Where rounding decides what the program does, the same functions are also
given in binary32 (the definitions named `_f32`): every operation of the C
expression is rounded to the nearest `float`, ties to even, over `ℚ`.  The
theorems about these state what the compiled arithmetic does on concrete
inputs; the theorems over `K` state what the program does in exact arithmetic.

Machine `int`s that index arrays are natural numbers; the tagged child
references of a `Node` are kept as 32-bit patterns.  An array read
`a[i]` is `List.getD a i default`: reading outside the array is undefined in C,
and the theorems about the builder assume that the segments only name vertices
of the pool.
-/

set_option autoImplicit false

/-! ## Data model -/

/-- The struct `pol_Vec2` of the program: a point or vector of the plane. -/
structure pol_Vec2 (K : Type) where
  x : K
  y : K
deriving DecidableEq, Repr

/-- The struct `pol_Color`: four 8-bit channels. -/
structure pol_Color where
  r : Nat
  g : Nat
  b : Nat
  a : Nat
deriving DecidableEq, Repr

/-- The struct `PlayerCam`. -/
structure PlayerCam (K : Type) where
  pos : pol_Vec2 K
  height : K
  view_angle : K
deriving DecidableEq

/-- The struct `LineSegment`: a directed wall between two vertices of the pool. -/
structure LineSegment where
  v1 : Nat
  v2 : Nat
deriving DecidableEq, Repr

/-- The struct `Sector`: `num_segments` is the length of `line_segs`. -/
structure Sector where
  line_segs : List LineSegment
deriving DecidableEq, Repr

/-- The struct `Node`; `left` and `right` hold the 32-bit pattern of the C `int`. -/
structure Node where
  splitter : LineSegment
  left : Nat
  right : Nat
  left_is_sector : Bool
  right_is_sector : Bool
deriving DecidableEq, Repr

/-- The struct `GameState`; the three counters are the lengths of the lists. -/
structure GameState (K : Type) where
  player_cam : PlayerCam K
  vertices : List (pol_Vec2 K)
  nodes : List Node
  sectors : List Sector
deriving DecidableEq

/-- The functions of libm used by the program, and `M_PI`. -/
structure Libm (K : Type) where
  cosf : K → K
  sinf : K → K
  tanf : K → K
  atan2f : K → K → K
  sqrtf : K → K
  pi : K

instance : Inhabited LineSegment := ⟨⟨0, 0⟩⟩

instance : Inhabited Node := ⟨⟨default, 0, 0, false, false⟩⟩

instance : Inhabited pol_Color := ⟨⟨0, 0, 0, 0⟩⟩

section Geometry

variable {K : Type} [LinearOrderedField K]

/-- The macro `SCREEN_WIDTH`. -/
def SCREEN_WIDTH : Int := 640

/-- The macro `SCREEN_HEIGHT`. -/
def SCREEN_HEIGHT : Int := 400

/-- The macro `SW2`. -/
def SW2 : K := 640 / 2

/-- The macro `SH2`. -/
def SH2 : K := 400 / 2

/-- The macro `EPSILON`, `0.000001f`. -/
def EPSILON : K := 1 / 1000000

/-- The macro `DEG2RAD`. -/
def DEG2RAD (m : Libm K) : K := m.pi / 180

/-- The macro `FOV`. -/
def FOV (m : Libm K) : K := 90 * DEG2RAD m

/-- The macro `SECTOR_FLAG`, `0x80000000`. -/
def SECTOR_FLAG : Nat := 0x80000000

/-- The macro `VEC2ZERO`, also written `(pol_Vec2){0}` in the program. -/
def VEC2ZERO : pol_Vec2 K := ⟨0, 0⟩

instance : Inhabited (pol_Vec2 K) := ⟨VEC2ZERO⟩

/-- The function `vec2_dot_product`. -/
def vec2_dot_product (v1 v2 : pol_Vec2 K) : K :=
  v1.x * v2.x + v1.y * v2.y

/-- The function `vec2_cross_product`. -/
def vec2_cross_product (v1 v2 : pol_Vec2 K) : K :=
  v1.x * v2.y - v1.y * v2.x

/-- The function `vec2_rotate`. -/
def vec2_rotate (m : Libm K) (v : pol_Vec2 K) (angle : K) : pol_Vec2 K :=
  let cosres := m.cosf angle
  let sinres := m.sinf angle
  ⟨v.x * cosres - v.y * sinres, v.x * sinres + v.y * cosres⟩

/-- The function `vec2_angle`. -/
def vec2_angle (m : Libm K) (v1 v2 : pol_Vec2 K) : K :=
  let dot := v1.x * v2.x + v1.y * v2.y
  let det := v1.x * v2.y - v1.y * v2.x
  m.atan2f det dot

/-- The function `vec2_len`. -/
def vec2_len (m : Libm K) (v1 : pol_Vec2 K) : K :=
  m.sqrtf (v1.x * v1.x + v1.y * v1.y)

/-- The function `line_intersect`; `none` is the sentinel `{NAN, NAN}`. -/
def line_intersect (v1 v2 v3 v4 : pol_Vec2 K) : Option (pol_Vec2 K) :=
  let det := (v1.x - v2.x) * (v3.y - v4.y) - (v1.y - v2.y) * (v3.x - v4.x)
  if |det| < EPSILON then none
  else
    some ⟨((v1.x * v2.y - v1.y * v2.x) * (v3.x - v4.x)
            - (v1.x - v2.x) * (v3.x * v4.y - v3.y * v4.x)) / det,
          ((v1.x * v2.y - v1.y * v2.x) * (v3.y - v4.y)
            - (v1.y - v2.y) * (v3.x * v4.y - v3.y * v4.x)) / det⟩

/-- The function `line_segment_intersect`; `none` is the sentinel `{NAN, NAN}`. -/
def line_segment_intersect (v1 v2 v3 v4 : pol_Vec2 K) : Option (pol_Vec2 K) :=
  let det := (v1.x - v2.x) * (v3.y - v4.y) - (v1.y - v2.y) * (v3.x - v4.x)
  if |det| < EPSILON then none
  else
    let t_num := (v1.x - v3.x) * (v3.y - v4.y) - (v1.y - v3.y) * (v3.x - v4.x)
    let u_num := (v1.x - v2.x) * (v1.y - v3.y) - (v1.y - v2.y) * (v1.x - v3.x)
    let t := t_num / det
    let u := -u_num / det
    if t < 0 ∨ t > 1 ∨ u < 0 ∨ u > 1 then none
    else some ⟨v1.x + t * (v2.x - v1.x), v1.y + t * (v2.y - v1.y)⟩

/-- The function `vec2_subtract`. -/
def vec2_subtract (v1 v2 : pol_Vec2 K) : pol_Vec2 K :=
  ⟨v1.x - v2.x, v1.y - v2.y⟩

/-- The function `vec2_add`. -/
def vec2_add (v1 v2 : pol_Vec2 K) : pol_Vec2 K :=
  ⟨v1.x + v2.x, v1.y + v2.y⟩

/-- The function `point_on_side`. -/
def point_on_side (v1 v2 p : pol_Vec2 K) : Int :=
  let cross := vec2_cross_product (vec2_subtract v2 v1) (vec2_subtract p v1)
  if |cross| < EPSILON then 0
  else if cross > 0 then -1
  else 1

/-- The function `view_to_world`. -/
def view_to_world (m : Libm K) (v : pol_Vec2 K) (player_cam : PlayerCam K) : pol_Vec2 K :=
  let v := vec2_rotate m v (player_cam.view_angle - 90 * DEG2RAD m)
  let v := vec2_add v player_cam.pos
  v

/-- The function `world_to_view`. -/
def world_to_view (m : Libm K) (v : pol_Vec2 K) (player_cam : PlayerCam K) : pol_Vec2 K :=
  let v := vec2_subtract v player_cam.pos
  let v := vec2_rotate m v (-player_cam.view_angle + 90 * DEG2RAD m)
  v

end Geometry

/-! ## Rasteriser -/

/-- The fields of `SDL_Surface` the program reads: width, height and the pixel array. -/
structure SDL_Surface where
  w : Int
  h : Int
  pixels : List pol_Color

/-- The struct `DrawSegment`. -/
structure DrawSegment (K : Type) where
  line_seg : LineSegment
  floor_height : K
  ceiling_height : K
  tex : SDL_Surface

/-- The struct `DrawColumn`. -/
structure DrawColumn (K : Type) where
  x : Int
  tex_x : Int
  y1 : Int
  y2 : Int
  v_start : K
  v_end : K
  sy1 : K
  sy2 : K

/-- The struct `DrawPlaneColumn`. -/
structure DrawPlaneColumn (K : Type) where
  start_row : Int
  end_row : Int
  x : Int
  normalized_x : K
  view_plane_height : K
  player_cam : PlayerCam K

/-- One execution of the assignment `pixels[x + y*SCREEN_WIDTH] = c`. -/
structure PixelWrite where
  x : Int
  y : Int
  c : pol_Color
deriving DecidableEq, Repr

section Raster

variable {K : Type} [LinearOrderedField K] [FloorRing K]

/-- The macro `MAX`. -/
def MAX (a b : Int) : Int := if a > b then a else b

/-- The macro `MIN`. -/
def MIN (a b : Int) : Int := if a < b then a else b

/-- The macro `CLAMP`, which expands to `MAX(b, MIN(c, a))`. -/
def CLAMP (a b c : Int) : Int := MAX b (MIN c a)

/-- The conversion of a `float` to an `int` in C: truncation toward zero. -/
def float_to_int (f : K) : Int := if 0 ≤ f then ⌊f⌋ else ⌈f⌉

/-- The function `SDL_floorf`. -/
def SDL_floorf (f : K) : K := ((⌊f⌋ : Int) : K)

/-- The global `global_yScale`. -/
def global_yScale : K := 640 / 400

/-- The global `global_focal_length`, as `main` sets it before the first frame. -/
def global_focal_length (m : Libm K) : K := 1 / m.tanf (FOV m / 2)

/-- The read `tex_pixels[i]`. -/
def tex_read (tex : SDL_Surface) (i : Int) : pol_Color :=
  tex.pixels.getD i.toNat default

/-- The loop of `draw_column`: `n` rows are left, the next one is `y`. -/
def draw_column_rows (tex : SDL_Surface) (x tex_x : Int) (slope : K) :
    Nat → Int → K → List PixelWrite
  | 0, _, _ => []
  | n + 1, y, v =>
    let v := if v < 0 then 0 else v
    let tex_y := float_to_int ((v - SDL_floorf v) * (tex.h : K))
    let c := tex_read tex (tex_x + tex_y * tex.w)
    ⟨x, y, c⟩ :: draw_column_rows tex x tex_x slope n (y + 1) (v + slope)

/-- The function `draw_column`; the result lists the pixels it writes, in order. -/
def draw_column (column : DrawColumn K) (tex : SDL_Surface) : List PixelWrite :=
  let y1 := column.y1
  let y2 := column.y2
  let sy1 := column.sy1
  let sy2 := column.sy2
  let v_start := column.v_start
  let v_end := column.v_end
  let x := column.x
  let tex_x := column.tex_x
  let deltay := v_end - v_start
  let deltax := sy2 - sy1
  let slope := deltay / deltax
  let v := slope * ((y1 : K) + 1 / 2 - sy1) + v_start
  draw_column_rows tex x tex_x slope (y2 + 1 - y1).toNat y1 v

/-- The body of the loop of `draw_plane_column` for the row `y`. -/
def draw_plane_pixel (m : Libm K) (tex : SDL_Surface) (column : DrawPlaneColumn K)
    (y : Int) : PixelWrite :=
  let view_plane_height := column.view_plane_height
  let normalized_x := column.normalized_x
  let player_cam := column.player_cam
  let x := column.x
  let normalized_y := (SH2 - (y : K) + 1 / 2) / (SH2 * global_yScale)
  let floor_y := view_plane_height * global_focal_length m / normalized_y
  let floor_x := normalized_x / global_focal_length m * floor_y
  let floor := view_to_world m ⟨floor_x, floor_y⟩ player_cam
  let tiley := floor.y / 32
  let tilex := floor.x / 32
  let tex_y := float_to_int ((tiley - SDL_floorf tiley) * (tex.h : K))
  let tex_x := float_to_int ((tilex - SDL_floorf tilex) * (tex.w : K))
  let tex_y := CLAMP tex_y 0 (tex.h - 1)
  let tex_x := CLAMP tex_x 0 (tex.w - 1)
  if tex_x = tex.w - 1 ∨ tex_x = 0 ∨ tex_y = tex.h - 1 ∨ tex_y = 0 then
    ⟨x, y, ⟨0, 0, 0, 0⟩⟩
  else
    ⟨x, y, tex_read tex (tex_x + tex_y * tex.w)⟩

/-- The loop of `draw_plane_column`: `n` rows are left, the next one is `y`. -/
def draw_plane_rows (m : Libm K) (tex : SDL_Surface) (column : DrawPlaneColumn K) :
    Nat → Int → List PixelWrite
  | 0, _ => []
  | n + 1, y => draw_plane_pixel m tex column y :: draw_plane_rows m tex column n (y + 1)

/-- The function `draw_plane_column`; the result lists the pixels it writes, in order. -/
def draw_plane_column (m : Libm K) (tex : SDL_Surface) (column : DrawPlaneColumn K) :
    List PixelWrite :=
  draw_plane_rows m tex column (column.end_row + 1 - column.start_row).toNat column.start_row

/-- The values `render_line_segment` has computed when it enters its column loop. -/
structure WallSpan (K : Type) where
  tex : SDL_Surface
  player_cam : PlayerCam K
  v1 : pol_Vec2 K
  v2 : pol_Vec2 K
  u_start : K
  u_end : K
  v_start : K
  v_end : K
  screen_x1 : K
  width : Int
  slope1 : K
  slope2 : K
  view_floor_height : K
  view_ceiling_height : K

/-- The column loop of `render_line_segment`: `n` columns are left, the next one is `x`. -/
def render_columns (m : Libm K) (s : WallSpan K) : Nat → Int → K → K → List PixelWrite
  | 0, _, _, _ => []
  | n + 1, x, interpolated_screen_y1, interpolated_screen_y2 =>
    let y1 := float_to_int (interpolated_screen_y1 + 1 / 2)
    let y2 := float_to_int (interpolated_screen_y2 - 1 / 2)
    if y1 ≥ SCREEN_HEIGHT ∨ y2 < 0 ∨ y2 < y1 then
      render_columns m s n (x + 1) (interpolated_screen_y1 + s.slope1)
        (interpolated_screen_y2 + s.slope2)
    else
      let y1 := CLAMP y1 0 (SCREEN_HEIGHT - 1)
      let y2 := CLAMP y2 0 (SCREEN_HEIGHT - 1)
      let tx := ((x : K) + 1 / 2 - s.screen_x1) / (s.width : K)
      let u := ((1 - tx) * s.u_start / s.v1.y + tx * s.u_end / s.v2.y) /
        ((1 - tx) * 1 / s.v1.y + tx * 1 / s.v2.y)
      let tex_x := float_to_int ((u - SDL_floorf u) * (s.tex.w : K))
      let column : DrawColumn K :=
        { x := x, tex_x := tex_x, y1 := y1, y2 := y2,
          sy1 := interpolated_screen_y1, sy2 := interpolated_screen_y2,
          v_start := s.v_start, v_end := s.v_end }
      let wall := draw_column column s.tex
      let normalized_x := ((x : K) + 1 / 2 - SW2) / SW2
      let floory1 := float_to_int (interpolated_screen_y2 + 1 / 2)
      let plane_column : DrawPlaneColumn K :=
        { x := x, normalized_x := normalized_x, start_row := floory1,
          end_row := SCREEN_HEIGHT - 1, view_plane_height := s.view_floor_height,
          player_cam := s.player_cam }
      let floor := if s.view_floor_height < 0 then draw_plane_column m s.tex plane_column else []
      let ceilingy2 := float_to_int (interpolated_screen_y1 - 1 / 2)
      let ceiling_column : DrawPlaneColumn K :=
        { x := x, normalized_x := normalized_x, start_row := 0,
          end_row := ceilingy2, view_plane_height := s.view_ceiling_height,
          player_cam := s.player_cam }
      let ceiling :=
        if s.view_ceiling_height > 0 then draw_plane_column m s.tex ceiling_column else []
      wall ++ floor ++ ceiling ++
        render_columns m s n (x + 1) (interpolated_screen_y1 + s.slope1)
          (interpolated_screen_y2 + s.slope2)

/-- The function `render_line_segment`; the result lists the pixels it writes, in order. -/
def render_line_segment (m : Libm K) (game : GameState K) (draw_seg : DrawSegment K) :
    List PixelWrite :=
  let line_seg := draw_seg.line_seg
  let v1 := game.vertices.getD line_seg.v1 default
  let v2 := game.vertices.getD line_seg.v2 default
  let floor_height := draw_seg.floor_height
  let ceiling_height := draw_seg.ceiling_height
  let tex := draw_seg.tex
  let v1 := world_to_view m v1 game.player_cam
  let v2 := world_to_view m v2 game.player_cam
  let view_floor_height := floor_height - game.player_cam.height
  let view_ceiling_height := ceiling_height - game.player_cam.height
  if v1.y ≤ 0 ∧ v2.y ≤ 0 then []
  else if point_on_side v1 v2 VEC2ZERO ≠ 1 then []
  else
    let clipping_v1 := vec2_rotate m ⟨0, 10000⟩ (FOV m / 2)
    let clipping_v2 := vec2_rotate m ⟨0, 10000⟩ (-FOV m / 2)
    let clipped_v1 := line_segment_intersect VEC2ZERO clipping_v1 v1 v2
    let clipped_v2 := line_segment_intersect VEC2ZERO clipping_v2 v1 v2
    let len := vec2_len m ⟨v2.x - v1.x, v2.y - v1.y⟩
    let u_start : K := 0
    let u_end := len / (tex.w : K)
    let v_start : K := 0
    let v_end := (view_ceiling_height - view_floor_height) / (tex.h : K)
    let u_start :=
      match clipped_v1 with
      | some c => vec2_len m (vec2_subtract c v1) / (tex.w : K)
      | none => u_start
    let v1c := clipped_v1.getD v1
    let u_end :=
      match clipped_v2 with
      | some c => u_end - vec2_len m (vec2_subtract c v2) / (tex.w : K)
      | none => u_end
    let v2c := clipped_v2.getD v2
    let tex_scale : K := 1
    let u_start := u_start * tex_scale
    let u_end := u_end * tex_scale
    let v_start := v_start * tex_scale
    let v_end := v_end * tex_scale
    let UP : pol_Vec2 K := ⟨0, 1⟩
    let angle1 := vec2_angle m UP v1c
    let angle2 := vec2_angle m UP v2c
    if angle1 < -FOV m / 2 ∨ angle2 > FOV m / 2 then []
    else
      let normalized_x1 := v1c.x / v1c.y * global_focal_length m
      let normalized_y1a := view_ceiling_height / v1c.y * global_focal_length m
      let normalized_y1b := view_floor_height / v1c.y * global_focal_length m
      let normalized_x2 := v2c.x * global_focal_length m / v2c.y
      let normalized_y2a := view_ceiling_height * global_focal_length m / v2c.y
      let normalized_y2b := view_floor_height * global_focal_length m / v2c.y
      let screen_x1 := SW2 + normalized_x1 * SW2
      let screen_x2 := SW2 + normalized_x2 * SW2
      let screen_y1a := SH2 - normalized_y1a * SH2 * global_yScale
      let screen_y1b := SH2 - normalized_y1b * SH2 * global_yScale
      let screen_y2a := SH2 - normalized_y2a * SH2 * global_yScale
      let screen_y2b := SH2 - normalized_y2b * SH2 * global_yScale
      let deltax := screen_x2 - screen_x1
      if |deltax| < EPSILON then []
      else
        let slope1 := (screen_y2a - screen_y1a) / deltax
        let slope2 := (screen_y2b - screen_y1b) / deltax
        let start_col := float_to_int (screen_x1 + 1 / 2)
        let end_col := float_to_int (screen_x2 - 1 / 2)
        let width := end_col - start_col + 1
        let span : WallSpan K :=
          { tex := tex, player_cam := game.player_cam, v1 := v1c, v2 := v2c,
            u_start := u_start, u_end := u_end, v_start := v_start, v_end := v_end,
            screen_x1 := screen_x1, width := width, slope1 := slope1, slope2 := slope2,
            view_floor_height := view_floor_height,
            view_ceiling_height := view_ceiling_height }
        render_columns m span (end_col + 1 - start_col).toNat start_col screen_y1a screen_y1b

end Raster

/-! ## BSP builder and traversal -/

section Bsp

variable {K : Type} [LinearOrderedField K]

/-- The test the two inner `if`s of `is_convex` make on segment `j` against segment `i`. -/
def is_convex_pair (vertices : List (pol_Vec2 K)) (si sj : LineSegment) : Bool :=
  let v1 := vertices.getD si.v1 default
  let v2 := vertices.getD si.v2 default
  let v3 := vertices.getD sj.v1 default
  let v4 := vertices.getD sj.v2 default
  let a := point_on_side v1 v2 v3
  let b := point_on_side v1 v2 v4
  if a * b = -1 then false
  else if a = -1 ∨ b = -1 then false
  else true

/-- The function `is_convex`; `num_segments` is the length of `segments`. -/
def is_convex (segments : List LineSegment) (vertices : List (pol_Vec2 K)) : Bool :=
  (List.range segments.length).all fun i =>
    (List.range segments.length).all fun j =>
      if i = j then true
      else is_convex_pair vertices (segments.getD i default) (segments.getD j default)

/-- The body of the loop of `split_segments` for the segment `seg`: the state is the
left list, the right list and the game state. -/
def split_segments_step (split_v1 split_v2 : pol_Vec2 K)
    (st : List LineSegment × List LineSegment × GameState K) (seg : LineSegment) :
    List LineSegment × List LineSegment × GameState K :=
  let left := st.1
  let right := st.2.1
  let game := st.2.2
  let v1 := game.vertices.getD seg.v1 default
  let v2 := game.vertices.getD seg.v2 default
  let a := point_on_side split_v1 split_v2 v1
  let b := point_on_side split_v1 split_v2 v2
  if a * b = -1 then
    let split_point := (line_intersect split_v1 split_v2 v1 v2).getD default
    let num_vertices := game.vertices.length
    let game1 := { game with vertices := game.vertices ++ [split_point] }
    if a = -1 then
      (left ++ [⟨seg.v1, num_vertices⟩], right ++ [⟨num_vertices, seg.v2⟩], game1)
    else
      (left ++ [⟨num_vertices, seg.v2⟩], right ++ [⟨seg.v1, num_vertices⟩], game1)
  else if a = 1 ∨ b = 1 then
    (left, right ++ [seg], game)
  else
    (left ++ [seg], right, game)

/-- The function `split_segments`: the result is `(left, right, game)`. -/
def split_segments (segments : List LineSegment) (game : GameState K) :
    List LineSegment × List LineSegment × GameState K :=
  let splitter := segments.headD default
  let split_v1 := game.vertices.getD splitter.v1 default
  let split_v2 := game.vertices.getD splitter.v2 default
  let st := segments.tail.foldl (split_segments_step split_v1 split_v2) ([], [], game)
  if st.2.1 = [] then
    (st.1, [splitter], st.2.2)
  else
    (st.1 ++ [splitter], st.2.1, st.2.2)

/-- The 32-bit pattern of a value stored in a C `int`. -/
def to_int32 (n : Nat) : Nat := n % 2 ^ 32

/-- One of the two symmetric halves of `generate_bsp_tree`: given the child list and
the recursive call, the result is `(is_sector, child reference, game)`. -/
def generate_child (recurse : List LineSegment → GameState K → Option (Nat × GameState K))
    (segs : List LineSegment) (game : GameState K) : Option (Bool × Nat × GameState K) :=
  if !is_convex segs game.vertices then
    match recurse segs game with
    | none => none
    | some (r, game1) => some (false, r, game1)
  else
    some (true, to_int32 (game.sectors.length ||| SECTOR_FLAG),
      { game with sectors := game.sectors ++ [⟨segs⟩] })

/-- The function `generate_bsp_tree`.  The first argument bounds the depth of the
recursion; `none` means that the bound was reached. -/
def generate_bsp_tree : Nat → List LineSegment → GameState K → Option (Nat × GameState K)
  | 0, _, _ => none
  | fuel + 1, line_segments, game =>
    let splitter := line_segments.headD default
    let sp := split_segments line_segments game
    let left := sp.1
    let right := sp.2.1
    let game := sp.2.2
    let node_index := to_int32 game.nodes.length
    let game := { game with nodes := game.nodes ++ [default] }
    match generate_child (generate_bsp_tree fuel) left game with
    | none => none
    | some (left_is_sector, nleft, game) =>
      match generate_child (generate_bsp_tree fuel) right game with
      | none => none
      | some (right_is_sector, nright, game) =>
        let node : Node := ⟨splitter, nleft, nright, left_is_sector, right_is_sector⟩
        some (node_index, { game with nodes := game.nodes.set node_index node })

/-- The function `render_bsp`; the last argument and the result are the global list
`sectors_to_draw`, as indices into `game.sectors`.  The first argument bounds the depth
of the recursion; `none` means that the bound was reached. -/
def render_bsp : Nat → Nat → GameState K → List Nat → Option (List Nat)
  | 0, _, _, _ => none
  | fuel + 1, node, game, sectors_to_draw =>
    if node &&& SECTOR_FLAG ≠ 0 then
      let sector_index := node &&& 0x7FFFFFFF
      some (sectors_to_draw ++ [sector_index])
    else
      let n := game.nodes.getD node default
      let v1 := game.vertices.getD n.splitter.v1 default
      let v2 := game.vertices.getD n.splitter.v2 default
      let side := point_on_side v1 v2 game.player_cam.pos
      if side = 1 then
        match render_bsp fuel n.right game sectors_to_draw with
        | none => none
        | some l => render_bsp fuel n.left game l
      else
        match render_bsp fuel n.left game sectors_to_draw with
        | none => none
        | some l => render_bsp fuel n.right game l

end Bsp

/-! ## Definitions used to state the theorems -/

section Aux

variable {K : Type} [LinearOrderedField K]

/-- Vertices named by the segment `s` exist in a pool of `n` vertices. -/
def seg_in_pool (n : Nat) (s : LineSegment) : Prop := s.v1 < n ∧ s.v2 < n

instance (n : Nat) (s : LineSegment) : Decidable (seg_in_pool n s) :=
  inferInstanceAs (Decidable (s.v1 < n ∧ s.v2 < n))

/-- The segment `s` has its endpoints strictly on opposite sides of the line AB. -/
def straddles (A B : pol_Vec2 K) (vertices : List (pol_Vec2 K)) (s : LineSegment) : Prop :=
  point_on_side A B (vertices.getD s.v1 default) *
    point_on_side A B (vertices.getD s.v2 default) = -1

instance (A B : pol_Vec2 K) (vertices : List (pol_Vec2 K)) (s : LineSegment) :
    Decidable (straddles A B vertices s) :=
  inferInstanceAs (Decidable (point_on_side A B (vertices.getD s.v1 default) *
    point_on_side A B (vertices.getD s.v2 default) = -1))

/-- Scenario B: a triangle and one more segment that crosses its first edge. -/
def scenario_b_game : GameState ℚ :=
  { player_cam := ⟨⟨0, 0⟩, 0, 0⟩,
    vertices := [⟨0, 0⟩, ⟨4, 0⟩, ⟨2, 4⟩, ⟨2, -1⟩, ⟨2, 1⟩],
    nodes := [], sectors := [] }

/-- Scenario B: the three edges of the triangle, then the crossing segment. -/
def scenario_b_segments : List LineSegment := [⟨0, 1⟩, ⟨1, 2⟩, ⟨2, 0⟩, ⟨3, 4⟩]

/-- The first wall of the map of `main` (vertices 0 and 1 of `init_game`), seen from far
away: the camera has walked to (6970, −6844) and still looks along +Y, as `init_game`
sets it. -/
def far_wall_game {K : Type} [LinearOrderedField K] (m : Libm K) : GameState K :=
  { player_cam := ⟨⟨6970, -6844⟩, 40, 90 * DEG2RAD m⟩,
    vertices := [⟨-256, 256⟩, ⟨-128, 256⟩],
    nodes := [], sectors := [] }

/-- The segment `s1` lies on the segment `s`, in the same direction: its endpoints are
p + t1 (q − p) and p + t2 (q − p) with 0 ≤ t1 < t2 ≤ 1, where p, q are the endpoints of `s`. -/
def sub_seg (vs : List (pol_Vec2 K)) (s1 s : LineSegment) : Prop :=
  ∃ t1 t2 : K, 0 ≤ t1 ∧ t1 < t2 ∧ t2 ≤ 1 ∧
    vs.getD s1.v1 default =
      ⟨(vs.getD s.v1 default).x + t1 * ((vs.getD s.v2 default).x - (vs.getD s.v1 default).x),
       (vs.getD s.v1 default).y + t1 * ((vs.getD s.v2 default).y - (vs.getD s.v1 default).y)⟩ ∧
    vs.getD s1.v2 default =
      ⟨(vs.getD s.v1 default).x + t2 * ((vs.getD s.v2 default).x - (vs.getD s.v1 default).x),
       (vs.getD s.v1 default).y + t2 * ((vs.getD s.v2 default).y - (vs.getD s.v1 default).y)⟩

/-- The side of vertex `i` of the pool with respect to the segment `d`. -/
def side_of (vs : List (pol_Vec2 K)) (d : LineSegment) (i : Nat) : Int :=
  point_on_side (vs.getD d.v1 default) (vs.getD d.v2 default) (vs.getD i default)

/-- No endpoint of a segment of `segs` is on side +1 of the segment `d`. -/
def none_behind (vs : List (pol_Vec2 K)) (d : LineSegment) (segs : List LineSegment) : Prop :=
  ∀ s ∈ segs, side_of vs d s.v1 ≠ 1 ∧ side_of vs d s.v2 ≠ 1

/-- Every segment of the list only names vertices of a pool of `n` vertices. -/
def segs_in_pool (n : Nat) (segs : List LineSegment) : Prop := ∀ s ∈ segs, seg_in_pool n s

/-- Two fragments (p→X), (X→q) of the multiset `S` are joined into (p→q), giving `T`. -/
def rejoin_step (X : Nat) (S T : Multiset LineSegment) : Prop :=
  ∃ (p q : Nat) (R : Multiset LineSegment),
    S = {(⟨p, X⟩ : LineSegment)} + {(⟨X, q⟩ : LineSegment)} + R ∧
      T = {(⟨p, q⟩ : LineSegment)} + R

/-- Joining the fragments at the vertices `n0 + k - 1`, ..., `n0 + 1`, `n0`, in this
order, turns the multiset `S` into `T`. -/
def rejoins (n0 : Nat) : Nat → Multiset LineSegment → Multiset LineSegment → Prop
  | 0, S, T => S = T
  | k + 1, S, T => ∃ U, rejoin_step (n0 + k) S U ∧ rejoins n0 k U T

/-- What holds of the state of the loop of `split_segments` when it has gone through the
segments `pre`, starting from the pool `vs0` with both lists empty. -/
structure SplitInv (A B : pol_Vec2 K) (vs0 : List (pol_Vec2 K)) (pre : List LineSegment)
    (st : List LineSegment × List LineSegment × GameState K) : Prop where
  ext : ∃ new, st.2.2.vertices = vs0 ++ new
  validL : segs_in_pool st.2.2.vertices.length st.1
  validR : segs_in_pool st.2.2.vertices.length st.2.1
  subL : ∃ sub, List.Sublist sub pre ∧ List.Forall₂ (sub_seg st.2.2.vertices) st.1 sub
  subR : ∃ sub, List.Sublist sub pre ∧ List.Forall₂ (sub_seg st.2.2.vertices) st.2.1 sub
  sideL : ∀ s ∈ st.1, point_on_side A B (st.2.2.vertices.getD s.v1 default) ≠ 1 ∧
    point_on_side A B (st.2.2.vertices.getD s.v2 default) ≠ 1
  sideR : ∀ s ∈ st.2.1, point_on_side A B (st.2.2.vertices.getD s.v1 default) ≠ -1 ∧
    point_on_side A B (st.2.2.vertices.getD s.v2 default) ≠ -1
  rightNil : st.2.1 = [] → st.1 = pre ∧ st.2.2.vertices = vs0
  rejoin : rejoins vs0.length (st.2.2.vertices.length - vs0.length)
    ((st.1 : Multiset LineSegment) + (st.2.1 : Multiset LineSegment)) (pre : Multiset LineSegment)

/-- The state the loop of `split_segments` ends with. -/
def split_loop (segs : List LineSegment) (game : GameState K) :
    List LineSegment × List LineSegment × GameState K :=
  segs.tail.foldl
    (split_segments_step (game.vertices.getD (segs.headD default).v1 default)
      (game.vertices.getD (segs.headD default).v2 default)) ([], [], game)

/-- All segments stored in a list of sectors. -/
def sector_segments (sectors : List Sector) : List LineSegment :=
  sectors.flatMap fun S => S.line_segs

/-- What a finished build has done to the game state: it has appended the vertices `new`
to the pool and the sectors `newS` to the sector list; every new sector is a list of
segments of the final pool that `is_convex` accepts in the final pool; and joining the
fragments stored in the new sectors gives back the input. -/
def BuildOk (segs : List LineSegment) (g g1 : GameState K) (new : List (pol_Vec2 K))
    (newS : List Sector) : Prop :=
  g1.vertices = g.vertices ++ new ∧ g1.sectors = g.sectors ++ newS ∧
  g1.player_cam = g.player_cam ∧
  (∀ S ∈ newS, segs_in_pool g1.vertices.length S.line_segs ∧
    is_convex S.line_segs g1.vertices = true) ∧
  rejoins g.vertices.length new.length
    ((sector_segments newS : List LineSegment) : Multiset LineSegment)
    (segs : Multiset LineSegment)

/-- The build of the list `segs` from the state `g` returns, given enough fuel. -/
def terminates (segs : List LineSegment) (g : GameState K) : Prop :=
  ∃ (fuel : Nat) (r : Nat × GameState K), generate_bsp_tree fuel segs g = some r

/-- Two segments that cross each other: the second straddles the first, and the left list
of the first split is as long as the input. -/
def crossing_game : GameState ℚ :=
  { player_cam := ⟨⟨0, 0⟩, 0, 0⟩,
    vertices := [⟨-1, 0⟩, ⟨1, 0⟩, ⟨0, -1⟩, ⟨0, 1⟩],
    nodes := [], sectors := [] }

/-- The two segments of `crossing_game`. -/
def crossing_segments : List LineSegment := [⟨0, 1⟩, ⟨2, 3⟩]

/-- Scenario: a square whose four walls run clockwise, so that the inside is on side +1 of
each wall. -/
def cw_square_game : GameState ℚ :=
  { player_cam := ⟨⟨0, 0⟩, 0, 0⟩,
    vertices := [⟨-100, 100⟩, ⟨100, 100⟩, ⟨100, -100⟩, ⟨-100, -100⟩],
    nodes := [], sectors := [] }

/-- The four walls of `cw_square_game`. -/
def cw_square_segments : List LineSegment := [⟨0, 1⟩, ⟨1, 2⟩, ⟨2, 3⟩, ⟨3, 0⟩]

instance : Inhabited Sector := ⟨⟨[]⟩⟩

/-- The tree that the node list of a game state encodes below a child reference: a leaf is
a sector index, an inner node has its index in the node list, its splitter and its two
subtrees. -/
inductive BspTree where
  | leaf (sector : Nat) : BspTree
  | node (index : Nat) (splitter : LineSegment) (left right : BspTree) : BspTree

/-- The sector indices of the leaves of a tree, from left to right. -/
def BspTree.leaves : BspTree → List Nat
  | .leaf i => [i]
  | .node _ _ l r => l.leaves ++ r.leaves

/-- The indices of the inner nodes of a tree: the root, then the left subtree, then the
right subtree. -/
def BspTree.node_indices : BspTree → List Nat
  | .leaf _ => []
  | .node i _ l r => i :: (l.node_indices ++ r.node_indices)

/-- The height of a tree. -/
def BspTree.depth : BspTree → Nat
  | .leaf _ => 0
  | .node _ _ l r => max l.depth r.depth + 1

/-- The child reference `ref` leads, in the node list `nodes`, to the tree `t`. -/
def encodes (nodes : List Node) : Nat → BspTree → Prop
  | ref, .leaf i => ref &&& SECTOR_FLAG ≠ 0 ∧ ref &&& 0x7FFFFFFF = i
  | ref, .node i s l r =>
    ref &&& SECTOR_FLAG = 0 ∧ ref = i ∧ i < nodes.length ∧
      (nodes.getD i default).splitter = s ∧
      encodes nodes (nodes.getD i default).left l ∧
      encodes nodes (nodes.getD i default).right r

/-- The order in which the traversal of `render_bsp` visits the leaves of a tree, for the
camera position `pos`. -/
def render_order (vs : List (pol_Vec2 K)) (pos : pol_Vec2 K) : BspTree → List Nat
  | .leaf i => [i]
  | .node _ s l r =>
    if point_on_side (vs.getD s.v1 default) (vs.getD s.v2 default) pos = 1 then
      render_order vs pos r ++ render_order vs pos l
    else
      render_order vs pos l ++ render_order vs pos r

/-- At every inner node of the tree, the splitter is a segment of the pool, every segment
stored in a leaf of the left subtree is a segment of the pool with no endpoint on side +1
of the splitter, and every segment stored in a leaf of the right subtree is a segment of
the pool with no endpoint on side −1 of the splitter. -/
def sides_all (vs : List (pol_Vec2 K)) (sectors : List Sector) : BspTree → Prop
  | .leaf _ => True
  | .node _ s l r =>
    seg_in_pool vs.length s ∧
    (∀ i ∈ l.leaves, i < sectors.length ∧ ∀ seg ∈ (sectors.getD i default).line_segs,
      seg_in_pool vs.length seg ∧ side_of vs s seg.v1 ≠ 1 ∧ side_of vs s seg.v2 ≠ 1) ∧
    (∀ i ∈ r.leaves, i < sectors.length ∧ ∀ seg ∈ (sectors.getD i default).line_segs,
      seg_in_pool vs.length seg ∧ side_of vs s seg.v1 ≠ -1 ∧ side_of vs s seg.v2 ≠ -1) ∧
    sides_all vs sectors l ∧ sides_all vs sectors r

/-- What a finished `generate_child` or `generate_bsp_tree` has done to the node list: the
reference it returns leads to a tree whose inner nodes are exactly the nodes appended and
whose leaves are exactly the sectors appended, in order; the older nodes are unchanged. -/
structure ChildInv (g g1 : GameState K) (ref : Nat) (t : BspTree) : Prop where
  enc : encodes g1.nodes ref t
  idx : t.node_indices = List.range' g.nodes.length (g1.nodes.length - g.nodes.length)
  lvs : t.leaves = List.range' g.sectors.length (g1.sectors.length - g.sectors.length)
  old : ∀ i < g.nodes.length, g1.nodes.getD i default = g.nodes.getD i default
  grow : g.nodes.length ≤ g1.nodes.length
  sides : sides_all g1.vertices g1.sectors t

/-- Scenario A: the four corners (±100, ±100) of the square, and no node or sector yet. -/
def ccw_square_game : GameState ℚ :=
  { player_cam := ⟨⟨0, 0⟩, 0, 0⟩,
    vertices := [⟨-100, -100⟩, ⟨100, -100⟩, ⟨100, 100⟩, ⟨-100, 100⟩],
    nodes := [], sectors := [] }

/-- Scenario A: the four walls of `ccw_square_game`, running counter-clockwise. -/
def ccw_square_segments : List LineSegment := [⟨0, 1⟩, ⟨1, 2⟩, ⟨2, 3⟩, ⟨3, 0⟩]

/-- The root index, the number of nodes, the number of sectors, the numbers of segments of
the sectors and the number of vertices of the result of a build. -/
def build_shape {K : Type} (r : Option (Nat × GameState K)) :
    Option (Nat × Nat × Nat × List Nat × Nat) :=
  r.map fun r => (r.1, r.2.nodes.length, r.2.sectors.length,
    r.2.sectors.map (fun S => S.line_segs.length), r.2.vertices.length)

/-- Scenario E: the splitter (0,0)→(10,0) and the segment (0,e)→(10,e). -/
def scenario_e_game {K : Type} [LinearOrderedField K] (e : K) : GameState K :=
  { player_cam := ⟨⟨0, 0⟩, 0, 0⟩,
    vertices := [⟨0, 0⟩, ⟨10, 0⟩, ⟨0, e⟩, ⟨10, e⟩],
    nodes := [], sectors := [] }

/-- Scenario E: the splitter, then the near-parallel segment. -/
def scenario_e_segments : List LineSegment := [⟨0, 1⟩, ⟨2, 3⟩]

/-- The placement of the splitter in the words of the specification: the splitter is
appended to the left list, unless the left list is empty at this point, and then it is
appended to the right list.  The result is the pair of the left and the right list. -/
def splitter_placement_spec (splitter : LineSegment) (left right : List LineSegment) :
    List LineSegment × List LineSegment :=
  if left = [] then (left, right ++ [splitter]) else (left ++ [splitter], right)

/-- The value `u` that `render_line_segment` computes for a column (lines 426–427 of
`main.c`), as a function of `tx`, of the wall coordinates `u_start`, `u_end` and of the
depths `y1`, `y2` of the clipped endpoints. -/
def perspective_u {K : Type} [LinearOrderedField K] (tx u_start u_end y1 y2 : K) : K :=
  ((1 - tx) * u_start / y1 + tx * u_end / y2) / ((1 - tx) * 1 / y1 + tx * 1 / y2)

/-- The value `tx` that `render_line_segment` computes for the column `x` (line 425). -/
def column_tx {K : Type} [LinearOrderedField K] (s : WallSpan K) (x : Int) : K :=
  ((x : K) + 1 / 2 - s.screen_x1) / (s.width : K)

/-- The `DrawColumn` that the column loop of `render_line_segment` passes to `draw_column`
for the column `x`, when the interpolated top and bottom of the wall are `sy1`, `sy2`. -/
def wall_column {K : Type} [LinearOrderedField K] [FloorRing K] (s : WallSpan K) (x : Int)
    (sy1 sy2 : K) : DrawColumn K :=
  { x := x,
    tex_x := float_to_int
      ((perspective_u (column_tx s x) s.u_start s.u_end s.v1.y s.v2.y -
        SDL_floorf (perspective_u (column_tx s x) s.u_start s.u_end s.v1.y s.v2.y)) *
          (s.tex.w : K)),
    y1 := CLAMP (float_to_int (sy1 + 1 / 2)) 0 (SCREEN_HEIGHT - 1),
    y2 := CLAMP (float_to_int (sy2 - 1 / 2)) 0 (SCREEN_HEIGHT - 1),
    sy1 := sy1, sy2 := sy2, v_start := s.v_start, v_end := s.v_end }

/-- The `DrawPlaneColumn` of the floor below the wall in the column `x`. -/
def floor_column {K : Type} [LinearOrderedField K] [FloorRing K] (s : WallSpan K) (x : Int)
    (sy2 : K) : DrawPlaneColumn K :=
  { x := x, normalized_x := ((x : K) + 1 / 2 - SW2) / SW2,
    start_row := float_to_int (sy2 + 1 / 2), end_row := SCREEN_HEIGHT - 1,
    view_plane_height := s.view_floor_height, player_cam := s.player_cam }

/-- The `DrawPlaneColumn` of the ceiling above the wall in the column `x`. -/
def ceiling_column {K : Type} [LinearOrderedField K] [FloorRing K] (s : WallSpan K) (x : Int)
    (sy1 : K) : DrawPlaneColumn K :=
  { x := x, normalized_x := ((x : K) + 1 / 2 - SW2) / SW2,
    start_row := 0, end_row := float_to_int (sy1 - 1 / 2),
    view_plane_height := s.view_ceiling_height, player_cam := s.player_cam }

/-- The map of `main` (the vertex pool of `init_game`), with the camera of `init_game`
walked 72 steps backwards to (0, −72) and lowered by two steps to the height 39: it
looks along +Y at the south face of the pillar, 40 units away. -/
def pillar_game {K : Type} [LinearOrderedField K] (m : Libm K) : GameState K :=
  { player_cam := ⟨⟨0, -72⟩, 39, 90 * DEG2RAD m⟩,
    vertices := [⟨-256, 256⟩, ⟨-128, 256⟩, ⟨-128, 128⟩, ⟨0, 128⟩, ⟨128, 128⟩, ⟨128, 256⟩,
      ⟨256, 256⟩, ⟨256, -256⟩, ⟨128, -256⟩, ⟨128, -128⟩, ⟨0, -128⟩, ⟨-128, -128⟩,
      ⟨-128, -256⟩, ⟨-256, -256⟩, ⟨32, 32⟩, ⟨-32, 32⟩, ⟨-32, -32⟩, ⟨32, -32⟩],
    nodes := [], sectors := [] }

/-- The texel coordinates `(tex_x, tex_y)` that `draw_plane_column` computes for the row
`y`, after the two clamps (lines 286–300 of `main.c`). -/
def plane_texel {K : Type} [LinearOrderedField K] [FloorRing K] (m : Libm K)
    (tex : SDL_Surface) (column : DrawPlaneColumn K) (y : Int) : Int × Int :=
  let normalized_y := (SH2 - (y : K) + 1 / 2) / (SH2 * global_yScale)
  let floor_y := column.view_plane_height * global_focal_length m / normalized_y
  let floor_x := column.normalized_x / global_focal_length m * floor_y
  let floor := view_to_world m ⟨floor_x, floor_y⟩ column.player_cam
  let tiley := floor.y / 32
  let tilex := floor.x / 32
  let tex_y := float_to_int ((tiley - SDL_floorf tiley) * (tex.h : K))
  let tex_x := float_to_int ((tilex - SDL_floorf tilex) * (tex.w : K))
  (CLAMP tex_x 0 (tex.w - 1), CLAMP tex_y 0 (tex.h - 1))

/-- The texel is on the first or last column or row of the texture. -/
def on_grid_line (tex : SDL_Surface) (t : Int × Int) : Prop :=
  t.1 = tex.w - 1 ∨ t.1 = 0 ∨ t.2 = tex.h - 1 ∨ t.2 = 0

instance (tex : SDL_Surface) (t : Int × Int) : Decidable (on_grid_line tex t) :=
  inferInstanceAs (Decidable (t.1 = tex.w - 1 ∨ t.1 = 0 ∨ t.2 = tex.h - 1 ∨ t.2 = 0))

/-- A floor pixel at the bottom of the screen, straight ahead of the camera of
`init_game`: column 320, row 399, the floor 40 units below the camera. -/
def grid_column {K : Type} [LinearOrderedField K] (m : Libm K) : DrawPlaneColumn K :=
  { start_row := 399, end_row := 399, x := 320, normalized_x := 1 / 640,
    view_plane_height := -40, player_cam := ⟨⟨0, 0⟩, 40, 90 * DEG2RAD m⟩ }

/-- A 64×64 texture whose 4096 texels are white and opaque. -/
def white_texture : SDL_Surface := ⟨64, 64, List.replicate 4096 ⟨255, 255, 255, 255⟩⟩

/-- The child reference `ref` stored in node `k` is well-formed for a tree of `num_nodes`
nodes and `num_sectors` sectors: when its sector flag is clear it is a node index greater
than `k` and less than `num_nodes`, and when its sector flag is set, the index it decodes
to is less than `num_sectors`. -/
def child_ref_ok (num_nodes num_sectors k ref : Nat) : Prop :=
  (ref &&& SECTOR_FLAG = 0 → k < ref ∧ ref < num_nodes) ∧
  (ref &&& SECTOR_FLAG ≠ 0 → ref &&& 0x7FFFFFFF < num_sectors)

/-- The node `j` is a child of the node `k`: `k` is a node of the list and `j` is its left
or its right child reference, with the sector flag clear. -/
def node_child (nodes : List Node) (k j : Nat) : Prop :=
  k < nodes.length ∧ j &&& SECTOR_FLAG = 0 ∧
    (j = (nodes.getD k default).left ∨ j = (nodes.getD k default).right)

/-- The vertex `X` is the split point of a straddle: the value `line_intersect` returns,
not the sentinel, for a line AB and a segment pq whose endpoints are strictly on opposite
sides of the line. -/
def defined_split_point {K : Type} [LinearOrderedField K] (X : pol_Vec2 K) : Prop :=
  ∃ A B p q : pol_Vec2 K, point_on_side A B p * point_on_side A B q = -1 ∧
    line_intersect A B p q = some X

/-- A build in which vertices are appended after a sector was created: the splitter
(0,0)→(4,0), a wall (5,0)→(7,0) on its line, and below it two walls that cross each
other.  The first sector is [(5,0)→(7,0), splitter]; the two crossing walls are split
afterwards, at (2, −2). -/
def late_split_game : GameState ℚ :=
  { player_cam := ⟨⟨0, 0⟩, 0, 0⟩,
    vertices := [⟨0, 0⟩, ⟨4, 0⟩, ⟨5, 0⟩, ⟨7, 0⟩, ⟨0, -1⟩, ⟨4, -3⟩, ⟨2, -4⟩, ⟨2, -1⟩],
    nodes := [], sectors := [] }

/-- The four walls of `late_split_game`. -/
def late_split_segments : List LineSegment := [⟨0, 1⟩, ⟨2, 3⟩, ⟨4, 5⟩, ⟨6, 7⟩]

/-! ### Binary32 arithmetic

The functions of the splitting step and of the view transform once more, with every
operation rounded to `float` as the C compiler evaluates it (each operation in the
precision of its type, no fused multiply-add).  They are used to evaluate the code on
inputs where rounding decides the result. -/

/-- Two to the power `e`, as a rational number. -/
def pow2 (e : Int) : ℚ :=
  if 0 ≤ e then ((2 ^ e.toNat : Nat) : ℚ) else 1 / ((2 ^ (-e).toNat : Nat) : ℚ)

/-- The number of halvings that take `n` below 2, that is ⌊log₂ n⌋ for n ≥ 1; the first
argument bounds the number of halvings. -/
def halvings : Nat → Nat → Nat
  | 0, _ => 0
  | fuel + 1, n => if n < 2 then 0 else halvings fuel (n / 2) + 1

/-- The exponent `e` with 2^e ≤ |q| < 2^(e+1), for q ≠ 0. -/
def binary_exponent (q : ℚ) : Int :=
  let e0 : Int := (halvings q.num.natAbs q.num.natAbs : Int) - (halvings q.den q.den : Int)
  if pow2 e0 ≤ |q| then e0 else e0 - 1

/-- Rounding to the nearest floating-point number with `p` significant bits and least
normal exponent `emin`, ties to the even significand, as IEEE 754 prescribes for the
result of every operation.  Overflow is not modelled. -/
def round_nearest_even (p : Nat) (emin : Int) (q : ℚ) : ℚ :=
  if q = 0 then 0
  else
    let e := max (binary_exponent q) emin
    let ulp := pow2 (e - ((p : Int) - 1))
    let m := |q| / ulp
    let f : Int := ⌊m⌋
    let r := m - (f : ℚ)
    let k : Int :=
      if r < 1 / 2 then f else if 1 / 2 < r then f + 1 else if f % 2 = 0 then f else f + 1
    (if q < 0 then -1 else 1) * (k : ℚ) * ulp

/-- Rounding to binary32, the type `float`. -/
def f32 (q : ℚ) : ℚ := round_nearest_even 24 (-126) q

/-- Rounding to binary64, the type `double`. -/
def f64 (q : ℚ) : ℚ := round_nearest_even 53 (-1022) q

/-- The constant `EPSILON`, that is `0.000001f`. -/
def EPSILON_f32 : ℚ := f32 (1 / 1000000)

/-- The function `vec2_subtract` in binary32 arithmetic. -/
def vec2_subtract_f32 (v1 v2 : pol_Vec2 ℚ) : pol_Vec2 ℚ :=
  ⟨f32 (v1.x - v2.x), f32 (v1.y - v2.y)⟩

/-- The function `vec2_cross_product` in binary32 arithmetic: both products are rounded,
then their difference. -/
def vec2_cross_product_f32 (v1 v2 : pol_Vec2 ℚ) : ℚ :=
  f32 (f32 (v1.x * v2.y) - f32 (v1.y * v2.x))

/-- The function `point_on_side` in binary32 arithmetic. -/
def point_on_side_f32 (v1 v2 p : pol_Vec2 ℚ) : Int :=
  let cross := vec2_cross_product_f32 (vec2_subtract_f32 v2 v1) (vec2_subtract_f32 p v1)
  if |cross| < EPSILON_f32 then 0
  else if cross > 0 then -1
  else 1

/-- The function `line_intersect` in binary32 arithmetic; `none` is the sentinel
`{NAN, NAN}`. -/
def line_intersect_f32 (v1 v2 v3 v4 : pol_Vec2 ℚ) : Option (pol_Vec2 ℚ) :=
  let det := f32 (f32 (f32 (v1.x - v2.x) * f32 (v3.y - v4.y)) -
    f32 (f32 (v1.y - v2.y) * f32 (v3.x - v4.x)))
  if |det| < EPSILON_f32 then none
  else
    let c12 := f32 (f32 (v1.x * v2.y) - f32 (v1.y * v2.x))
    let c34 := f32 (f32 (v3.x * v4.y) - f32 (v3.y * v4.x))
    some ⟨f32 (f32 (f32 (c12 * f32 (v3.x - v4.x)) - f32 (f32 (v1.x - v2.x) * c34)) / det),
          f32 (f32 (f32 (c12 * f32 (v3.y - v4.y)) - f32 (f32 (v1.y - v2.y) * c34)) / det)⟩

/-- The body of the loop of `split_segments` in binary32 arithmetic.  The result is `none`
when `line_intersect` returns the sentinel for a straddle: the code then appends
`{NAN, NAN}` to the pool, a vertex whose coordinates this model does not represent. -/
def split_segments_step_f32 (split_v1 split_v2 : pol_Vec2 ℚ)
    (st : List LineSegment × List LineSegment × GameState ℚ) (seg : LineSegment) :
    Option (List LineSegment × List LineSegment × GameState ℚ) :=
  let left := st.1
  let right := st.2.1
  let game := st.2.2
  let v1 := game.vertices.getD seg.v1 default
  let v2 := game.vertices.getD seg.v2 default
  let a := point_on_side_f32 split_v1 split_v2 v1
  let b := point_on_side_f32 split_v1 split_v2 v2
  if a * b = -1 then
    match line_intersect_f32 split_v1 split_v2 v1 v2 with
    | none => none
    | some split_point =>
      let num_vertices := game.vertices.length
      let game1 := { game with vertices := game.vertices ++ [split_point] }
      if a = -1 then
        some (left ++ [⟨seg.v1, num_vertices⟩], right ++ [⟨num_vertices, seg.v2⟩], game1)
      else
        some (left ++ [⟨num_vertices, seg.v2⟩], right ++ [⟨seg.v1, num_vertices⟩], game1)
  else if a = 1 ∨ b = 1 then
    some (left, right ++ [seg], game)
  else
    some (left ++ [seg], right, game)

/-- The loop of `split_segments` in binary32 arithmetic. -/
def split_segments_loop_f32 (split_v1 split_v2 : pol_Vec2 ℚ) :
    List LineSegment → List LineSegment × List LineSegment × GameState ℚ →
      Option (List LineSegment × List LineSegment × GameState ℚ)
  | [], st => some st
  | seg :: rest, st =>
    match split_segments_step_f32 split_v1 split_v2 st seg with
    | none => none
    | some st1 => split_segments_loop_f32 split_v1 split_v2 rest st1

/-- The function `split_segments` in binary32 arithmetic: the result is
`(left, right, game)`, or `none` when the sentinel was appended to the pool. -/
def split_segments_f32 (segments : List LineSegment) (game : GameState ℚ) :
    Option (List LineSegment × List LineSegment × GameState ℚ) :=
  let splitter := segments.headD default
  let split_v1 := game.vertices.getD splitter.v1 default
  let split_v2 := game.vertices.getD splitter.v2 default
  match split_segments_loop_f32 split_v1 split_v2 segments.tail ([], [], game) with
  | none => none
  | some st =>
    if st.2.1 = [] then some (st.1, [splitter], st.2.2)
    else some (st.1 ++ [splitter], st.2.1, st.2.2)

/-- The constant `M_PI` of `math.h` as a `double`: 3.141592653589793115997963…. -/
def M_PI : ℚ := 884279719003555 / 281474976710656

/-- The value of `90.0f*DEG2RAD`, computed in `double` because `M_PI` is a `double`. -/
def ninety_degrees_f64 : ℚ := f64 (90 * f64 (M_PI / 180))

/-- The rotation of `vec2_rotate` in binary32 arithmetic, given the two values `cosres`
and `sinres` that `SDL_cosf` and `SDL_sinf` have returned. -/
def vec2_rotate_f32 (cosres sinres : ℚ) (v : pol_Vec2 ℚ) : pol_Vec2 ℚ :=
  ⟨f32 (f32 (v.x * cosres) - f32 (v.y * sinres)), f32 (f32 (v.x * sinres) + f32 (v.y * cosres))⟩

/-- The angle that `world_to_view` passes to `vec2_rotate`: the sum
`-view_angle + 90.0f*DEG2RAD` is computed in `double` and converted to `float`. -/
def world_to_view_angle_f32 (player_cam : PlayerCam ℚ) : ℚ :=
  f32 (f64 (-player_cam.view_angle + ninety_degrees_f64))

/-- The function `world_to_view` in binary32 arithmetic. -/
def world_to_view_f32 (m : Libm ℚ) (v : pol_Vec2 ℚ) (player_cam : PlayerCam ℚ) : pol_Vec2 ℚ :=
  vec2_rotate_f32 (m.cosf (world_to_view_angle_f32 player_cam))
    (m.sinf (world_to_view_angle_f32 player_cam)) (vec2_subtract_f32 v player_cam.pos)

/-- An input on which the stored split point is off the splitter for the code's own test:
the splitter (−7,8)→(7,0) and the segment (−1,2)→(3,3). -/
def skew_split_game : GameState ℚ :=
  { player_cam := ⟨⟨0, 0⟩, 0, 0⟩,
    vertices := [⟨-7, 8⟩, ⟨7, 0⟩, ⟨-1, 2⟩, ⟨3, 3⟩],
    nodes := [], sectors := [] }

/-- The two segments of `skew_split_game`. -/
def skew_split_segments : List LineSegment := [⟨0, 1⟩, ⟨2, 3⟩]

/-- An input on which the determinant of `line_intersect` cancels in binary32: the splitter
(0,0)→(3701,3665) and the segment (−514,−509)→(4215,4174). -/
def cancel_split_game : GameState ℚ :=
  { player_cam := ⟨⟨0, 0⟩, 0, 0⟩,
    vertices := [⟨0, 0⟩, ⟨3701, 3665⟩, ⟨-514, -509⟩, ⟨4215, 4174⟩],
    nodes := [], sectors := [] }

/-- The camera of `init_game` (height 40, the view angle stored as a `float`) moved to
(3, −3): it is on the line of the wall (−6,6)→(−3,3). -/
def collinear_cam : PlayerCam ℚ := ⟨⟨3, -3⟩, 40, f32 ninety_degrees_f64⟩

end Aux

/-! ## Theorems -/

section GeometryFacts

variable {K : Type} [LinearOrderedField K]

/-- The tolerance ε is positive. -/
theorem EPSILON_pos : (0 : K) < EPSILON := by
  unfold EPSILON; positivity

/-- The side is 0 exactly when the cross product is within ε of 0, strictly. -/
theorem point_on_side_eq_zero_iff (A B P : pol_Vec2 K) :
    point_on_side A B P = 0 ↔
      |vec2_cross_product (vec2_subtract B A) (vec2_subtract P A)| < EPSILON := by
  unfold point_on_side
  simp only []
  split_ifs <;> simp_all

/-- The side is −1 exactly when the cross product is at least ε. -/
theorem point_on_side_eq_neg_one_iff (A B P : pol_Vec2 K) :
    point_on_side A B P = -1 ↔
      EPSILON ≤ vec2_cross_product (vec2_subtract B A) (vec2_subtract P A) := by
  have hε : (0 : K) < EPSILON := EPSILON_pos
  unfold point_on_side
  simp only []
  split_ifs with h1 h2
  · simp; exact lt_of_le_of_lt (le_abs_self _) h1
  · simp; rw [not_lt] at h1; rwa [abs_of_pos h2] at h1
  · have h3 : vec2_cross_product (vec2_subtract B A) (vec2_subtract P A) ≤ 0 := not_lt.mp h2
    have : ¬ (EPSILON ≤ vec2_cross_product (vec2_subtract B A) (vec2_subtract P A)) := by
      intro h; linarith
    simp [this]

/-- The side is +1 exactly when the cross product is at most −ε. -/
theorem point_on_side_eq_one_iff (A B P : pol_Vec2 K) :
    point_on_side A B P = 1 ↔
      vec2_cross_product (vec2_subtract B A) (vec2_subtract P A) ≤ -EPSILON := by
  have hε : (0 : K) < EPSILON := EPSILON_pos
  unfold point_on_side
  simp only []
  split_ifs with h1 h2
  · simp; rw [abs_lt] at h1; exact h1.1
  · have : ¬ (vec2_cross_product (vec2_subtract B A) (vec2_subtract P A) ≤ -EPSILON) := by
      intro h; linarith
    simp [this]
  · have h3 : vec2_cross_product (vec2_subtract B A) (vec2_subtract P A) ≤ 0 := not_lt.mp h2
    rw [not_lt, abs_of_nonpos h3] at h1
    simp; linarith

/-- The side is one of 0, −1, +1. -/
theorem point_on_side_cases (A B P : pol_Vec2 K) :
    point_on_side A B P = 0 ∨ point_on_side A B P = -1 ∨ point_on_side A B P = 1 := by
  unfold point_on_side
  simp only []
  split_ifs <;> simp

/-- Counterexample to claim C7 as stated: for the segment (0,0)→(1,0) and the point
(0, 1e-6) the cross product is exactly ε, so |c| ≤ ε holds, but `point_on_side` does not
return 0 (it returns −1). -/
theorem point_on_side_boundary_counterexample :
    |vec2_cross_product (vec2_subtract (⟨1, 0⟩ : pol_Vec2 ℚ) ⟨0, 0⟩)
        (vec2_subtract ⟨0, 1 / 1000000⟩ ⟨0, 0⟩)| ≤ EPSILON ∧
      point_on_side (⟨0, 0⟩ : pol_Vec2 ℚ) ⟨1, 0⟩ ⟨0, 1 / 1000000⟩ ≠ 0 := by
  constructor
  · norm_num [vec2_cross_product, vec2_subtract, EPSILON, abs_le]
  · rw [Ne, point_on_side_eq_zero_iff]
    norm_num [vec2_cross_product, vec2_subtract, EPSILON, abs_lt]

/-- Claim C7, amended: with c = cross(B−A, P−A) and ε = 1e-6, `point_on_side` returns −1
exactly when c ≥ ε, +1 exactly when c ≤ −ε, and 0 exactly when |c| < ε; on the boundary
|c| = ε the point is classified as off the line. -/
theorem point_on_side_strict (A B P : pol_Vec2 K) :
    (point_on_side A B P = -1 ↔
      EPSILON ≤ vec2_cross_product (vec2_subtract B A) (vec2_subtract P A)) ∧
    (point_on_side A B P = 1 ↔
      vec2_cross_product (vec2_subtract B A) (vec2_subtract P A) ≤ -EPSILON) ∧
    (point_on_side A B P = 0 ↔
      |vec2_cross_product (vec2_subtract B A) (vec2_subtract P A)| < EPSILON) :=
  ⟨point_on_side_eq_neg_one_iff A B P, point_on_side_eq_one_iff A B P,
    point_on_side_eq_zero_iff A B P⟩

end GeometryFacts

/-- Claim C9: over the reals, with the real cosine, sine and π, `view_to_world` and
`world_to_view` are inverse to each other, `world_to_view` maps the camera position to the
origin and the point at distance d along the view direction to (0, d). -/
theorem view_transform_round_trip (tanf sqrtf : ℝ → ℝ) (atan2f : ℝ → ℝ → ℝ)
    (cam : PlayerCam ℝ) (v : pol_Vec2 ℝ) (d : ℝ) :
    view_to_world ⟨Real.cos, Real.sin, tanf, atan2f, sqrtf, Real.pi⟩
        (world_to_view ⟨Real.cos, Real.sin, tanf, atan2f, sqrtf, Real.pi⟩ v cam) cam = v ∧
    world_to_view ⟨Real.cos, Real.sin, tanf, atan2f, sqrtf, Real.pi⟩
        (view_to_world ⟨Real.cos, Real.sin, tanf, atan2f, sqrtf, Real.pi⟩ v cam) cam = v ∧
    world_to_view ⟨Real.cos, Real.sin, tanf, atan2f, sqrtf, Real.pi⟩ cam.pos cam = ⟨0, 0⟩ ∧
    world_to_view ⟨Real.cos, Real.sin, tanf, atan2f, sqrtf, Real.pi⟩
        ⟨cam.pos.x + d * Real.cos cam.view_angle, cam.pos.y + d * Real.sin cam.view_angle⟩ cam
      = ⟨0, d⟩ := by
  have hang : cam.view_angle - 90 * (Real.pi / 180) = -(-cam.view_angle + 90 * (Real.pi / 180)) := by
    ring
  have hφ : -cam.view_angle + 90 * (Real.pi / 180) = Real.pi / 2 - cam.view_angle := by ring
  have hsq := Real.cos_sq_add_sin_sq (-cam.view_angle + 90 * (Real.pi / 180))
  have hsq2 := Real.cos_sq_add_sin_sq cam.view_angle
  obtain ⟨vx, vy⟩ := v
  refine ⟨?_, ?_, ?_, ?_⟩
  · simp only [view_to_world, world_to_view, vec2_rotate, vec2_add, vec2_subtract, DEG2RAD,
      hang, Real.cos_neg, Real.sin_neg, pol_Vec2.mk.injEq]
    constructor
    · linear_combination (vx - cam.pos.x) * hsq
    · linear_combination (vy - cam.pos.y) * hsq
  · simp only [view_to_world, world_to_view, vec2_rotate, vec2_add, vec2_subtract, DEG2RAD,
      hang, Real.cos_neg, Real.sin_neg, pol_Vec2.mk.injEq]
    constructor
    · linear_combination vx * hsq
    · linear_combination vy * hsq
  · simp [world_to_view, vec2_rotate, vec2_subtract]
  · simp only [world_to_view, vec2_rotate, vec2_subtract, DEG2RAD, hφ, Real.cos_pi_div_two_sub,
      Real.sin_pi_div_two_sub, pol_Vec2.mk.injEq]
    constructor
    · ring
    · linear_combination d * hsq2

section SplitFacts

variable {K : Type} [LinearOrderedField K]

/-- A product of two sides is −1 exactly when one is −1 and the other +1. -/
theorem side_mul_eq_neg_one_iff (A B p q : pol_Vec2 K) :
    point_on_side A B p * point_on_side A B q = -1 ↔
      (point_on_side A B p = -1 ∧ point_on_side A B q = 1) ∨
      (point_on_side A B p = 1 ∧ point_on_side A B q = -1) := by
  rcases point_on_side_cases A B p with h1 | h1 | h1 <;>
    rcases point_on_side_cases A B q with h2 | h2 | h2 <;>
    rw [h1, h2] <;> decide

/-- The determinant of `line_intersect` is the difference of the two cross products. -/
theorem line_intersect_det_eq (A B p q : pol_Vec2 K) :
    (A.x - B.x) * (p.y - q.y) - (A.y - B.y) * (p.x - q.x) =
      vec2_cross_product (vec2_subtract B A) (vec2_subtract q A) -
        vec2_cross_product (vec2_subtract B A) (vec2_subtract p A) := by
  simp only [vec2_cross_product, vec2_subtract]; ring

/-- When the endpoints p, q are strictly on opposite sides of the line AB, `line_intersect`
returns the point p + t(q − p) with t = c_p / (c_p − c_q), which lies on the line AB and
strictly between p and q. -/
theorem line_intersect_straddle (A B p q : pol_Vec2 K)
    (h : point_on_side A B p * point_on_side A B q = -1) :
    ∃ (X : pol_Vec2 K) (t : K), line_intersect A B p q = some X ∧
      vec2_cross_product (vec2_subtract B A) (vec2_subtract X A) = 0 ∧
      0 < t ∧ t < 1 ∧ X = ⟨p.x + t * (q.x - p.x), p.y + t * (q.y - p.y)⟩ := by
  have hε : (0 : K) < EPSILON := EPSILON_pos
  set cp := vec2_cross_product (vec2_subtract B A) (vec2_subtract p A) with hcp
  set cq := vec2_cross_product (vec2_subtract B A) (vec2_subtract q A) with hcq
  have hdet := line_intersect_det_eq A B p q
  rw [← hcp, ← hcq] at hdet
  have hval : line_intersect A B p q =
      if |(A.x - B.x) * (p.y - q.y) - (A.y - B.y) * (p.x - q.x)| < EPSILON then none
      else some ⟨((A.x * B.y - A.y * B.x) * (p.x - q.x)
            - (A.x - B.x) * (p.x * q.y - p.y * q.x)) /
              ((A.x - B.x) * (p.y - q.y) - (A.y - B.y) * (p.x - q.x)),
          ((A.x * B.y - A.y * B.x) * (p.y - q.y)
            - (A.y - B.y) * (p.x * q.y - p.y * q.x)) /
              ((A.x - B.x) * (p.y - q.y) - (A.y - B.y) * (p.x - q.x))⟩ := rfl
  have key : (EPSILON ≤ cp ∧ cq ≤ -EPSILON) ∨ (cp ≤ -EPSILON ∧ EPSILON ≤ cq) := by
    rcases (side_mul_eq_neg_one_iff A B p q).mp h with ⟨h1, h2⟩ | ⟨h1, h2⟩
    · exact Or.inl ⟨(point_on_side_eq_neg_one_iff A B p).mp h1,
        (point_on_side_eq_one_iff A B q).mp h2⟩
    · exact Or.inr ⟨(point_on_side_eq_one_iff A B p).mp h1,
        (point_on_side_eq_neg_one_iff A B q).mp h2⟩
  have hne : cq - cp ≠ 0 := by
    rcases key with ⟨h1, h2⟩ | ⟨h1, h2⟩
    · exact ne_of_lt (by linarith)
    · exact ne_of_gt (by linarith)
  have hnlt : ¬ |cq - cp| < EPSILON := by
    rw [abs_lt, not_and_or]
    rcases key with ⟨h1, h2⟩ | ⟨h1, h2⟩
    · left; linarith
    · right; linarith
  have hpq : cp - cq ≠ 0 := fun h0 => hne (by linarith)
  have hd : (A.x - B.x) * (p.y - q.y) - (A.y - B.y) * (p.x - q.x) ≠ 0 := by
    rw [hdet]; exact hne
  have ht : cp / (cp - cq) = -(cp / (cq - cp)) := by
    rw [← neg_sub cq cp, div_neg]
  have hX : line_intersect A B p q =
      some ⟨p.x + cp / (cp - cq) * (q.x - p.x), p.y + cp / (cp - cq) * (q.y - p.y)⟩ := by
    rw [hval, hdet, if_neg hnlt, Option.some.injEq, pol_Vec2.mk.injEq, ht]
    constructor
    · rw [div_eq_iff hne, add_mul, neg_mul, neg_mul, div_mul_eq_mul_div, div_mul_cancel₀ _ hne,
        hcp, hcq]
      simp only [vec2_cross_product, vec2_subtract]
      ring
    · rw [div_eq_iff hne, add_mul, neg_mul, neg_mul, div_mul_eq_mul_div, div_mul_cancel₀ _ hne,
        hcp, hcq]
      simp only [vec2_cross_product, vec2_subtract]
      ring
  refine ⟨_, cp / (cp - cq), hX, ?_, ?_, ?_, rfl⟩
  · have e : vec2_cross_product (vec2_subtract B A)
        (vec2_subtract ⟨p.x + cp / (cp - cq) * (q.x - p.x), p.y + cp / (cp - cq) * (q.y - p.y)⟩ A)
        = cp + cp / (cp - cq) * (cq - cp) := by
      rw [hcp, hcq]
      simp only [vec2_cross_product, vec2_subtract]
      ring
    rw [e, ht, neg_mul, div_mul_cancel₀ _ hne]
    ring
  · rcases key with ⟨h1, h2⟩ | ⟨h1, h2⟩
    · exact div_pos (by linarith) (by linarith)
    · exact div_pos_of_neg_of_neg (by linarith) (by linarith)
  · rcases key with ⟨h1, h2⟩ | ⟨h1, h2⟩
    · rw [div_lt_one (by linarith)]; linarith
    · rw [div_lt_one_of_neg (by linarith)]; linarith

/-- One step of the loop of `split_segments` leaves nodes, sectors and camera alone. -/
theorem split_segments_step_frame (A B : pol_Vec2 K)
    (st : List LineSegment × List LineSegment × GameState K) (seg : LineSegment) :
    (split_segments_step A B st seg).2.2.nodes = st.2.2.nodes ∧
    (split_segments_step A B st seg).2.2.sectors = st.2.2.sectors ∧
    (split_segments_step A B st seg).2.2.player_cam = st.2.2.player_cam := by
  unfold split_segments_step
  simp only []
  split_ifs <;> exact ⟨rfl, rfl, rfl⟩

/-- One step of the loop of `split_segments` on a straddling segment. -/
theorem split_segments_step_straddle (A B : pol_Vec2 K)
    (st : List LineSegment × List LineSegment × GameState K) (seg : LineSegment)
    (h : straddles A B st.2.2.vertices seg) :
    ∃ (X : pol_Vec2 K) (t : K),
      line_intersect A B (st.2.2.vertices.getD seg.v1 default)
        (st.2.2.vertices.getD seg.v2 default) = some X ∧
      (split_segments_step A B st seg).2.2.vertices = st.2.2.vertices ++ [X] ∧
      vec2_cross_product (vec2_subtract B A) (vec2_subtract X A) = 0 ∧
      0 < t ∧ t < 1 ∧
      X = ⟨(st.2.2.vertices.getD seg.v1 default).x +
            t * ((st.2.2.vertices.getD seg.v2 default).x - (st.2.2.vertices.getD seg.v1 default).x),
          (st.2.2.vertices.getD seg.v1 default).y +
            t * ((st.2.2.vertices.getD seg.v2 default).y - (st.2.2.vertices.getD seg.v1 default).y)⟩ ∧
      (point_on_side A B (st.2.2.vertices.getD seg.v1 default) = -1 →
        (split_segments_step A B st seg).1 = st.1 ++ [⟨seg.v1, st.2.2.vertices.length⟩] ∧
        (split_segments_step A B st seg).2.1 = st.2.1 ++ [⟨st.2.2.vertices.length, seg.v2⟩]) ∧
      (point_on_side A B (st.2.2.vertices.getD seg.v1 default) = 1 →
        (split_segments_step A B st seg).2.1 = st.2.1 ++ [⟨seg.v1, st.2.2.vertices.length⟩] ∧
        (split_segments_step A B st seg).1 = st.1 ++ [⟨st.2.2.vertices.length, seg.v2⟩]) := by
  have h : point_on_side A B (st.2.2.vertices.getD seg.v1 default) *
      point_on_side A B (st.2.2.vertices.getD seg.v2 default) = -1 := h
  obtain ⟨X, t, hX, hline, ht0, ht1, hXeq⟩ := line_intersect_straddle A B _ _ h
  refine ⟨X, t, hX, ?_, hline, ht0, ht1, hXeq, ?_, ?_⟩
  · unfold split_segments_step
    simp only []
    rw [if_pos h, hX]
    split_ifs <;> rfl
  · intro ha
    unfold split_segments_step
    simp only []
    rw [if_pos h, if_pos ha]
    exact ⟨rfl, rfl⟩
  · intro ha
    have hna : ¬ point_on_side A B (st.2.2.vertices.getD seg.v1 default) = -1 := by
      rw [ha]; decide
    unfold split_segments_step
    simp only []
    rw [if_pos h, if_neg hna]
    exact ⟨rfl, rfl⟩

/-- One step of the loop of `split_segments` on a segment that does not straddle appends
nothing to the pool. -/
theorem split_segments_step_no_straddle (A B : pol_Vec2 K)
    (st : List LineSegment × List LineSegment × GameState K) (seg : LineSegment)
    (h : ¬ straddles A B st.2.2.vertices seg) :
    (split_segments_step A B st seg).2.2.vertices = st.2.2.vertices := by
  have h : ¬ point_on_side A B (st.2.2.vertices.getD seg.v1 default) *
      point_on_side A B (st.2.2.vertices.getD seg.v2 default) = -1 := h
  unfold split_segments_step
  simp only []
  rw [if_neg h]
  split_ifs <;> rfl

/-- Each step of the loop of `split_segments` only appends to the two lists. -/
theorem split_segments_step_lists (A B : pol_Vec2 K)
    (st : List LineSegment × List LineSegment × GameState K) (seg : LineSegment) :
    st.1 <+: (split_segments_step A B st seg).1 ∧
      st.2.1 <+: (split_segments_step A B st seg).2.1 := by
  unfold split_segments_step
  simp only []
  split_ifs <;> simp

/-- The loop of `split_segments` only appends to the two lists. -/
theorem split_segments_fold_lists (A B : pol_Vec2 K) (segs : List LineSegment) :
    ∀ st : List LineSegment × List LineSegment × GameState K,
      st.1 <+: (segs.foldl (split_segments_step A B) st).1 ∧
      st.2.1 <+: (segs.foldl (split_segments_step A B) st).2.1 := by
  induction segs with
  | nil => intro st; exact ⟨List.prefix_refl _, List.prefix_refl _⟩
  | cons s rest ih =>
    intro st
    rw [List.foldl_cons]
    obtain ⟨h1, h2⟩ := split_segments_step_lists A B st s
    obtain ⟨h3, h4⟩ := ih (split_segments_step A B st s)
    exact ⟨h1.trans h3, h2.trans h4⟩

/-- Reading a vertex that exists is not affected by appending to the pool. -/
theorem getD_append_pool (vs ext : List (pol_Vec2 K)) (i : Nat) (h : i < vs.length) :
    (vs ++ ext).getD i default = vs.getD i default :=
  List.getD_append vs ext default i h

/-- Whether a segment of the pool straddles does not change when the pool grows. -/
theorem straddles_append (A B : pol_Vec2 K) (vs ext : List (pol_Vec2 K)) (s : LineSegment)
    (h : seg_in_pool vs.length s) :
    straddles A B (vs ++ ext) s ↔ straddles A B vs s := by
  unfold straddles
  rw [getD_append_pool vs ext s.v1 h.1, getD_append_pool vs ext s.v2 h.2]

/-- The loop of `split_segments` appends one vertex per straddling segment. -/
theorem split_segments_fold_vertices (A B : pol_Vec2 K) (vs : List (pol_Vec2 K))
    (segs : List LineSegment) (hvalid : ∀ s ∈ segs, seg_in_pool vs.length s) :
    ∀ (st : List LineSegment × List LineSegment × GameState K) (ext : List (pol_Vec2 K)),
      st.2.2.vertices = vs ++ ext →
      ∃ new : List (pol_Vec2 K),
        (segs.foldl (split_segments_step A B) st).2.2.vertices = st.2.2.vertices ++ new ∧
        new.length = (segs.filter fun s => decide (straddles A B vs s)).length := by
  induction segs with
  | nil => intro st ext _; exact ⟨[], by simp, by simp⟩
  | cons s rest ih =>
    intro st ext hst
    have hs : seg_in_pool vs.length s := hvalid s (List.mem_cons_self _ _)
    have hrest : ∀ s ∈ rest, seg_in_pool vs.length s :=
      fun s' hs' => hvalid s' (List.mem_cons_of_mem _ hs')
    rw [List.foldl_cons]
    by_cases hstr : straddles A B vs s
    · have hstr' : straddles A B st.2.2.vertices s := by
        rw [hst]; exact (straddles_append A B vs ext s hs).mpr hstr
      obtain ⟨X, t, -, hv, -⟩ := split_segments_step_straddle A B st s hstr'
      obtain ⟨new, hnew, hlen⟩ := ih hrest (split_segments_step A B st s) (ext ++ [X])
        (by rw [hv, hst, List.append_assoc])
      refine ⟨X :: new, ?_, ?_⟩
      · rw [hnew, hv, List.append_assoc]; rfl
      · rw [List.filter_cons_of_pos (by simpa using hstr), List.length_cons, List.length_cons,
          hlen]
    · have hstr' : ¬ straddles A B st.2.2.vertices s := by
        rw [hst]; exact fun h => hstr ((straddles_append A B vs ext s hs).mp h)
      have hv := split_segments_step_no_straddle A B st s hstr'
      obtain ⟨new, hnew, hlen⟩ := ih hrest (split_segments_step A B st s) ext
        (by rw [hv, hst])
      refine ⟨new, ?_, ?_⟩
      · rw [hnew, hv]
      · rw [List.filter_cons_of_neg (by simpa using hstr), hlen]

/-- The game state returned by `split_segments` is the one the loop ends with. -/
theorem split_segments_game (segments : List LineSegment) (game : GameState K) :
    (split_segments segments game).2.2 =
      (segments.tail.foldl
        (split_segments_step (game.vertices.getD (segments.headD default).v1 default)
          (game.vertices.getD (segments.headD default).v2 default)) ([], [], game)).2.2 := by
  unfold split_segments
  simp only []
  split_ifs <;> rfl

/-- The lists returned by `split_segments` extend the lists the loop ends with. -/
theorem split_segments_lists (segments : List LineSegment) (game : GameState K) :
    (segments.tail.foldl
        (split_segments_step (game.vertices.getD (segments.headD default).v1 default)
          (game.vertices.getD (segments.headD default).v2 default)) ([], [], game)).1
      <+: (split_segments segments game).1 ∧
    (segments.tail.foldl
        (split_segments_step (game.vertices.getD (segments.headD default).v1 default)
          (game.vertices.getD (segments.headD default).v2 default)) ([], [], game)).2.1
      <+: (split_segments segments game).2.1 := by
  unfold split_segments
  simp only []
  split_ifs with h
  · exact ⟨List.prefix_refl _, by rw [h]; exact List.nil_prefix⟩
  · exact ⟨List.prefix_append _ _, List.prefix_refl _⟩

/-- The loop of `split_segments` leaves nodes, sectors and camera alone. -/
theorem split_segments_fold_frame (A B : pol_Vec2 K) (segs : List LineSegment) :
    ∀ st : List LineSegment × List LineSegment × GameState K,
      (segs.foldl (split_segments_step A B) st).2.2.nodes = st.2.2.nodes ∧
      (segs.foldl (split_segments_step A B) st).2.2.sectors = st.2.2.sectors ∧
      (segs.foldl (split_segments_step A B) st).2.2.player_cam = st.2.2.player_cam := by
  induction segs with
  | nil => intro st; exact ⟨rfl, rfl, rfl⟩
  | cons s rest ih =>
    intro st
    rw [List.foldl_cons]
    obtain ⟨h1, h2, h3⟩ := split_segments_step_frame A B st s
    obtain ⟨h4, h5, h6⟩ := ih (split_segments_step A B st s)
    exact ⟨h4.trans h1, h5.trans h2, h6.trans h3⟩

/-- Claim C10, amended: in exact arithmetic, let the splitter be the first segment of a
list whose segments only name vertices of the pool.  When the loop of `split_segments`
reaches a segment (p,q) whose endpoints are on strictly opposite sides of the splitter, it
appends exactly one vertex X to the pool, leaving the earlier vertices, the nodes and the
sectors as they were; X is the point `line_intersect` returns, it lies on the line of the
splitter and strictly between p and q; the fragment (p→X) is appended to the list matching
the side of p and (X→q) to the list matching the side of q (left for −1, right for +1);
both stay in the lists the call returns.  A call grows the pool by exactly the number of
straddling segments. -/
theorem split_segments_straddle (segments : List LineSegment) (game : GameState K)
    (hvalid : ∀ s ∈ segments, seg_in_pool game.vertices.length s) :
    let A := game.vertices.getD (segments.headD default).v1 default
    let B := game.vertices.getD (segments.headD default).v2 default
    (∀ (pre post : List LineSegment) (seg : LineSegment),
      segments.tail = pre ++ seg :: post → straddles A B game.vertices seg →
      let st := pre.foldl (split_segments_step A B) ([], [], game)
      let st1 := split_segments_step A B st seg
      let n := game.vertices.length + (pre.filter fun s => decide
        (straddles A B game.vertices s)).length
      let p := game.vertices.getD seg.v1 default
      let q := game.vertices.getD seg.v2 default
      ∃ (X : pol_Vec2 K) (t : K) (new : List (pol_Vec2 K)),
        line_intersect A B p q = some X ∧
        st.2.2.vertices = game.vertices ++ new ∧ st.2.2.vertices.length = n ∧
        st1.2.2.vertices = st.2.2.vertices ++ [X] ∧
        st1.2.2.nodes = game.nodes ∧ st1.2.2.sectors = game.sectors ∧
        vec2_cross_product (vec2_subtract B A) (vec2_subtract X A) = 0 ∧
        0 < t ∧ t < 1 ∧ X = ⟨p.x + t * (q.x - p.x), p.y + t * (q.y - p.y)⟩ ∧
        ((point_on_side A B p = -1 ∧ point_on_side A B q = 1 ∧
            st1.1 = st.1 ++ [⟨seg.v1, n⟩] ∧ st1.2.1 = st.2.1 ++ [⟨n, seg.v2⟩]) ∨
          (point_on_side A B p = 1 ∧ point_on_side A B q = -1 ∧
            st1.2.1 = st.2.1 ++ [⟨seg.v1, n⟩] ∧ st1.1 = st.1 ++ [⟨n, seg.v2⟩])) ∧
        st1.1 <+: (split_segments segments game).1 ∧
        st1.2.1 <+: (split_segments segments game).2.1) ∧
    (∃ new : List (pol_Vec2 K),
      (split_segments segments game).2.2.vertices = game.vertices ++ new ∧
      new.length = (segments.tail.filter fun s => decide
        (straddles A B game.vertices s)).length) := by
  intro A B
  have htail : ∀ s ∈ segments.tail, seg_in_pool game.vertices.length s :=
    fun s hs => hvalid s (List.mem_of_mem_tail hs)
  constructor
  · intro pre post seg hsplit hstr st st1 n p q
    have hpre : ∀ s ∈ pre, seg_in_pool game.vertices.length s := by
      intro s hs; apply htail; rw [hsplit]; exact List.mem_append_left _ hs
    have hseg : seg_in_pool game.vertices.length seg := by
      apply htail; rw [hsplit]; simp
    obtain ⟨new, hnew, hlen⟩ := split_segments_fold_vertices A B game.vertices pre hpre
      ([], [], game) [] (by simp)
    have hnew : st.2.2.vertices = game.vertices ++ new := hnew
    have hstr1 : straddles A B st.2.2.vertices seg := by
      rw [hnew]; exact (straddles_append A B _ new seg hseg).mpr hstr
    have hp : st.2.2.vertices.getD seg.v1 default = p := by
      rw [hnew]; exact getD_append_pool _ new _ hseg.1
    have hq : st.2.2.vertices.getD seg.v2 default = q := by
      rw [hnew]; exact getD_append_pool _ new _ hseg.2
    have hn : st.2.2.vertices.length = n := by
      rw [hnew, List.length_append, hlen]
    obtain ⟨X, t, hX, hv, hline, ht0, ht1, hXeq, hl, hr⟩ :=
      split_segments_step_straddle A B st seg hstr1
    rw [hp] at hX hXeq hl hr
    rw [hq] at hX hXeq
    rw [hn] at hl hr
    obtain ⟨f1, f2, -⟩ := split_segments_step_frame A B st seg
    obtain ⟨g1, g2, -⟩ := split_segments_fold_frame A B pre ([], [], game)
    have hfinal : segments.tail.foldl (split_segments_step A B) ([], [], game) =
        post.foldl (split_segments_step A B) st1 := by
      rw [hsplit, List.foldl_append, List.foldl_cons]
    obtain ⟨k1, k2⟩ := split_segments_fold_lists A B post st1
    obtain ⟨m1, m2⟩ := split_segments_lists segments game
    refine ⟨X, t, new, hX, hnew, hn, hv, f1.trans g1, f2.trans g2, hline, ht0, ht1, hXeq, ?_,
      ?_, ?_⟩
    · rcases (side_mul_eq_neg_one_iff A B p q).mp hstr with ⟨h1, h2⟩ | ⟨h1, h2⟩
      · exact Or.inl ⟨h1, h2, hl h1⟩
      · exact Or.inr ⟨h1, h2, hr h1⟩
    · refine List.IsPrefix.trans ?_ m1
      show st1.1 <+: (segments.tail.foldl (split_segments_step A B) ([], [], game)).1
      rw [hfinal]; exact k1
    · refine List.IsPrefix.trans ?_ m2
      show st1.2.1 <+: (segments.tail.foldl (split_segments_step A B) ([], [], game)).2.1
      rw [hfinal]; exact k2
  · obtain ⟨new, hnew, hlen⟩ := split_segments_fold_vertices A B game.vertices segments.tail
      htail ([], [], game) [] (by simp)
    refine ⟨new, ?_, hlen⟩
    rw [split_segments_game]
    exact hnew

end SplitFacts

/-- Witness for claim C10 (amended) on Scenario B: the segments only name vertices of the pool, and
the call appends exactly one vertex, for the one segment that crosses the splitter. -/
theorem split_segments_straddle_witness :
    (∀ s ∈ scenario_b_segments, seg_in_pool scenario_b_game.vertices.length s) ∧
    ∃ new : List (pol_Vec2 ℚ),
      (split_segments scenario_b_segments scenario_b_game).2.2.vertices =
        scenario_b_game.vertices ++ new ∧ new.length = 1 := by
  have hvalid : ∀ s ∈ scenario_b_segments, seg_in_pool scenario_b_game.vertices.length s := by
    simp [scenario_b_segments, scenario_b_game, seg_in_pool]
  refine ⟨hvalid, ?_⟩
  obtain ⟨new, h1, h2⟩ := (split_segments_straddle scenario_b_segments scenario_b_game hvalid).2
  refine ⟨new, h1, ?_⟩
  rw [h2]
  simp [scenario_b_segments, scenario_b_game, straddles, point_on_side, vec2_cross_product,
    vec2_subtract, EPSILON, List.filter, abs_lt, VEC2ZERO, default]
  norm_num

section CullFacts

variable {K : Type} [LinearOrderedField K]

/-- The side only depends on the cross product. -/
theorem point_on_side_congr (A B P A1 B1 P1 : pol_Vec2 K)
    (h : vec2_cross_product (vec2_subtract B A) (vec2_subtract P A) =
      vec2_cross_product (vec2_subtract B1 A1) (vec2_subtract P1 A1)) :
    point_on_side A B P = point_on_side A1 B1 P1 := by
  unfold point_on_side
  simp only []
  rw [h]

end CullFacts

/-- The view-space backface test of `render_line_segment` is the world-space side of the
camera, over the reals. -/
theorem view_side_eq_world_side (tanf sqrtf : ℝ → ℝ) (atan2f : ℝ → ℝ → ℝ)
    (cam : PlayerCam ℝ) (v1 v2 : pol_Vec2 ℝ) :
    point_on_side (world_to_view ⟨Real.cos, Real.sin, tanf, atan2f, sqrtf, Real.pi⟩ v1 cam)
        (world_to_view ⟨Real.cos, Real.sin, tanf, atan2f, sqrtf, Real.pi⟩ v2 cam) VEC2ZERO =
      point_on_side v1 v2 cam.pos := by
  apply point_on_side_congr
  have hsq := Real.cos_sq_add_sin_sq (-cam.view_angle + 90 * (Real.pi / 180))
  simp only [world_to_view, vec2_rotate, vec2_subtract, vec2_cross_product, DEG2RAD, VEC2ZERO]
  linear_combination
    ((v2.x - v1.x) * (cam.pos.y - v1.y) - (v2.y - v1.y) * (cam.pos.x - v1.x)) * hsq

/-- Claim C6, amended: over the reals, the backface test `render_line_segment` makes in
view space equals the side of the camera position with respect to the wall in world space;
`render_line_segment` writes no pixel unless that side is +1; in particular the wall
(0,0)→(100,0) seen from (50,50) with view angle −π/2 is culled. -/
theorem backface_culling (tanf sqrtf : ℝ → ℝ) (atan2f : ℝ → ℝ → ℝ)
    (game : GameState ℝ) (draw_seg : DrawSegment ℝ) :
    (point_on_side
        (world_to_view ⟨Real.cos, Real.sin, tanf, atan2f, sqrtf, Real.pi⟩
          (game.vertices.getD draw_seg.line_seg.v1 default) game.player_cam)
        (world_to_view ⟨Real.cos, Real.sin, tanf, atan2f, sqrtf, Real.pi⟩
          (game.vertices.getD draw_seg.line_seg.v2 default) game.player_cam) VEC2ZERO =
      point_on_side (game.vertices.getD draw_seg.line_seg.v1 default)
        (game.vertices.getD draw_seg.line_seg.v2 default) game.player_cam.pos) ∧
    (point_on_side (game.vertices.getD draw_seg.line_seg.v1 default)
        (game.vertices.getD draw_seg.line_seg.v2 default) game.player_cam.pos ≠ 1 →
      render_line_segment ⟨Real.cos, Real.sin, tanf, atan2f, sqrtf, Real.pi⟩ game draw_seg
        = []) ∧
    (∀ (height floor_height ceiling_height : ℝ) (tex : SDL_Surface),
      render_line_segment ⟨Real.cos, Real.sin, tanf, atan2f, sqrtf, Real.pi⟩
        { player_cam := ⟨⟨50, 50⟩, height, -(Real.pi / 2)⟩,
          vertices := [⟨0, 0⟩, ⟨100, 0⟩], nodes := [], sectors := [] }
        ⟨⟨0, 1⟩, floor_height, ceiling_height, tex⟩ = []) := by
  have key : ∀ (game : GameState ℝ) (draw_seg : DrawSegment ℝ),
      point_on_side (game.vertices.getD draw_seg.line_seg.v1 default)
        (game.vertices.getD draw_seg.line_seg.v2 default) game.player_cam.pos ≠ 1 →
      render_line_segment ⟨Real.cos, Real.sin, tanf, atan2f, sqrtf, Real.pi⟩ game draw_seg
        = [] := by
    intro game draw_seg h
    rw [← view_side_eq_world_side tanf sqrtf atan2f] at h
    unfold render_line_segment
    simp only []
    split_ifs with h1
    · rfl
    · rfl
  refine ⟨view_side_eq_world_side tanf sqrtf atan2f _ _ _, key game draw_seg, ?_⟩
  intro height fh ch tex
  apply key
  rw [Ne, point_on_side_eq_one_iff]
  norm_num [vec2_cross_product, vec2_subtract, EPSILON]

/-- Witness for claim C6 (amended, Scenario D): the camera at (50,50) is not on side +1 of the wall
(0,0)→(100,0), and nothing is drawn. -/
theorem backface_culling_witness :
    point_on_side (⟨0, 0⟩ : pol_Vec2 ℝ) ⟨100, 0⟩ ⟨50, 50⟩ ≠ 1 ∧
    render_line_segment
      ⟨Real.cos, Real.sin, Real.tan, fun y x => Complex.arg ⟨x, y⟩, Real.sqrt, Real.pi⟩
      { player_cam := ⟨⟨50, 50⟩, 40, -(Real.pi / 2)⟩,
        vertices := [⟨0, 0⟩, ⟨100, 0⟩], nodes := [], sectors := [] }
      ⟨⟨0, 1⟩, 0, 64, ⟨64, 64, []⟩⟩ = [] := by
  have h : point_on_side (⟨0, 0⟩ : pol_Vec2 ℝ) ⟨100, 0⟩ ⟨50, 50⟩ ≠ 1 := by
    rw [Ne, point_on_side_eq_one_iff]
    norm_num [vec2_cross_product, vec2_subtract, EPSILON]
  exact ⟨h, (backface_culling Real.tan Real.sqrt (fun y x => Complex.arg ⟨x, y⟩)
    { player_cam := ⟨⟨50, 50⟩, 40, -(Real.pi / 2)⟩,
      vertices := [⟨0, 0⟩, ⟨100, 0⟩], nodes := [], sectors := [] }
    ⟨⟨0, 1⟩, 0, 64, ⟨64, 64, []⟩⟩).2.1 h⟩

section RasterFacts

variable {K : Type} [LinearOrderedField K] [FloorRing K]

/-- The first pixel `draw_column` writes, when it writes any, is at `(x, y1)`. -/
theorem draw_column_first (column : DrawColumn K) (tex : SDL_Surface)
    (h : column.y1 ≤ column.y2) :
    ∃ c, (⟨column.x, column.y1, c⟩ : PixelWrite) ∈ draw_column column tex := by
  unfold draw_column
  simp only []
  obtain ⟨n, hn⟩ : ∃ n : Nat, (column.y2 + 1 - column.y1).toNat = n + 1 := by
    refine ⟨(column.y2 - column.y1).toNat, ?_⟩
    omega
  rw [hn]
  unfold draw_column_rows
  exact ⟨_, List.mem_cons_self _ _⟩

/-- The first column `render_columns` visits, when it is not skipped, gets a wall pixel in
its clamped top row. -/
theorem render_columns_first (m : Libm K) (s : WallSpan K) (n : Nat) (x : Int) (sy1 sy2 : K)
    (y1 y2 : Int) (h1 : float_to_int (sy1 + 1 / 2) = y1) (h2 : float_to_int (sy2 - 1 / 2) = y2)
    (hy1 : 0 ≤ y1) (hy12 : y1 ≤ y2) (hy2 : y2 < SCREEN_HEIGHT) :
    ∃ c, (⟨x, y1, c⟩ : PixelWrite) ∈ render_columns m s (n + 1) x sy1 sy2 := by
  have hS : SCREEN_HEIGHT = 400 := rfl
  rw [hS] at hy2
  have hskip : ¬ (y1 ≥ SCREEN_HEIGHT ∨ y2 < 0 ∨ y2 < y1) := by
    rw [hS]; omega
  have hc1 : CLAMP y1 0 (SCREEN_HEIGHT - 1) = y1 := by
    unfold CLAMP MAX MIN; rw [hS]; split_ifs <;> omega
  have hc2 : CLAMP y2 0 (SCREEN_HEIGHT - 1) = y2 := by
    unfold CLAMP MAX MIN; rw [hS]; split_ifs <;> omega
  unfold render_columns
  simp only [h1, h2, if_neg hskip, hc1, hc2]
  have key : ∀ (col : DrawColumn K) (rest : List PixelWrite), col.x = x → col.y1 = y1 →
      col.y2 = y2 → ∃ c, (⟨x, y1, c⟩ : PixelWrite) ∈ draw_column col s.tex ++ rest := by
    intro col rest hx hcy1 hcy2
    obtain ⟨c, hc⟩ := draw_column_first col s.tex (by rw [hcy1, hcy2]; exact hy12)
    rw [hx, hcy1] at hc
    exact ⟨c, List.mem_append_left _ hc⟩
  simp only [List.append_assoc]
  exact key _ _ rfl rfl rfl

/-- The conversion to `int` of a non-negative number. -/
theorem float_to_int_of_nonneg (f : K) (z : Int) (h0 : 0 ≤ f) (h1 : (z : K) ≤ f)
    (h2 : f < (z : K) + 1) : float_to_int f = z := by
  unfold float_to_int
  rw [if_pos h0, Int.floor_eq_iff]
  exact ⟨h1, h2⟩

/-- The conversion to `int` of a negative number. -/
theorem float_to_int_of_neg (f : K) (z : Int) (h0 : f < 0) (h1 : (z : K) - 1 < f)
    (h2 : f ≤ (z : K)) : float_to_int f = z := by
  unfold float_to_int
  rw [if_neg (not_le.mpr h0), Int.ceil_eq_iff]
  exact ⟨h1, h2⟩

end RasterFacts

/-- The argument of x + iy is at most π/4 when y ≤ x and x > 0. -/
theorem arg_le_pi_div_four (x y : ℝ) (hx : 0 < x) (hyx : y ≤ x) :
    Complex.arg ⟨x, y⟩ ≤ Real.pi / 4 := by
  by_contra hlt
  rw [not_le] at hlt
  have h2 : Complex.arg ⟨x, y⟩ < Real.pi / 2 :=
    Complex.arg_lt_pi_div_two_iff.mpr (Or.inl hx)
  have h3 := Real.tan_lt_tan_of_lt_of_lt_pi_div_two (by linarith [Real.pi_pos]) h2 hlt
  rw [Real.tan_pi_div_four, Complex.tan_arg] at h3
  have : y / x ≤ 1 := by rw [div_le_one hx]; exact hyx
  exact absurd h3 (not_lt.mpr this)

/-- The wall of `far_wall_game`, in view space, meets neither of the two clipping rays of
length 10000: the parameter along the ray would be 1.42/√2 > 1. -/
theorem far_wall_not_clipped (c : ℝ) (hc : c = Real.sqrt 2 / 2) (sgn : ℝ) :
    line_segment_intersect (VEC2ZERO : pol_Vec2 ℝ) ⟨sgn * (10000 * c), 10000 * c⟩
      ⟨-7226, 7100⟩ ⟨-7098, 7100⟩ = none := by
  have h2 : Real.sqrt 2 * Real.sqrt 2 = 2 := Real.mul_self_sqrt (by norm_num)
  have hpos : 0 < Real.sqrt 2 := Real.sqrt_pos.mpr (by norm_num)
  have hlt : Real.sqrt 2 < 142 / 100 := by
    by_contra h
    rw [not_lt] at h
    nlinarith
  have hval : line_segment_intersect (VEC2ZERO : pol_Vec2 ℝ) ⟨sgn * (10000 * c), 10000 * c⟩
      ⟨-7226, 7100⟩ ⟨-7098, 7100⟩ =
      if |(0 - sgn * (10000 * c)) * (7100 - 7100) - (0 - 10000 * c) * (-7226 - -7098)| < EPSILON
      then none
      else if ((0 - -7226) * (7100 - 7100) - (0 - 7100) * (-7226 - -7098)) /
            ((0 - sgn * (10000 * c)) * (7100 - 7100) - (0 - 10000 * c) * (-7226 - -7098)) < 0 ∨
          ((0 - -7226) * (7100 - 7100) - (0 - 7100) * (-7226 - -7098)) /
            ((0 - sgn * (10000 * c)) * (7100 - 7100) - (0 - 10000 * c) * (-7226 - -7098)) > 1 ∨
          -((0 - sgn * (10000 * c)) * (0 - 7100) - (0 - 10000 * c) * (0 - -7226)) /
            ((0 - sgn * (10000 * c)) * (7100 - 7100) - (0 - 10000 * c) * (-7226 - -7098)) < 0 ∨
          -((0 - sgn * (10000 * c)) * (0 - 7100) - (0 - 10000 * c) * (0 - -7226)) /
            ((0 - sgn * (10000 * c)) * (7100 - 7100) - (0 - 10000 * c) * (-7226 - -7098)) > 1
        then none
        else some ⟨0 + ((0 - -7226) * (7100 - 7100) - (0 - 7100) * (-7226 - -7098)) /
            ((0 - sgn * (10000 * c)) * (7100 - 7100) - (0 - 10000 * c) * (-7226 - -7098)) *
              (sgn * (10000 * c) - 0),
          0 + ((0 - -7226) * (7100 - 7100) - (0 - 7100) * (-7226 - -7098)) /
            ((0 - sgn * (10000 * c)) * (7100 - 7100) - (0 - 10000 * c) * (-7226 - -7098)) *
              (10000 * c - 0)⟩ := rfl
  rw [hval]
  have hdet : (0 - sgn * (10000 * c)) * (7100 - 7100) - (0 - 10000 * c) * (-7226 - -7098) =
      -(640000 * Real.sqrt 2) := by rw [hc]; ring
  have hnum : ((0 : ℝ) - -7226) * (7100 - 7100) - (0 - 7100) * (-7226 - -7098) = -908800 := by
    norm_num
  rw [hdet, hnum]
  have ht : (1 : ℝ) < -908800 / -(640000 * Real.sqrt 2) := by
    rw [neg_div_neg_eq, lt_div_iff₀ (by positivity)]
    nlinarith
  split_ifs with h1 h2
  · rfl
  · rfl
  · exact absurd (Or.inr (Or.inl ht)) h2

/-- Claim C4 fails on the code: for the first wall of the map seen from (6970, −6844), the
wall crosses the left edge of the view farther away than the clipping ray reaches, it is
not clipped, and `render_line_segment` writes a pixel in column x = −5 (row 199). -/
theorem far_wall_out_of_bounds (tex : SDL_Surface) :
    ∃ w ∈ render_line_segment
        ⟨Real.cos, Real.sin, Real.tan, fun y x => Complex.arg ⟨x, y⟩, Real.sqrt, Real.pi⟩
        (far_wall_game
          ⟨Real.cos, Real.sin, Real.tan, fun y x => Complex.arg ⟨x, y⟩, Real.sqrt, Real.pi⟩)
        ⟨⟨0, 1⟩, 0, 64, tex⟩,
      w.x = -5 ∧ w.y = 199 := by
  have hfov : (90 : ℝ) * (Real.pi / 180) / 2 = Real.pi / 4 := by ring
  have hfov2 : -((90 : ℝ) * (Real.pi / 180)) / 2 = -(Real.pi / 4) := by ring
  have hang : -((90 : ℝ) * (Real.pi / 180)) + 90 * (Real.pi / 180) = 0 := by ring
  have hclip1 := far_wall_not_clipped (Real.cos (Real.pi / 4)) Real.cos_pi_div_four (-1)
  have hclip2 := far_wall_not_clipped (Real.cos (Real.pi / 4)) Real.cos_pi_div_four 1
  have hside : point_on_side (⟨-7226, 7100⟩ : pol_Vec2 ℝ) ⟨-7098, 7100⟩ VEC2ZERO = 1 := by
    rw [point_on_side_eq_one_iff]
    norm_num [vec2_cross_product, vec2_subtract, EPSILON, VEC2ZERO]
  have ha1 : ¬ Complex.arg ⟨7100, 7226⟩ < -(Real.pi / 4) := by
    have : 0 ≤ Complex.arg ⟨7100, 7226⟩ := Complex.arg_nonneg_iff.mpr (by norm_num)
    linarith [Real.pi_pos]
  have ha2 : ¬ Complex.arg ⟨7100, 7098⟩ > Real.pi / 4 :=
    not_lt.mpr (arg_le_pi_div_four 7100 7098 (by norm_num) (by norm_num))
  have hv1 : world_to_view
      ⟨Real.cos, Real.sin, Real.tan, fun y x => Complex.arg ⟨x, y⟩, Real.sqrt, Real.pi⟩
      (⟨-256, 256⟩ : pol_Vec2 ℝ) ⟨⟨6970, -6844⟩, 40, 90 * (Real.pi / 180)⟩ = ⟨-7226, 7100⟩ := by
    simp only [world_to_view, vec2_rotate, vec2_subtract, DEG2RAD, hang, Real.cos_zero,
      Real.sin_zero, pol_Vec2.mk.injEq]
    norm_num
  have hv2 : world_to_view
      ⟨Real.cos, Real.sin, Real.tan, fun y x => Complex.arg ⟨x, y⟩, Real.sqrt, Real.pi⟩
      (⟨-128, 256⟩ : pol_Vec2 ℝ) ⟨⟨6970, -6844⟩, 40, 90 * (Real.pi / 180)⟩ = ⟨-7098, 7100⟩ := by
    simp only [world_to_view, vec2_rotate, vec2_subtract, DEG2RAD, hang, Real.cos_zero,
      Real.sin_zero, pol_Vec2.mk.injEq]
    norm_num
  have hnn : ¬ ((7100 : ℝ) ≤ 0 ∧ (7100 : ℝ) ≤ 0) := by norm_num
  have hne1 : ¬ (1 : Int) ≠ 1 := by decide
  unfold render_line_segment far_wall_game
  simp only [List.getD_cons_zero, List.getD_cons_succ, DEG2RAD, FOV, hv1, hv2, hside, hnn, hne1,
    if_false, vec2_rotate, hfov, hfov2, Real.cos_neg, Real.sin_neg, Real.sin_pi_div_four,
    ← Real.cos_pi_div_four]
  have e1 : (⟨0 * Real.cos (Real.pi / 4) - 10000 * Real.cos (Real.pi / 4),
      0 * Real.cos (Real.pi / 4) + 10000 * Real.cos (Real.pi / 4)⟩ : pol_Vec2 ℝ) =
      ⟨-1 * (10000 * Real.cos (Real.pi / 4)), 10000 * Real.cos (Real.pi / 4)⟩ := by
    rw [pol_Vec2.mk.injEq]; constructor <;> ring
  have e2 : (⟨0 * Real.cos (Real.pi / 4) - 10000 * -Real.cos (Real.pi / 4),
      0 * -Real.cos (Real.pi / 4) + 10000 * Real.cos (Real.pi / 4)⟩ : pol_Vec2 ℝ) =
      ⟨1 * (10000 * Real.cos (Real.pi / 4)), 10000 * Real.cos (Real.pi / 4)⟩ := by
    rw [pol_Vec2.mk.injEq]; constructor <;> ring
  have hf : global_focal_length (K := ℝ)
      ⟨Real.cos, Real.sin, Real.tan, fun y x => Complex.arg ⟨x, y⟩, Real.sqrt, Real.pi⟩ = 1 := by
    simp only [global_focal_length, FOV, DEG2RAD, hfov, Real.tan_pi_div_four, div_one]
  have hd1 : (0 : ℝ) * 7100 - 1 * -7226 = 7226 := by norm_num
  have hd2 : (0 : ℝ) * -7226 + 1 * 7100 = 7100 := by norm_num
  have hd3 : (0 : ℝ) * 7100 - 1 * -7098 = 7098 := by norm_num
  have hd4 : (0 : ℝ) * -7098 + 1 * 7100 = 7100 := by norm_num
  simp only [e1, e2, hclip1, hclip2, Option.getD_none, vec2_angle, hd1, hd2, hd3, hd4, ha1, ha2,
    or_self, if_false, hf, SW2, SH2, global_yScale]
  have hdx : ¬ |(640 : ℝ) / 2 + -7098 * 1 / 7100 * (640 / 2) -
      (640 / 2 + -7226 / 7100 * 1 * (640 / 2))| < EPSILON := by
    rw [abs_lt, not_and_or]; right; norm_num [EPSILON]
  have hsc : float_to_int ((640 : ℝ) / 2 + -7226 / 7100 * 1 * (640 / 2) + 1 / 2) = -5 :=
    float_to_int_of_neg _ _ (by norm_num) (by norm_num) (by norm_num)
  have hec : float_to_int ((640 : ℝ) / 2 + -7098 * 1 / 7100 * (640 / 2) - 1 / 2) = 0 :=
    float_to_int_of_neg _ _ (by norm_num) (by norm_num) (by norm_num)
  have hn : ((0 : Int) + 1 - -5).toNat = 5 + 1 := by decide
  rw [if_neg hdx, hsc, hec, hn]
  refine (render_columns_first _ _ 5 (-5) _ _ 199 201 ?_ ?_ (by decide) (by decide)
    (by decide)).elim fun c hc => ⟨_, hc, rfl, rfl⟩
  · exact float_to_int_of_nonneg _ _ (by norm_num) (by norm_num) (by norm_num)
  · exact float_to_int_of_nonneg _ _ (by norm_num) (by norm_num) (by norm_num)

section BuilderFacts

variable {K : Type} [LinearOrderedField K]

/-- Every segment is a sub-segment of itself. -/
theorem sub_seg_refl (vs : List (pol_Vec2 K)) (s : LineSegment) : sub_seg vs s s := by
  refine ⟨0, 1, le_refl _, zero_lt_one, le_refl _, ?_, ?_⟩
  · rw [zero_mul, zero_mul, add_zero, add_zero]
  · rw [one_mul, one_mul, add_sub_cancel, add_sub_cancel]

/-- The cross product with respect to a sub-segment is a multiple λ ∈ (0,1] of the cross
product with respect to the segment. -/
theorem sub_seg_cross (vs : List (pol_Vec2 K)) (d1 d : LineSegment) (h : sub_seg vs d1 d) :
    ∃ l : K, 0 < l ∧ l ≤ 1 ∧ ∀ z : pol_Vec2 K,
      vec2_cross_product (vec2_subtract (vs.getD d1.v2 default) (vs.getD d1.v1 default))
          (vec2_subtract z (vs.getD d1.v1 default)) =
        l * vec2_cross_product (vec2_subtract (vs.getD d.v2 default) (vs.getD d.v1 default))
          (vec2_subtract z (vs.getD d.v1 default)) := by
  obtain ⟨t1, t2, h0, h12, h1, e1, e2⟩ := h
  refine ⟨t2 - t1, by linarith, by linarith, ?_⟩
  intro z
  rw [e1, e2]
  simp only [vec2_cross_product, vec2_subtract]
  ring

/-- A point of a segment whose endpoints are not on side +1 is not on side +1. -/
theorem side_ne_one_of_between (A B p q z : pol_Vec2 K) (t : K) (h0 : 0 ≤ t) (h1 : t ≤ 1)
    (hz : z = ⟨p.x + t * (q.x - p.x), p.y + t * (q.y - p.y)⟩)
    (hp : point_on_side A B p ≠ 1) (hq : point_on_side A B q ≠ 1) :
    point_on_side A B z ≠ 1 := by
  rw [Ne, point_on_side_eq_one_iff, not_le] at hp hq ⊢
  have e : vec2_cross_product (vec2_subtract B A) (vec2_subtract z A) =
      (1 - t) * vec2_cross_product (vec2_subtract B A) (vec2_subtract p A) +
        t * vec2_cross_product (vec2_subtract B A) (vec2_subtract q A) := by
    rw [hz]; simp only [vec2_cross_product, vec2_subtract]; ring
  rw [e]
  generalize vec2_cross_product (vec2_subtract B A) (vec2_subtract p A) = cp at hp
  generalize vec2_cross_product (vec2_subtract B A) (vec2_subtract q A) = cq at hq
  rcases eq_or_lt_of_le h0 with h | h
  · rw [← h]; linarith
  · have a1 : 0 ≤ (1 - t) * (cp + EPSILON) := mul_nonneg (by linarith) (by linarith)
    have a2 : 0 < t * (cq + EPSILON) := mul_pos h (by linarith)
    linarith

/-- If no endpoint of `segs` is behind `d`, then no endpoint of sub-segments of `segs` is
behind a sub-segment of `d`. -/
theorem none_behind_sub (vs : List (pol_Vec2 K)) (d d1 : LineSegment)
    (segs segs1 : List LineSegment) (hgood : none_behind vs d segs) (hd : sub_seg vs d1 d)
    (hsub : ∀ s1 ∈ segs1, ∃ s ∈ segs, sub_seg vs s1 s) : none_behind vs d1 segs1 := by
  have hε : (0 : K) < EPSILON := EPSILON_pos
  obtain ⟨l, hl0, hl1, hcross⟩ := sub_seg_cross vs d1 d hd
  have scale : ∀ z : pol_Vec2 K,
      point_on_side (vs.getD d.v1 default) (vs.getD d.v2 default) z ≠ 1 →
      point_on_side (vs.getD d1.v1 default) (vs.getD d1.v2 default) z ≠ 1 := by
    intro z hz
    rw [Ne, point_on_side_eq_one_iff, not_le] at hz ⊢
    rw [hcross z]
    generalize vec2_cross_product (vec2_subtract (vs.getD d.v2 default) (vs.getD d.v1 default))
      (vec2_subtract z (vs.getD d.v1 default)) = c at hz
    have a1 : 0 < l * (c + EPSILON) := mul_pos hl0 (by linarith)
    have a2 : 0 ≤ (1 - l) * EPSILON := mul_nonneg (by linarith) hε.le
    linarith
  intro s1 hs1
  obtain ⟨s, hs, t1, t2, h0, h12, h1, e1, e2⟩ := hsub s1 hs1
  obtain ⟨g1, g2⟩ := hgood s hs
  constructor
  · exact scale _ (side_ne_one_of_between _ _ _ _ _ t1 h0 (by linarith) e1 g1 g2)
  · exact scale _ (side_ne_one_of_between _ _ _ _ _ t2 (by linarith) h1 e2 g1 g2)

/-- A list of segments of the pool stays one when the pool grows. -/
theorem segs_in_pool_mono {n n1 : Nat} (h : n ≤ n1) {segs : List LineSegment}
    (hs : segs_in_pool n segs) : segs_in_pool n1 segs :=
  fun s hm => ⟨lt_of_lt_of_le (hs s hm).1 h, lt_of_lt_of_le (hs s hm).2 h⟩

/-- Appending to the pool does not change which segments are sub-segments. -/
theorem sub_seg_append (vs ext : List (pol_Vec2 K)) (s1 s : LineSegment)
    (h1 : seg_in_pool vs.length s1) (h : seg_in_pool vs.length s) (hsub : sub_seg vs s1 s) :
    sub_seg (vs ++ ext) s1 s := by
  unfold sub_seg
  rw [getD_append_pool vs ext _ h1.1, getD_append_pool vs ext _ h1.2,
    getD_append_pool vs ext _ h.1, getD_append_pool vs ext _ h.2]
  exact hsub

/-- Reading the vertex just appended. -/
theorem getD_append_new (vs : List (pol_Vec2 K)) (X : pol_Vec2 K) :
    (vs ++ [X]).getD vs.length default = X := by
  rw [List.getD_append_right vs [X] default vs.length (le_refl _)]
  simp

/-- The three ways one step of the loop of `split_segments` can go. -/
theorem split_segments_step_cases (A B : pol_Vec2 K)
    (st : List LineSegment × List LineSegment × GameState K) (seg : LineSegment) :
    (∃ (X : pol_Vec2 K) (t : K),
      vec2_cross_product (vec2_subtract B A) (vec2_subtract X A) = 0 ∧ 0 < t ∧ t < 1 ∧
      X = ⟨(st.2.2.vertices.getD seg.v1 default).x +
            t * ((st.2.2.vertices.getD seg.v2 default).x - (st.2.2.vertices.getD seg.v1 default).x),
          (st.2.2.vertices.getD seg.v1 default).y +
            t * ((st.2.2.vertices.getD seg.v2 default).y - (st.2.2.vertices.getD seg.v1 default).y)⟩ ∧
      (split_segments_step A B st seg).2.2.vertices = st.2.2.vertices ++ [X] ∧
      ((point_on_side A B (st.2.2.vertices.getD seg.v1 default) = -1 ∧
          point_on_side A B (st.2.2.vertices.getD seg.v2 default) = 1 ∧
          (split_segments_step A B st seg).1 = st.1 ++ [⟨seg.v1, st.2.2.vertices.length⟩] ∧
          (split_segments_step A B st seg).2.1 = st.2.1 ++ [⟨st.2.2.vertices.length, seg.v2⟩]) ∨
        (point_on_side A B (st.2.2.vertices.getD seg.v1 default) = 1 ∧
          point_on_side A B (st.2.2.vertices.getD seg.v2 default) = -1 ∧
          (split_segments_step A B st seg).2.1 = st.2.1 ++ [⟨seg.v1, st.2.2.vertices.length⟩] ∧
          (split_segments_step A B st seg).1 = st.1 ++ [⟨st.2.2.vertices.length, seg.v2⟩]))) ∨
    ((point_on_side A B (st.2.2.vertices.getD seg.v1 default) ≠ -1 ∧
        point_on_side A B (st.2.2.vertices.getD seg.v2 default) ≠ -1) ∧
      split_segments_step A B st seg = (st.1, st.2.1 ++ [seg], st.2.2)) ∨
    ((point_on_side A B (st.2.2.vertices.getD seg.v1 default) ≠ 1 ∧
        point_on_side A B (st.2.2.vertices.getD seg.v2 default) ≠ 1) ∧
      split_segments_step A B st seg = (st.1 ++ [seg], st.2.1, st.2.2)) := by
  by_cases hstr : straddles A B st.2.2.vertices seg
  · left
    obtain ⟨X, t, -, hv, hline, ht0, ht1, hXeq, hl, hr⟩ :=
      split_segments_step_straddle A B st seg hstr
    refine ⟨X, t, hline, ht0, ht1, hXeq, hv, ?_⟩
    rcases (side_mul_eq_neg_one_iff A B _ _).mp hstr with ⟨h1, h2⟩ | ⟨h1, h2⟩
    · exact Or.inl ⟨h1, h2, hl h1⟩
    · exact Or.inr ⟨h1, h2, hr h1⟩
  · right
    have hstr1 : ¬ point_on_side A B (st.2.2.vertices.getD seg.v1 default) *
        point_on_side A B (st.2.2.vertices.getD seg.v2 default) = -1 := hstr
    by_cases h1 : point_on_side A B (st.2.2.vertices.getD seg.v1 default) = 1 ∨
        point_on_side A B (st.2.2.vertices.getD seg.v2 default) = 1
    · left
      constructor
      · rw [side_mul_eq_neg_one_iff] at hstr1
        rcases point_on_side_cases A B (st.2.2.vertices.getD seg.v1 default) with a | a | a <;>
          rcases point_on_side_cases A B (st.2.2.vertices.getD seg.v2 default) with b | b | b <;>
          rw [a, b] at hstr1 h1 ⊢ <;> simp at hstr1 h1 ⊢
      · unfold split_segments_step
        simp only []
        rw [if_neg hstr1, if_pos h1]
    · right
      constructor
      · exact not_or.mp h1
      · unfold split_segments_step
        simp only []
        rw [if_neg hstr1, if_neg h1]

/-- Joining fragments leaves the rest of a multiset alone. -/
theorem rejoin_step_add (X : Nat) (S T R : Multiset LineSegment) (h : rejoin_step X S T) :
    rejoin_step X (S + R) (T + R) := by
  obtain ⟨p, q, R0, hS, hT⟩ := h
  refine ⟨p, q, R0 + R, ?_, ?_⟩
  · rw [hS]; abel
  · rw [hT]; abel

/-- Joining fragments leaves the rest of a multiset alone. -/
theorem rejoins_add (n0 : Nat) (R : Multiset LineSegment) :
    ∀ (k : Nat) (S T : Multiset LineSegment), rejoins n0 k S T → rejoins n0 k (S + R) (T + R) := by
  intro k
  induction k with
  | zero => intro S T h; unfold rejoins at h ⊢; rw [h]
  | succ k ih =>
    intro S T h
    unfold rejoins at h ⊢
    obtain ⟨U, hU, hrest⟩ := h
    exact ⟨U + R, rejoin_step_add _ _ _ R hU, ih U T hrest⟩

/-- Joining the later vertices first and the earlier ones next. -/
theorem rejoins_trans (n0 k1 : Nat) :
    ∀ (k2 : Nat) (S U T : Multiset LineSegment),
      rejoins (n0 + k1) k2 S U → rejoins n0 k1 U T → rejoins n0 (k1 + k2) S T := by
  intro k2
  induction k2 with
  | zero => intro S U T h1 h2; unfold rejoins at h1; rw [h1]; exact h2
  | succ k ih =>
    intro S U T h1 h2
    unfold rejoins at h1
    obtain ⟨V, hV, hrest⟩ := h1
    rw [← Nat.add_assoc]
    unfold rejoins
    rw [Nat.add_assoc] at hV
    exact ⟨V, hV, ih V U T hrest h2⟩

/-- Each join removes one segment. -/
theorem rejoins_card (n0 : Nat) :
    ∀ (k : Nat) (S T : Multiset LineSegment), rejoins n0 k S T →
      Multiset.card S = Multiset.card T + k := by
  intro k
  induction k with
  | zero => intro S T h; unfold rejoins at h; rw [h]; rfl
  | succ k ih =>
    intro S T h
    unfold rejoins at h
    obtain ⟨U, ⟨p, q, R, hS, hU⟩, hrest⟩ := h
    have := ih U T hrest
    rw [hU] at this
    rw [hS]
    simp only [Multiset.card_add, Multiset.card_singleton] at this ⊢
    omega

/-- Sub-segment lists stay sub-segment lists when the pool grows. -/
theorem forall₂_sub_seg_append (vs ext : List (pol_Vec2 K)) :
    ∀ (l sub : List LineSegment), segs_in_pool vs.length l → segs_in_pool vs.length sub →
      List.Forall₂ (sub_seg vs) l sub → List.Forall₂ (sub_seg (vs ++ ext)) l sub := by
  intro l sub hl hsub h
  induction h with
  | nil => exact List.Forall₂.nil
  | cons hab _ ih =>
    refine List.Forall₂.cons ?_ (ih ?_ ?_)
    · exact sub_seg_append vs ext _ _ (hl _ (List.mem_cons_self _ _))
        (hsub _ (List.mem_cons_self _ _)) hab
    · exact fun s hs => hl s (List.mem_cons_of_mem _ hs)
    · exact fun s hs => hsub s (List.mem_cons_of_mem _ hs)

/-- Adding a related pair at the end of two related lists. -/
theorem forall₂_concat {α β : Type} (R : α → β → Prop) :
    ∀ (l : List α) (m : List β) (a : α) (b : β), List.Forall₂ R l m → R a b →
      List.Forall₂ R (l ++ [a]) (m ++ [b]) := by
  intro l m a b h hab
  induction h with
  | nil => exact List.Forall₂.cons hab List.Forall₂.nil
  | cons h1 _ ih => exact List.Forall₂.cons h1 ih

/-- The multiset of a list with one more element at the end. -/
theorem coe_concat {α : Type} (l : List α) (a : α) :
    ((l ++ [a] : List α) : Multiset α) = (l : Multiset α) + {a} := by
  rw [← Multiset.coe_singleton, Multiset.coe_add]

/-- The invariant of the loop of `split_segments`. -/
theorem split_segments_fold_inv (A B : pol_Vec2 K) (game : GameState K) :
    ∀ pre : List LineSegment, segs_in_pool game.vertices.length pre →
      SplitInv A B game.vertices pre (pre.foldl (split_segments_step A B) ([], [], game)) := by
  intro pre
  induction pre using List.reverseRecOn with
  | nil =>
    intro _
    exact
      { ext := ⟨[], by simp⟩
        validL := fun s hs => absurd hs (List.not_mem_nil s)
        validR := fun s hs => absurd hs (List.not_mem_nil s)
        subL := ⟨[], List.Sublist.refl _, List.Forall₂.nil⟩
        subR := ⟨[], List.Sublist.refl _, List.Forall₂.nil⟩
        sideL := fun s hs => absurd hs (List.not_mem_nil s)
        sideR := fun s hs => absurd hs (List.not_mem_nil s)
        rightNil := fun _ => ⟨rfl, rfl⟩
        rejoin := by simp [rejoins] }
  | append_singleton pre seg ih =>
    intro hvalid
    have hpre : segs_in_pool game.vertices.length pre :=
      fun s hs => hvalid s (List.mem_append_left _ hs)
    have hseg0 : seg_in_pool game.vertices.length seg := hvalid seg (by simp)
    have inv := ih hpre
    rw [List.foldl_append, List.foldl_cons, List.foldl_nil]
    generalize pre.foldl (split_segments_step A B) ([], [], game) = st at inv
    obtain ⟨new, hnew⟩ := inv.ext
    have hlen : game.vertices.length ≤ st.2.2.vertices.length := by
      rw [hnew, List.length_append]; exact Nat.le_add_right _ _
    have hseg : seg_in_pool st.2.2.vertices.length seg :=
      ⟨lt_of_lt_of_le hseg0.1 hlen, lt_of_lt_of_le hseg0.2 hlen⟩
    obtain ⟨subL, hsubL, hfL⟩ := inv.subL
    obtain ⟨subR, hsubR, hfR⟩ := inv.subR
    have hsubLv : segs_in_pool st.2.2.vertices.length subL :=
      fun s hs => segs_in_pool_mono hlen hpre s (hsubL.subset hs)
    have hsubRv : segs_in_pool st.2.2.vertices.length subR :=
      fun s hs => segs_in_pool_mono hlen hpre s (hsubR.subset hs)
    rcases split_segments_step_cases A B st seg with
      ⟨X, t, hline, ht0, ht1, hXeq, hv, hcase⟩ | ⟨hside, hstep⟩ | ⟨hside, hstep⟩
    · -- the segment straddles
      have hX0 : point_on_side A B X = 0 := by
        rw [point_on_side_eq_zero_iff, hline, abs_zero]; exact EPSILON_pos
      have hlen1 : st.2.2.vertices.length ≤ (st.2.2.vertices ++ [X]).length := by
        rw [List.length_append]; exact Nat.le_add_right _ _
      have hnewv : (st.2.2.vertices ++ [X]).getD st.2.2.vertices.length default = X :=
        getD_append_new _ X
      have hp : (st.2.2.vertices ++ [X]).getD seg.v1 default =
          st.2.2.vertices.getD seg.v1 default := getD_append_pool _ _ _ hseg.1
      have hq : (st.2.2.vertices ++ [X]).getD seg.v2 default =
          st.2.2.vertices.getD seg.v2 default := getD_append_pool _ _ _ hseg.2
      have hf1 : seg_in_pool (st.2.2.vertices ++ [X]).length ⟨seg.v1, st.2.2.vertices.length⟩ := by
        constructor
        · exact lt_of_lt_of_le hseg.1 hlen1
        · rw [List.length_append]; simp
      have hf2 : seg_in_pool (st.2.2.vertices ++ [X]).length ⟨st.2.2.vertices.length, seg.v2⟩ := by
        constructor
        · rw [List.length_append]; simp
        · exact lt_of_lt_of_le hseg.2 hlen1
      have hs1 : sub_seg (st.2.2.vertices ++ [X]) ⟨seg.v1, st.2.2.vertices.length⟩ seg := by
        refine ⟨0, t, le_refl _, ht0, ht1.le, ?_, ?_⟩
        · simp only [hp, hq, zero_mul, add_zero]
        · simp only [hp, hq, hnewv]; exact hXeq
      have hs2 : sub_seg (st.2.2.vertices ++ [X]) ⟨st.2.2.vertices.length, seg.v2⟩ seg := by
        refine ⟨t, 1, ht0.le, ht1, le_refl _, ?_, ?_⟩
        · simp only [hp, hq, hnewv]; exact hXeq
        · simp only [hp, hq, one_mul, add_sub_cancel]
      have holdL : ∀ s ∈ st.1,
          point_on_side A B ((st.2.2.vertices ++ [X]).getD s.v1 default) ≠ 1 ∧
          point_on_side A B ((st.2.2.vertices ++ [X]).getD s.v2 default) ≠ 1 := by
        intro s hs
        rw [getD_append_pool _ _ _ (inv.validL s hs).1, getD_append_pool _ _ _ (inv.validL s hs).2]
        exact inv.sideL s hs
      have holdR : ∀ s ∈ st.2.1,
          point_on_side A B ((st.2.2.vertices ++ [X]).getD s.v1 default) ≠ -1 ∧
          point_on_side A B ((st.2.2.vertices ++ [X]).getD s.v2 default) ≠ -1 := by
        intro s hs
        rw [getD_append_pool _ _ _ (inv.validR s hs).1, getD_append_pool _ _ _ (inv.validR s hs).2]
        exact inv.sideR s hs
      have hfL1 := forall₂_sub_seg_append st.2.2.vertices [X] st.1 subL inv.validL hsubLv hfL
      have hfR1 := forall₂_sub_seg_append st.2.2.vertices [X] st.2.1 subR inv.validR hsubRv hfR
      have hk : (st.2.2.vertices ++ [X]).length - game.vertices.length =
          (st.2.2.vertices.length - game.vertices.length) + 1 := by
        rw [List.length_append, List.length_singleton]; omega
      have hX : game.vertices.length + (st.2.2.vertices.length - game.vertices.length) =
          st.2.2.vertices.length := by omega
      have hrej : ∀ (fl fr : LineSegment),
          ((fl = ⟨seg.v1, st.2.2.vertices.length⟩ ∧ fr = ⟨st.2.2.vertices.length, seg.v2⟩) ∨
            (fr = ⟨seg.v1, st.2.2.vertices.length⟩ ∧ fl = ⟨st.2.2.vertices.length, seg.v2⟩)) →
          rejoins game.vertices.length ((st.2.2.vertices ++ [X]).length - game.vertices.length)
            (((st.1 ++ [fl] : List LineSegment) : Multiset LineSegment) +
              ((st.2.1 ++ [fr] : List LineSegment) : Multiset LineSegment))
            ((pre ++ [seg] : List LineSegment) : Multiset LineSegment) := by
        intro fl fr hfr
        rw [hk, coe_concat, coe_concat, coe_concat]
        unfold rejoins
        refine ⟨((st.1 : Multiset LineSegment) + (st.2.1 : Multiset LineSegment)) +
          ({seg} : Multiset LineSegment), ?_, ?_⟩
        · rw [hX]
          refine ⟨seg.v1, seg.v2, (st.1 : Multiset LineSegment) + (st.2.1 : Multiset LineSegment),
            ?_, ?_⟩
          · rcases hfr with ⟨rfl, rfl⟩ | ⟨rfl, rfl⟩ <;> abel
          · abel
        · exact rejoins_add game.vertices.length ({seg} : Multiset LineSegment) _ _ _ inv.rejoin
      have hsubpre : List.Sublist (subL ++ [seg]) (pre ++ [seg]) :=
        List.Sublist.append hsubL (List.Sublist.refl _)
      have hsubpreR : List.Sublist (subR ++ [seg]) (pre ++ [seg]) :=
        List.Sublist.append hsubR (List.Sublist.refl _)
      rcases hcase with ⟨ha, hb, hl, hr⟩ | ⟨ha, hb, hr, hl⟩
      · exact
          { ext := ⟨new ++ [X], by rw [hv, hnew, List.append_assoc]⟩
            validL := by
              rw [hv, hl]
              intro s hs
              rcases List.mem_append.mp hs with h | h
              · exact segs_in_pool_mono hlen1 inv.validL s h
              · rw [List.mem_singleton.mp h]; exact hf1
            validR := by
              rw [hv, hr]
              intro s hs
              rcases List.mem_append.mp hs with h | h
              · exact segs_in_pool_mono hlen1 inv.validR s h
              · rw [List.mem_singleton.mp h]; exact hf2
            subL := ⟨subL ++ [seg], hsubpre, by
              rw [hv, hl]; exact forall₂_concat _ _ _ _ _ hfL1 hs1⟩
            subR := ⟨subR ++ [seg], hsubpreR, by
              rw [hv, hr]; exact forall₂_concat _ _ _ _ _ hfR1 hs2⟩
            sideL := by
              rw [hv, hl]
              intro s hs
              rcases List.mem_append.mp hs with h | h
              · exact holdL s h
              · rw [List.mem_singleton.mp h]
                simp only [hp, hnewv, ha, hX0]
                exact ⟨by decide, by decide⟩
            sideR := by
              rw [hv, hr]
              intro s hs
              rcases List.mem_append.mp hs with h | h
              · exact holdR s h
              · rw [List.mem_singleton.mp h]
                simp only [hq, hnewv, hb, hX0]
                exact ⟨by decide, by decide⟩
            rightNil := by
              rw [hr]; intro h; exact absurd h (by simp)
            rejoin := by
              rw [hv, hl, hr]; exact hrej _ _ (Or.inl ⟨rfl, rfl⟩) }
      · exact
          { ext := ⟨new ++ [X], by rw [hv, hnew, List.append_assoc]⟩
            validL := by
              rw [hv, hl]
              intro s hs
              rcases List.mem_append.mp hs with h | h
              · exact segs_in_pool_mono hlen1 inv.validL s h
              · rw [List.mem_singleton.mp h]; exact hf2
            validR := by
              rw [hv, hr]
              intro s hs
              rcases List.mem_append.mp hs with h | h
              · exact segs_in_pool_mono hlen1 inv.validR s h
              · rw [List.mem_singleton.mp h]; exact hf1
            subL := ⟨subL ++ [seg], hsubpre, by
              rw [hv, hl]; exact forall₂_concat _ _ _ _ _ hfL1 hs2⟩
            subR := ⟨subR ++ [seg], hsubpreR, by
              rw [hv, hr]; exact forall₂_concat _ _ _ _ _ hfR1 hs1⟩
            sideL := by
              rw [hv, hl]
              intro s hs
              rcases List.mem_append.mp hs with h | h
              · exact holdL s h
              · rw [List.mem_singleton.mp h]
                simp only [hq, hnewv, hb, hX0]
                exact ⟨by decide, by decide⟩
            sideR := by
              rw [hv, hr]
              intro s hs
              rcases List.mem_append.mp hs with h | h
              · exact holdR s h
              · rw [List.mem_singleton.mp h]
                simp only [hp, hnewv, ha, hX0]
                exact ⟨by decide, by decide⟩
            rightNil := by
              rw [hr]; intro h; exact absurd h (by simp)
            rejoin := by
              rw [hv, hl, hr]; exact hrej _ _ (Or.inr ⟨rfl, rfl⟩) }
    · -- the segment goes to the right list
      rw [hstep]
      exact
        { ext := ⟨new, hnew⟩
          validL := inv.validL
          validR := by
            intro s hs
            rcases List.mem_append.mp hs with h | h
            · exact inv.validR s h
            · rw [List.mem_singleton.mp h]; exact hseg
          subL := ⟨subL, hsubL.trans (List.sublist_append_left _ _), hfL⟩
          subR := ⟨subR ++ [seg], List.Sublist.append hsubR (List.Sublist.refl _),
            forall₂_concat _ _ _ _ _ hfR (sub_seg_refl _ _)⟩
          sideL := inv.sideL
          sideR := by
            intro s hs
            rcases List.mem_append.mp hs with h | h
            · exact inv.sideR s h
            · rw [List.mem_singleton.mp h]; exact hside
          rightNil := by
            intro h; exact absurd h (by simp)
          rejoin := by
            show rejoins _ _ ((st.1 : Multiset LineSegment) +
              ((st.2.1 ++ [seg] : List LineSegment) : Multiset LineSegment))
              ((pre ++ [seg] : List LineSegment) : Multiset LineSegment)
            rw [coe_concat, coe_concat, ← add_assoc]
            exact rejoins_add _ _ _ _ _ inv.rejoin }
    · -- the segment goes to the left list
      rw [hstep]
      exact
        { ext := ⟨new, hnew⟩
          validL := by
            intro s hs
            rcases List.mem_append.mp hs with h | h
            · exact inv.validL s h
            · rw [List.mem_singleton.mp h]; exact hseg
          validR := inv.validR
          subL := ⟨subL ++ [seg], List.Sublist.append hsubL (List.Sublist.refl _),
            forall₂_concat _ _ _ _ _ hfL (sub_seg_refl _ _)⟩
          subR := ⟨subR, hsubR.trans (List.sublist_append_left _ _), hfR⟩
          sideL := by
            intro s hs
            rcases List.mem_append.mp hs with h | h
            · exact inv.sideL s h
            · rw [List.mem_singleton.mp h]; exact hside
          sideR := inv.sideR
          rightNil := by
            intro h
            obtain ⟨h1, h2⟩ := inv.rightNil h
            exact ⟨by show st.1 ++ [seg] = pre ++ [seg]; rw [h1], h2⟩
          rejoin := by
            show rejoins _ _ (((st.1 ++ [seg] : List LineSegment) : Multiset LineSegment) +
              (st.2.1 : Multiset LineSegment))
              ((pre ++ [seg] : List LineSegment) : Multiset LineSegment)
            rw [coe_concat, coe_concat, add_right_comm]
            exact rejoins_add _ _ _ _ _ inv.rejoin }

end BuilderFacts

section ConvexFacts

variable {K : Type} [LinearOrderedField K]

/-- The test of `is_convex` on a pair passes exactly when neither endpoint of the second
segment is on side −1 of the first. -/
theorem is_convex_pair_iff (vs : List (pol_Vec2 K)) (si sj : LineSegment) :
    is_convex_pair vs si sj = true ↔ side_of vs si sj.v1 ≠ -1 ∧ side_of vs si sj.v2 ≠ -1 := by
  unfold is_convex_pair side_of
  simp only []
  rcases point_on_side_cases (vs.getD si.v1 default) (vs.getD si.v2 default)
      (vs.getD sj.v1 default) with a | a | a <;>
    rcases point_on_side_cases (vs.getD si.v1 default) (vs.getD si.v2 default)
      (vs.getD sj.v2 default) with b | b | b <;>
    rw [a, b] <;> decide

/-- The list is accepted by `is_convex` exactly when, for every two positions i ≠ j, no
endpoint of segment j is on side −1 of segment i. -/
theorem is_convex_iff (segs : List LineSegment) (vs : List (pol_Vec2 K)) :
    is_convex segs vs = true ↔
      ∀ i j : Nat, i < segs.length → j < segs.length → i ≠ j →
        side_of vs (segs.getD i default) (segs.getD j default).v1 ≠ -1 ∧
        side_of vs (segs.getD i default) (segs.getD j default).v2 ≠ -1 := by
  unfold is_convex
  simp only [List.all_eq_true, List.mem_range]
  constructor
  · intro h i j hi hj hij
    have := h i hi j hj
    rw [if_neg hij] at this
    exact (is_convex_pair_iff vs _ _).mp this
  · intro h i hi j hj
    by_cases hij : i = j
    · rw [if_pos hij]
    · rw [if_neg hij]
      exact (is_convex_pair_iff vs _ _).mpr (h i j hi hj hij)

/-- A list of at most one segment is accepted by `is_convex`. -/
theorem is_convex_of_length_le_one (segs : List LineSegment) (vs : List (pol_Vec2 K))
    (h : segs.length ≤ 1) : is_convex segs vs = true := by
  rw [is_convex_iff]
  intro i j hi hj hij
  omega

/-- The side of a vertex that exists with respect to a segment of the pool does not change
when the pool grows. -/
theorem side_of_append (vs ext : List (pol_Vec2 K)) (d : LineSegment) (i : Nat)
    (hd : seg_in_pool vs.length d) (hi : i < vs.length) :
    side_of (vs ++ ext) d i = side_of vs d i := by
  unfold side_of
  rw [getD_append_pool vs ext _ hd.1, getD_append_pool vs ext _ hd.2,
    getD_append_pool vs ext _ hi]

/-- An element of a list read by position is an element of the list. -/
theorem getD_mem_of_lt (segs : List LineSegment) (i : Nat) (h : i < segs.length) :
    segs.getD i default ∈ segs := by
  rw [List.getD_eq_getElem segs default h]
  exact List.getElem_mem h

/-- Whether `is_convex` accepts a list of segments of the pool does not change when the
pool grows. -/
theorem is_convex_append (segs : List LineSegment) (vs ext : List (pol_Vec2 K))
    (h : segs_in_pool vs.length segs) :
    is_convex segs (vs ++ ext) = is_convex segs vs := by
  rw [Bool.eq_iff_iff, is_convex_iff, is_convex_iff]
  constructor
  · intro hc i j hi hj hij
    have hmi := h _ (getD_mem_of_lt segs i hi)
    have hmj := h _ (getD_mem_of_lt segs j hj)
    have := hc i j hi hj hij
    rwa [side_of_append vs ext _ _ hmi hmj.1, side_of_append vs ext _ _ hmi hmj.2] at this
  · intro hc i j hi hj hij
    have hmi := h _ (getD_mem_of_lt segs i hi)
    have hmj := h _ (getD_mem_of_lt segs j hj)
    rw [side_of_append vs ext _ _ hmi hmj.1, side_of_append vs ext _ _ hmi hmj.2]
    exact hc i j hi hj hij

end ConvexFacts

section GenerateFacts

variable {K : Type} [LinearOrderedField K]

/-- The two ways `generate_child` returns: through the recursive call for a list that
`is_convex` rejects, or with a new sector. -/
theorem generate_child_some_iff
    (recurse : List LineSegment → GameState K → Option (Nat × GameState K))
    (segs : List LineSegment) (game : GameState K) (r : Bool × Nat × GameState K) :
    generate_child recurse segs game = some r ↔
      (is_convex segs game.vertices = false ∧ r.1 = false ∧ recurse segs game = some r.2) ∨
      (is_convex segs game.vertices = true ∧
        r = (true, to_int32 (game.sectors.length ||| SECTOR_FLAG),
          { game with sectors := game.sectors ++ [⟨segs⟩] })) := by
  unfold generate_child
  cases hc : is_convex segs game.vertices
  · simp only [Bool.not_false, if_true, true_and, Bool.false_eq_true, false_and, or_false]
    cases hr : recurse segs game with
    | none => simp
    | some p =>
      obtain ⟨a, g⟩ := p
      obtain ⟨b, c, d⟩ := r
      simp only [Option.some.injEq, Prod.mk.injEq]
      constructor
      · rintro ⟨h1, h2, h3⟩; exact ⟨h1.symm, h2, h3⟩
      · rintro ⟨h1, h2, h3⟩; exact ⟨h1.symm, h2, h3⟩
  · simp only [Bool.not_true, Bool.false_eq_true, if_false, true_and, Option.some.injEq]
    constructor
    · intro h; exact Or.inr h.symm
    · rintro (⟨h, -⟩ | h)
      · exact absurd h (by decide)
      · exact h.symm

/-- The one way `generate_bsp_tree` returns. -/
theorem generate_bsp_tree_some_iff (fuel : Nat) (segs : List LineSegment) (game : GameState K)
    (r : Nat × GameState K) :
    generate_bsp_tree (fuel + 1) segs game = some r ↔
      ∃ (cl cr : Bool × Nat × GameState K) (g0 : GameState K) (node : Node) (k : Nat),
        g0 = { (split_segments segs game).2.2 with
          nodes := (split_segments segs game).2.2.nodes ++ [default] } ∧
        generate_child (generate_bsp_tree fuel) (split_segments segs game).1 g0 = some cl ∧
        generate_child (generate_bsp_tree fuel) (split_segments segs game).2.1 cl.2.2 = some cr ∧
        node = ⟨segs.headD default, cl.2.1, cr.2.1, cl.1, cr.1⟩ ∧
        k = to_int32 (split_segments segs game).2.2.nodes.length ∧
        r = (k, { cr.2.2 with nodes := cr.2.2.nodes.set k node }) := by
  rw [generate_bsp_tree]
  simp only []
  cases h1 : generate_child (generate_bsp_tree fuel) (split_segments segs game).1
      { (split_segments segs game).2.2 with
        nodes := (split_segments segs game).2.2.nodes ++ [default] } with
  | none =>
    constructor
    · intro h; exact absurd h (by simp)
    · rintro ⟨cl, cr, g0, node, k, e1, e2, -⟩
      rw [e1, h1] at e2
      exact absurd e2 (by simp)
  | some cl =>
    obtain ⟨a, b, g1⟩ := cl
    simp only []
    cases h2 : generate_child (generate_bsp_tree fuel) (split_segments segs game).2.1 g1 with
    | none =>
      constructor
      · intro h; exact absurd h (by simp)
      · rintro ⟨cl, cr, g0, node, k, e1, e2, e3, -⟩
        rw [e1, h1] at e2
        obtain rfl := Option.some.inj e2
        rw [h2] at e3
        exact absurd e3 (by simp)
    | some cr =>
      obtain ⟨c, d, g2⟩ := cr
      simp only [Option.some.injEq]
      constructor
      · intro h
        exact ⟨(a, b, g1), (c, d, g2), _, _, _, rfl, h1, h2, rfl, rfl, h.symm⟩
      · rintro ⟨cl, cr, g0, node, k, e1, e2, e3, e4, e5, e6⟩
        rw [e1, h1] at e2
        obtain rfl := Option.some.inj e2
        rw [h2] at e3
        obtain rfl := Option.some.inj e3
        rw [e6, e5, e4]

/-- The result of `split_segments` in terms of the final state of its loop. -/
theorem split_segments_eq (segs : List LineSegment) (game : GameState K) :
    split_segments segs game =
      if (split_loop segs game).2.1 = [] then
        ((split_loop segs game).1, [segs.headD default], (split_loop segs game).2.2)
      else
        ((split_loop segs game).1 ++ [segs.headD default], (split_loop segs game).2.1,
          (split_loop segs game).2.2) := rfl

/-- The invariant of the loop of `split_segments`, at the end of the loop. -/
theorem split_loop_inv (segs : List LineSegment) (game : GameState K)
    (hv : segs_in_pool game.vertices.length segs) :
    SplitInv (game.vertices.getD (segs.headD default).v1 default)
      (game.vertices.getD (segs.headD default).v2 default) game.vertices segs.tail
      (split_loop segs game) :=
  split_segments_fold_inv _ _ game segs.tail (fun s hs => hv s (List.mem_of_mem_tail hs))

/-- What `split_segments` returns for a non-empty list of segments of the pool: the pool
is extended, nodes, sectors and camera are kept, both lists are lists of segments of the
new pool, joining the fragments gives back the input, and the lists are not longer than
the input. -/
theorem split_segments_spec (segs : List LineSegment) (game : GameState K) (hne : segs ≠ [])
    (hv : segs_in_pool game.vertices.length segs) :
    ∃ new : List (pol_Vec2 K),
      (split_segments segs game).2.2.vertices = game.vertices ++ new ∧
      (split_segments segs game).2.2.nodes = game.nodes ∧
      (split_segments segs game).2.2.sectors = game.sectors ∧
      (split_segments segs game).2.2.player_cam = game.player_cam ∧
      segs_in_pool (game.vertices ++ new).length (split_segments segs game).1 ∧
      segs_in_pool (game.vertices ++ new).length (split_segments segs game).2.1 ∧
      rejoins game.vertices.length new.length
        (((split_segments segs game).1 : Multiset LineSegment) +
          ((split_segments segs game).2.1 : Multiset LineSegment)) (segs : Multiset LineSegment) ∧
      (split_segments segs game).1.length ≤ segs.length ∧
      ((split_segments segs game).2.1.length < segs.length ∨
        (split_segments segs game).2.1.length ≤ 1) := by
  have inv := split_loop_inv segs game hv
  obtain ⟨new, hnew⟩ := inv.ext
  obtain ⟨f1, f2, f3⟩ := split_segments_fold_frame
    (game.vertices.getD (segs.headD default).v1 default)
    (game.vertices.getD (segs.headD default).v2 default) segs.tail ([], [], game)
  obtain ⟨s0, tail, rfl⟩ := List.exists_cons_of_ne_nil hne
  have hs0 : seg_in_pool game.vertices.length s0 := hv s0 (List.mem_cons_self _ _)
  have hlen : game.vertices.length ≤ (game.vertices ++ new).length := by
    rw [List.length_append]; exact Nat.le_add_right _ _
  have hs0' : seg_in_pool (game.vertices ++ new).length s0 :=
    ⟨lt_of_lt_of_le hs0.1 hlen, lt_of_lt_of_le hs0.2 hlen⟩
  obtain ⟨subL, hsubL, hfL⟩ := inv.subL
  obtain ⟨subR, hsubR, hfR⟩ := inv.subR
  have hlenL : (split_loop (s0 :: tail) game).1.length ≤ tail.length := by
    rw [hfL.length_eq]; exact hsubL.length_le
  have hlenR : (split_loop (s0 :: tail) game).2.1.length ≤ tail.length := by
    rw [hfR.length_eq]; exact hsubR.length_le
  have hk : (split_loop (s0 :: tail) game).2.2.vertices.length - game.vertices.length =
      new.length := by
    rw [hnew, List.length_append]; omega
  have hrej := inv.rejoin
  rw [hk] at hrej
  have hrej1 := rejoins_add game.vertices.length ({s0} : Multiset LineSegment) _ _ _ hrej
  have hcoe : (((s0 :: tail : List LineSegment)) : Multiset LineSegment) =
      ((tail : List LineSegment) : Multiset LineSegment) + {s0} := by
    rw [← Multiset.cons_coe, ← Multiset.singleton_add, add_comm]
  have hvL := inv.validL
  have hvR := inv.validR
  rw [hnew] at hvL hvR
  refine ⟨new, ?_, ?_, ?_, ?_, ?_, ?_, ?_, ?_, ?_⟩
  · rw [split_segments_game]; exact hnew
  · rw [split_segments_game]; exact f1
  · rw [split_segments_game]; exact f2
  · rw [split_segments_game]; exact f3
  · rw [split_segments_eq]
    split_ifs with h
    · exact hvL
    · intro s hs
      rcases List.mem_append.mp hs with h1 | h1
      · exact hvL s h1
      · rw [List.mem_singleton.mp h1]; exact hs0'
  · rw [split_segments_eq]
    split_ifs with h
    · intro s hs
      rw [List.mem_singleton.mp hs]; exact hs0'
    · exact hvR
  · rw [split_segments_eq, hcoe]
    split_ifs with h
    · show rejoins _ _ (((split_loop (s0 :: tail) game).1 : Multiset LineSegment) +
        (([s0] : List LineSegment) : Multiset LineSegment)) _
      rw [h] at hrej1
      rw [Multiset.coe_singleton]
      simpa using hrej1
    · show rejoins _ _ ((((split_loop (s0 :: tail) game).1 ++ [s0] : List LineSegment) :
        Multiset LineSegment) + ((split_loop (s0 :: tail) game).2.1 : Multiset LineSegment)) _
      rw [coe_concat, add_right_comm]
      exact hrej1
  · rw [split_segments_eq]
    split_ifs with h
    · exact le_trans hlenL (Nat.le_succ _)
    · show ((split_loop (s0 :: tail) game).1 ++ [s0]).length ≤ (s0 :: tail).length
      rw [List.length_append, List.length_singleton, List.length_cons]
      exact Nat.succ_le_succ hlenL
  · rw [split_segments_eq]
    split_ifs with h
    · right; exact le_refl _
    · left
      exact lt_of_le_of_lt hlenR (Nat.lt_succ_self _)

/-- If a recursive call that returns with some fuel returns the same with more, so does
`generate_child`. -/
theorem generate_child_mono
    (rec1 rec2 : List LineSegment → GameState K → Option (Nat × GameState K))
    (h : ∀ segs g r, rec1 segs g = some r → rec2 segs g = some r)
    (segs : List LineSegment) (g : GameState K) (r : Bool × Nat × GameState K)
    (hr : generate_child rec1 segs g = some r) : generate_child rec2 segs g = some r := by
  rw [generate_child_some_iff] at hr ⊢
  rcases hr with ⟨h1, h2, h3⟩ | h1
  · exact Or.inl ⟨h1, h2, h _ _ _ h3⟩
  · exact Or.inr h1

/-- A build that returns with some fuel returns the same with one more unit. -/
theorem generate_bsp_tree_mono_succ :
    ∀ (fuel : Nat) (segs : List LineSegment) (g : GameState K) (r : Nat × GameState K),
      generate_bsp_tree fuel segs g = some r → generate_bsp_tree (fuel + 1) segs g = some r := by
  intro fuel
  induction fuel with
  | zero => intro segs g r h; rw [generate_bsp_tree] at h; exact absurd h (by simp)
  | succ n ih =>
    intro segs g r h
    rw [generate_bsp_tree_some_iff] at h ⊢
    obtain ⟨cl, cr, g0, node, k, e1, e2, e3, e4, e5, e6⟩ := h
    exact ⟨cl, cr, g0, node, k, e1, generate_child_mono _ _ ih _ _ _ e2,
      generate_child_mono _ _ ih _ _ _ e3, e4, e5, e6⟩

/-- A build that returns with some fuel returns the same with more. -/
theorem generate_bsp_tree_mono (fuel fuel1 : Nat) (hle : fuel ≤ fuel1)
    (segs : List LineSegment) (g : GameState K) (r : Nat × GameState K)
    (h : generate_bsp_tree fuel segs g = some r) : generate_bsp_tree fuel1 segs g = some r := by
  induction hle with
  | refl => exact h
  | step _ ih => exact generate_bsp_tree_mono_succ _ _ _ _ ih

/-- A list that `is_convex` rejects has at least two segments. -/
theorem length_of_not_convex (segs : List LineSegment) (vs : List (pol_Vec2 K))
    (h : is_convex segs vs = false) : 2 ≤ segs.length := by
  by_contra hlt
  rw [is_convex_of_length_le_one segs vs (by omega)] at h
  exact absurd h (by decide)

/-- What `generate_child` has done when it returns, if the recursive call does a build. -/
theorem generate_child_ok
    (recurse : List LineSegment → GameState K → Option (Nat × GameState K))
    (hrec : ∀ segs g r, segs ≠ [] → segs_in_pool g.vertices.length segs →
      recurse segs g = some r → ∃ new newS, BuildOk segs g r.2 new newS)
    (segs : List LineSegment) (g : GameState K) (r : Bool × Nat × GameState K)
    (hv : segs_in_pool g.vertices.length segs)
    (hr : generate_child recurse segs g = some r) :
    ∃ new newS, BuildOk segs g r.2.2 new newS := by
  rw [generate_child_some_iff] at hr
  rcases hr with ⟨h1, -, h3⟩ | ⟨h1, rfl⟩
  · have hlen := length_of_not_convex segs g.vertices h1
    have hne : segs ≠ [] := by
      intro h; rw [h] at hlen; simp at hlen
    exact hrec segs g r.2 hne hv h3
  · refine ⟨[], [⟨segs⟩], ?_, rfl, rfl, ?_, ?_⟩
    · simp
    · intro S hS
      rw [List.mem_singleton.mp hS]
      exact ⟨hv, h1⟩
    · simp [sector_segments, rejoins]

/-- What `generate_bsp_tree` has done when it returns, for a non-empty list of segments of
the pool. -/
theorem generate_bsp_tree_ok :
    ∀ (fuel : Nat) (segs : List LineSegment) (g : GameState K) (r : Nat × GameState K),
      segs ≠ [] → segs_in_pool g.vertices.length segs →
      generate_bsp_tree fuel segs g = some r → ∃ new newS, BuildOk segs g r.2 new newS := by
  intro fuel
  induction fuel with
  | zero => intro segs g r _ _ h; rw [generate_bsp_tree] at h; exact absurd h (by simp)
  | succ n ih =>
    intro segs g r hne hv h
    rw [generate_bsp_tree_some_iff] at h
    obtain ⟨cl, cr, g0, node, k, e1, e2, e3, -, -, e6⟩ := h
    obtain ⟨new0, s1, s2, s3, s4, s5, s6, s7, -, -⟩ := split_segments_spec segs g hne hv
    have hg0v : g0.vertices = g.vertices ++ new0 := by rw [e1]; exact s1
    have hg0s : g0.sectors = g.sectors := by rw [e1]; exact s3
    have hg0c : g0.player_cam = g.player_cam := by rw [e1]; exact s4
    obtain ⟨newL, newSL, l1, l2, l3, l4, l5⟩ :=
      generate_child_ok (generate_bsp_tree n) ih _ g0 cl (by rw [hg0v]; exact s5) e2
    have hlen : (g.vertices ++ new0).length ≤ cl.2.2.vertices.length := by
      rw [l1, hg0v, List.length_append (g.vertices ++ new0)]; exact Nat.le_add_right _ _
    obtain ⟨newR, newSR, r1, r2, r3, r4, r5⟩ :=
      generate_child_ok (generate_bsp_tree n) ih _ cl.2.2 cr (segs_in_pool_mono hlen s6) e3
    refine ⟨new0 ++ newL ++ newR, newSL ++ newSR, ?_, ?_, ?_, ?_, ?_⟩
    · rw [e6]
      show cr.2.2.vertices = _
      rw [r1, l1, hg0v]; simp only [List.append_assoc]
    · rw [e6]
      show cr.2.2.sectors = _
      rw [r2, l2, hg0s]; simp only [List.append_assoc]
    · rw [e6]
      show cr.2.2.player_cam = _
      rw [r3, l3, hg0c]
    · rw [e6]
      show ∀ S ∈ newSL ++ newSR, segs_in_pool cr.2.2.vertices.length S.line_segs ∧
        is_convex S.line_segs cr.2.2.vertices = true
      intro S hS
      rcases List.mem_append.mp hS with h1 | h1
      · obtain ⟨a1, a2⟩ := l4 S h1
        rw [r1]
        refine ⟨segs_in_pool_mono (by rw [List.length_append]; exact Nat.le_add_right _ _) a1, ?_⟩
        rw [is_convex_append _ _ _ a1]; exact a2
      · exact r4 S h1
    · have hn1 : g0.vertices.length = g.vertices.length + new0.length := by
        rw [hg0v, List.length_append]
      have hn2 : cl.2.2.vertices.length = g.vertices.length + (new0.length + newL.length) := by
        rw [l1, List.length_append, hn1, Nat.add_assoc]
      rw [hn1] at l5
      rw [hn2] at r5
      have step1 := rejoins_add _ ((sector_segments newSL : List LineSegment) :
        Multiset LineSegment) _ _ _ r5
      have step2 := rejoins_add _ (((split_segments segs g).2.1 : List LineSegment) :
        Multiset LineSegment) _ _ _ l5
      have c1 := rejoins_trans _ _ _ _ _ _ step2 s7
      rw [add_comm ((sector_segments newSL : List LineSegment) : Multiset LineSegment)] at c1
      have c2 := rejoins_trans _ _ _ _ _ _ step1 c1
      have hseg : ((sector_segments (newSL ++ newSR) : List LineSegment) :
          Multiset LineSegment) =
          ((sector_segments newSR : List LineSegment) : Multiset LineSegment) +
            ((sector_segments newSL : List LineSegment) : Multiset LineSegment) := by
        unfold sector_segments
        rw [List.flatMap_append, ← Multiset.coe_add, add_comm]
      rw [hseg]
      simp only [List.length_append]
      exact c2

end GenerateFacts

section TerminationFacts

variable {K : Type} [LinearOrderedField K]

/-- When no endpoint of the other segments is on side +1 of the splitter, the loop of
`split_segments` puts all of them in the left list and appends no vertex. -/
theorem split_fold_all_left (A B : pol_Vec2 K) (segs : List LineSegment) :
    ∀ st : List LineSegment × List LineSegment × GameState K,
      (∀ s ∈ segs, point_on_side A B (st.2.2.vertices.getD s.v1 default) ≠ 1 ∧
        point_on_side A B (st.2.2.vertices.getD s.v2 default) ≠ 1) →
      segs.foldl (split_segments_step A B) st = (st.1 ++ segs, st.2.1, st.2.2) := by
  induction segs with
  | nil => intro st _; simp
  | cons s rest ih =>
    intro st h
    obtain ⟨h1, h2⟩ := h s (List.mem_cons_self _ _)
    have hstep : split_segments_step A B st s = (st.1 ++ [s], st.2.1, st.2.2) := by
      have hn : ¬ point_on_side A B (st.2.2.vertices.getD s.v1 default) *
          point_on_side A B (st.2.2.vertices.getD s.v2 default) = -1 := by
        rw [side_mul_eq_neg_one_iff]
        rintro (⟨-, hb⟩ | ⟨ha, -⟩)
        · exact h2 hb
        · exact h1 ha
      have hn2 : ¬ (point_on_side A B (st.2.2.vertices.getD s.v1 default) = 1 ∨
          point_on_side A B (st.2.2.vertices.getD s.v2 default) = 1) := by
        rintro (ha | hb)
        · exact h1 ha
        · exact h2 hb
      unfold split_segments_step
      simp only []
      rw [if_neg hn, if_neg hn2]
    rw [List.foldl_cons, hstep,
      ih (st.1 ++ [s], st.2.1, st.2.2) (fun s1 hs1 => h s1 (List.mem_cons_of_mem _ hs1))]
    simp

/-- When no endpoint of the other segments is on side +1 of the splitter, `split_segments`
returns the other segments as the left list. -/
theorem split_segments_left_of_none_behind (s0 : LineSegment) (tail : List LineSegment)
    (g : GameState K) (h : none_behind g.vertices s0 tail) :
    (split_segments (s0 :: tail) g).1 = tail := by
  have := split_fold_all_left (g.vertices.getD s0.v1 default) (g.vertices.getD s0.v2 default)
    tail ([], [], g) h
  rw [split_segments_eq]
  have e : split_loop (s0 :: tail) g = ([] ++ tail, [], g) := this
  rw [e]
  simp

/-- A point of the line is on side 0. -/
theorem point_on_side_self (A B : pol_Vec2 K) :
    point_on_side A B A = 0 ∧ point_on_side A B B = 0 := by
  constructor
  · rw [point_on_side_eq_zero_iff]
    have : vec2_cross_product (vec2_subtract B A) (vec2_subtract A A) = 0 := by
      simp only [vec2_cross_product, vec2_subtract]; ring
    rw [this, abs_zero]; exact EPSILON_pos
  · rw [point_on_side_eq_zero_iff]
    have : vec2_cross_product (vec2_subtract B A) (vec2_subtract B A) = 0 := by
      simp only [vec2_cross_product, vec2_subtract]; ring
    rw [this, abs_zero]; exact EPSILON_pos

/-- Whether endpoints are behind a segment of the pool does not change when the pool
grows. -/
theorem none_behind_append (vs ext : List (pol_Vec2 K)) (d : LineSegment)
    (segs : List LineSegment) (hd : seg_in_pool vs.length d) (hs : segs_in_pool vs.length segs)
    (h : none_behind vs d segs) : none_behind (vs ++ ext) d segs := by
  intro s hm
  rw [side_of_append vs ext d _ hd (hs s hm).1, side_of_append vs ext d _ hd (hs s hm).2]
  exact h s hm

/-- Related lists have related elements. -/
theorem forall₂_mem_right {α β : Type} (R : α → β → Prop) :
    ∀ (l : List α) (m : List β), List.Forall₂ R l m → ∀ b ∈ m, ∃ a ∈ l, R a b := by
  intro l m h
  induction h with
  | nil => intro b hb; exact absurd hb (List.not_mem_nil b)
  | cons hab _ ih =>
    intro b hb
    rcases List.mem_cons.mp hb with rfl | hb
    · exact ⟨_, List.mem_cons_self _ _, hab⟩
    · obtain ⟨a, ha, hr⟩ := ih b hb
      exact ⟨a, List.mem_cons_of_mem _ ha, hr⟩

/-- Related lists have related elements. -/
theorem forall₂_mem_left {α β : Type} (R : α → β → Prop) :
    ∀ (l : List α) (m : List β), List.Forall₂ R l m → ∀ a ∈ l, ∃ b ∈ m, R a b := by
  intro l m h
  induction h with
  | nil => intro a ha; exact absurd ha (List.not_mem_nil a)
  | cons hab _ ih =>
    intro a ha
    rcases List.mem_cons.mp ha with rfl | ha
    · exact ⟨_, List.mem_cons_self _ _, hab⟩
    · obtain ⟨b, hb, hr⟩ := ih a ha
      exact ⟨b, List.mem_cons_of_mem _ hb, hr⟩

/-- The game state returned by `split_segments` is the one its loop ends with. -/
theorem split_segments_game_loop (segs : List LineSegment) (g : GameState K) :
    (split_segments segs g).2.2 = (split_loop segs g).2.2 :=
  split_segments_game segs g

/-- When the left list `split_segments` returns is as long as its input, it consists of
one sub-segment of each of the other segments, in order, followed by the splitter, and no
endpoint in it is on side +1 of the splitter. -/
theorem split_segments_left_full (s0 : LineSegment) (tail : List LineSegment)
    (g : GameState K) (hv : segs_in_pool g.vertices.length (s0 :: tail))
    (hlen : (split_segments (s0 :: tail) g).1.length = (s0 :: tail).length) :
    ∃ leftLoop : List LineSegment,
      (split_segments (s0 :: tail) g).1 = leftLoop ++ [s0] ∧
      List.Forall₂ (sub_seg (split_segments (s0 :: tail) g).2.2.vertices) leftLoop tail ∧
      none_behind (split_segments (s0 :: tail) g).2.2.vertices s0
        (split_segments (s0 :: tail) g).1 := by
  have inv : SplitInv (g.vertices.getD s0.v1 default) (g.vertices.getD s0.v2 default)
      g.vertices tail (split_loop (s0 :: tail) g) := split_loop_inv (s0 :: tail) g hv
  obtain ⟨new, hnew⟩ := inv.ext
  obtain ⟨subL, hsubL, hfL⟩ := inv.subL
  have hs0 : seg_in_pool g.vertices.length s0 := hv s0 (List.mem_cons_self _ _)
  have hlenL : (split_loop (s0 :: tail) g).1.length ≤ tail.length := by
    rw [hfL.length_eq]; exact hsubL.length_le
  rw [split_segments_game_loop]
  rw [split_segments_eq] at hlen ⊢
  have hA : (split_loop (s0 :: tail) g).2.2.vertices.getD s0.v1 default =
      g.vertices.getD s0.v1 default := by
    rw [hnew]; exact getD_append_pool _ _ _ hs0.1
  have hB : (split_loop (s0 :: tail) g).2.2.vertices.getD s0.v2 default =
      g.vertices.getD s0.v2 default := by
    rw [hnew]; exact getD_append_pool _ _ _ hs0.2
  split_ifs at hlen ⊢ with h
  · exfalso
    have : (split_loop (s0 :: tail) g).1.length = (s0 :: tail).length := hlen
    rw [List.length_cons] at this
    omega
  · have hl : ((split_loop (s0 :: tail) g).1 ++ [s0]).length = (s0 :: tail).length := hlen
    rw [List.length_append, List.length_singleton, List.length_cons] at hl
    have hsub_eq : subL = tail :=
      hsubL.eq_of_length (by rw [← hfL.length_eq]; omega)
    rw [hsub_eq] at hfL
    refine ⟨(split_loop (s0 :: tail) g).1, rfl, hfL, ?_⟩
    intro s hs
    have hs : s ∈ (split_loop (s0 :: tail) g).1 ++ [s0] := hs
    unfold side_of
    rw [hA, hB]
    rcases List.mem_append.mp hs with h1 | h1
    · exact inv.sideL s h1
    · rw [List.mem_singleton.mp h1, hA, hB]
      obtain ⟨z1, z2⟩ := point_on_side_self (g.vertices.getD s0.v1 default)
        (g.vertices.getD s0.v2 default)
      rw [z1, z2]
      exact ⟨by decide, by decide⟩

/-- A child of a node is finished, given enough fuel, if the build of its list returns
whenever `is_convex` rejects the list. -/
theorem generate_child_terminates (segs : List LineSegment) (g : GameState K)
    (h : is_convex segs g.vertices = false → terminates segs g) :
    ∃ (fuel0 : Nat) (r : Bool × Nat × GameState K),
      ∀ fuel, fuel0 ≤ fuel → generate_child (generate_bsp_tree fuel) segs g = some r := by
  cases hc : is_convex segs g.vertices
  · obtain ⟨fuel0, r, hr⟩ := h hc
    refine ⟨fuel0, (false, r.1, r.2), ?_⟩
    intro fuel hle
    rw [generate_child_some_iff]
    exact Or.inl ⟨hc, rfl, generate_bsp_tree_mono fuel0 fuel hle segs g r hr⟩
  · refine ⟨0, (true, to_int32 (g.sectors.length ||| SECTOR_FLAG),
      { g with sectors := g.sectors ++ [⟨segs⟩] }), ?_⟩
    intro fuel _
    rw [generate_child_some_iff]
    exact Or.inr ⟨hc, rfl⟩

/-- One level of the recursion: the build of a list returns if the builds of all shorter
lists return and the build of its left list returns in case that list is as long. -/
theorem terminates_step (segs : List LineSegment) (g : GameState K) (hne : segs ≠ [])
    (hv : segs_in_pool g.vertices.length segs)
    (houter : ∀ (L1 : List LineSegment) (g1 : GameState K), L1.length < segs.length →
      L1 ≠ [] → segs_in_pool g1.vertices.length L1 → terminates L1 g1)
    (hleft : ∀ g0 : GameState K, g0.vertices = (split_segments segs g).2.2.vertices →
      (split_segments segs g).1.length = segs.length →
      terminates (split_segments segs g).1 g0) :
    terminates segs g := by
  obtain ⟨new0, s1, -, -, -, s5, s6, -, s8, s9⟩ := split_segments_spec segs g hne hv
  have hg0 : ∃ g0 : GameState K, g0 = { (split_segments segs g).2.2 with
      nodes := (split_segments segs g).2.2.nodes ++ [default] } := ⟨_, rfl⟩
  obtain ⟨g0, hg0⟩ := hg0
  have hg0v : g0.vertices = (split_segments segs g).2.2.vertices := by rw [hg0]
  have hvl : segs_in_pool g0.vertices.length (split_segments segs g).1 := by
    rw [hg0v, s1]; exact s5
  obtain ⟨fl, cl, hcl⟩ := generate_child_terminates (split_segments segs g).1 g0 (by
    intro hc
    have h2 := length_of_not_convex _ _ hc
    rcases Nat.lt_or_ge (split_segments segs g).1.length segs.length with hlt | hge
    · exact houter _ g0 hlt (by intro h; rw [h] at h2; simp at h2) hvl
    · exact hleft g0 hg0v (le_antisymm s8 hge))
  obtain ⟨newL, newSL, l1, -⟩ := generate_child_ok (generate_bsp_tree fl)
    (generate_bsp_tree_ok fl) _ g0 cl hvl (hcl fl (le_refl _))
  have hvr : segs_in_pool cl.2.2.vertices.length (split_segments segs g).2.1 := by
    refine segs_in_pool_mono ?_ s6
    rw [l1, hg0v, s1, List.length_append (g.vertices ++ new0)]
    exact Nat.le_add_right _ _
  obtain ⟨fr, cr, hcr⟩ := generate_child_terminates (split_segments segs g).2.1 cl.2.2 (by
    intro hc
    have h2 := length_of_not_convex _ _ hc
    rcases s9 with hlt | hle
    · exact houter _ cl.2.2 hlt (by intro h; rw [h] at h2; simp at h2) hvr
    · omega)
  exact ⟨max fl fr + 1, _, (generate_bsp_tree_some_iff _ _ _ _).mpr
    ⟨cl, cr, g0, _, _, hg0, hcl _ (le_max_left _ _), hcr _ (le_max_right _ _), rfl, rfl, rfl⟩⟩

/-- The build of a list returns if the builds of all shorter lists return and the list has
a segment, among its first k + 1, with no endpoint of the list on its side +1. -/
theorem terminates_inner (n : Nat)
    (houter : ∀ (L1 : List LineSegment) (g1 : GameState K), L1.length < n →
      L1 ≠ [] → segs_in_pool g1.vertices.length L1 → terminates L1 g1) :
    ∀ (k : Nat) (segs : List LineSegment) (g : GameState K), segs.length = n → segs ≠ [] →
      segs_in_pool g.vertices.length segs →
      (∃ d ∈ segs.take (k + 1), none_behind g.vertices d segs) → terminates segs g := by
  intro k
  induction k with
  | zero =>
    intro segs g hn hne hv hgood
    obtain ⟨s0, tail, rfl⟩ := List.exists_cons_of_ne_nil hne
    obtain ⟨d, hd, hg⟩ := hgood
    rw [List.take_succ_cons, List.take_zero, List.mem_singleton] at hd
    rw [hd] at hg
    refine terminates_step _ g hne hv (by rw [hn]; exact houter) ?_
    intro g0 _ hlen
    exfalso
    rw [split_segments_left_of_none_behind s0 tail g
      (fun s hs => hg s (List.mem_cons_of_mem _ hs)), List.length_cons] at hlen
    omega
  | succ k ih =>
    intro segs g hn hne hv hgood
    obtain ⟨s0, tail, rfl⟩ := List.exists_cons_of_ne_nil hne
    refine terminates_step _ g hne hv (by rw [hn]; exact houter) ?_
    intro g0 hg0v hlen
    obtain ⟨d, hd, hg⟩ := hgood
    rw [List.take_succ_cons, List.mem_cons] at hd
    have hs0 : seg_in_pool g.vertices.length s0 := hv s0 (List.mem_cons_self _ _)
    obtain ⟨new0, s1, -, -, -, s5, -⟩ := split_segments_spec (s0 :: tail) g hne hv
    rcases hd with rfl | hd
    · exfalso
      rw [split_segments_left_of_none_behind d tail g
        (fun s hs => hg s (List.mem_cons_of_mem _ hs)), List.length_cons] at hlen
      omega
    · obtain ⟨leftLoop, e1, e2, -⟩ := split_segments_left_full s0 tail g hv hlen
      have hdv : seg_in_pool g.vertices.length d := hv d (List.mem_cons_of_mem _ (List.mem_of_mem_take hd))
      obtain ⟨d1, hd1, hsub⟩ := forall₂_mem_right _ _ _ (List.forall₂_take (k + 1) e2) d hd
      have hg1 : none_behind (g.vertices ++ new0) d (s0 :: tail) :=
        none_behind_append g.vertices new0 d _ hdv hv hg
      rw [s1] at e2 hsub
      have hall : ∀ x ∈ (split_segments (s0 :: tail) g).1,
          ∃ s ∈ s0 :: tail, sub_seg (g.vertices ++ new0) x s := by
        intro x hx
        rw [e1] at hx
        rcases List.mem_append.mp hx with h1 | h1
        · obtain ⟨b, hb, hr⟩ := forall₂_mem_left _ _ _ e2 x h1
          exact ⟨b, List.mem_cons_of_mem _ hb, hr⟩
        · rw [List.mem_singleton.mp h1]
          exact ⟨s0, List.mem_cons_self _ _, sub_seg_refl _ _⟩
      have hg2 := none_behind_sub (g.vertices ++ new0) d d1 (s0 :: tail) _ hg1 hsub hall
      refine ih _ g0 (by rw [hlen, hn]) ?_ (by rw [hg0v, s1]; exact s5) ⟨d1, ?_, ?_⟩
      · intro h; rw [h] at hlen; simp at hlen
      · rw [e1, List.take_append_eq_append_take]
        exact List.mem_append_left _ hd1
      · rw [hg0v, s1]; exact hg2

/-- The build of every non-empty list of segments of the pool returns, given enough
fuel. -/
theorem terminates_of_valid :
    ∀ (n : Nat) (segs : List LineSegment) (g : GameState K), segs.length = n → segs ≠ [] →
      segs_in_pool g.vertices.length segs → terminates segs g := by
  intro n
  induction n using Nat.strong_induction_on with
  | _ n ih =>
    intro segs g hn hne hv
    have houter : ∀ (L1 : List LineSegment) (g1 : GameState K), L1.length < n →
        L1 ≠ [] → segs_in_pool g1.vertices.length L1 → terminates L1 g1 :=
      fun L1 g1 hlt hne1 hv1 => ih L1.length hlt L1 g1 rfl hne1 hv1
    obtain ⟨s0, tail, rfl⟩ := List.exists_cons_of_ne_nil hne
    refine terminates_step _ g hne hv (by rw [hn]; exact houter) ?_
    intro g0 hg0v hlen
    obtain ⟨new0, s1, -, -, -, s5, -⟩ := split_segments_spec (s0 :: tail) g hne hv
    obtain ⟨leftLoop, e1, -, e3⟩ := split_segments_left_full s0 tail g hv hlen
    have hn1 : n = (n - 1) + 1 := by
      rw [← hn, List.length_cons]; omega
    refine terminates_inner n houter (n - 1) _ g0 (by rw [hlen, hn]) ?_
      (by rw [hg0v, s1]; exact s5) ⟨s0, ?_, ?_⟩
    · intro h; rw [h] at hlen; simp at hlen
    · rw [← hn1, List.take_of_length_le (by rw [hlen, hn]), e1]
      simp
    · rw [hg0v]; exact e3

end TerminationFacts

/-- Claim C2: for every non-empty list of segments that only name vertices of the pool,
the recursion of `generate_bsp_tree` halts: there is a depth bound from which on the
function returns, always with the same result.  This includes the lists in which
segments straddle the splitter, where the left list is as long as the input, and the
lists whose segments are collinear or of zero length. -/
theorem generate_bsp_tree_terminates {K : Type} [LinearOrderedField K]
    (segs : List LineSegment) (g : GameState K) (hne : segs ≠ [])
    (hv : ∀ s ∈ segs, seg_in_pool g.vertices.length s) :
    ∃ (fuel : Nat) (r : Nat × GameState K),
      ∀ fuel1, fuel ≤ fuel1 → generate_bsp_tree fuel1 segs g = some r := by
  obtain ⟨fuel, r, h⟩ := terminates_of_valid segs.length segs g rfl hne hv
  exact ⟨fuel, r, fun fuel1 hle => generate_bsp_tree_mono fuel fuel1 hle segs g r h⟩

/-- Witness for claim C2: two crossing segments.  The second one straddles the first, the
left list of the first split has two segments again, and the build halts. -/
theorem generate_bsp_tree_terminates_witness :
    crossing_segments ≠ [] ∧
    (∀ s ∈ crossing_segments, seg_in_pool crossing_game.vertices.length s) ∧
    ∃ (fuel : Nat) (r : Nat × GameState ℚ),
      ∀ fuel1, fuel ≤ fuel1 → generate_bsp_tree fuel1 crossing_segments crossing_game = some r :=
  ⟨by decide, by simp [crossing_segments, crossing_game, seg_in_pool],
    generate_bsp_tree_terminates crossing_segments crossing_game (by decide)
      (by simp [crossing_segments, crossing_game, seg_in_pool])⟩

/-- Counterexample to claim C1 as stated: for the clockwise square the build creates the
leaf sector [(1→2), (2→3), (3→0)], and the endpoint 3 of its second segment is on side +1
of its first segment, not on side 0 or −1. -/
theorem sector_convexity_counterexample :
    generate_bsp_tree 1 cw_square_segments cw_square_game =
      some (0, { player_cam := ⟨⟨0, 0⟩, 0, 0⟩,
                 vertices := [⟨-100, 100⟩, ⟨100, 100⟩, ⟨100, -100⟩, ⟨-100, -100⟩],
                 nodes := [⟨⟨0, 1⟩, 2147483648, 2147483649, true, true⟩],
                 sectors := [⟨[⟨0, 1⟩]⟩, ⟨[⟨1, 2⟩, ⟨2, 3⟩, ⟨3, 0⟩]⟩] }) ∧
    point_on_side (⟨100, 100⟩ : pol_Vec2 ℚ) ⟨100, -100⟩ ⟨-100, -100⟩ = 1 := by
  decide!

section ClaimsOnBuild

variable {K : Type} [LinearOrderedField K]

/-- Claim C1, amended: for every non-empty list of segments of the pool the build returns,
and in every leaf sector it creates, for every two distinct positions i, j, both endpoints
of segment j are on side 0 or +1 of segment i, in the final vertex pool: `is_convex`
accepts a list exactly when no endpoint is on side −1 of another segment of the list
(which rules out every straddling pair). -/
theorem sector_convexity (segs : List LineSegment) (g : GameState K) (hne : segs ≠ [])
    (hv : ∀ s ∈ segs, seg_in_pool g.vertices.length s) :
    (∃ (fuel : Nat) (r : Nat × GameState K) (newS : List Sector),
      (∀ fuel1, fuel ≤ fuel1 → generate_bsp_tree fuel1 segs g = some r) ∧
      r.2.sectors = g.sectors ++ newS ∧
      ∀ S ∈ newS, ∀ i j : Nat, i < S.line_segs.length → j < S.line_segs.length → i ≠ j →
        (point_on_side (r.2.vertices.getD (S.line_segs.getD i default).v1 default)
            (r.2.vertices.getD (S.line_segs.getD i default).v2 default)
            (r.2.vertices.getD (S.line_segs.getD j default).v1 default) = 0 ∨
          point_on_side (r.2.vertices.getD (S.line_segs.getD i default).v1 default)
            (r.2.vertices.getD (S.line_segs.getD i default).v2 default)
            (r.2.vertices.getD (S.line_segs.getD j default).v1 default) = 1) ∧
        (point_on_side (r.2.vertices.getD (S.line_segs.getD i default).v1 default)
            (r.2.vertices.getD (S.line_segs.getD i default).v2 default)
            (r.2.vertices.getD (S.line_segs.getD j default).v2 default) = 0 ∨
          point_on_side (r.2.vertices.getD (S.line_segs.getD i default).v1 default)
            (r.2.vertices.getD (S.line_segs.getD i default).v2 default)
            (r.2.vertices.getD (S.line_segs.getD j default).v2 default) = 1)) ∧
    (∀ (l : List LineSegment) (vs : List (pol_Vec2 K)),
      is_convex l vs = false ↔
        ∃ i j : Nat, i < l.length ∧ j < l.length ∧ i ≠ j ∧
          (point_on_side (vs.getD (l.getD i default).v1 default)
              (vs.getD (l.getD i default).v2 default)
              (vs.getD (l.getD j default).v1 default) = -1 ∨
            point_on_side (vs.getD (l.getD i default).v1 default)
              (vs.getD (l.getD i default).v2 default)
              (vs.getD (l.getD j default).v2 default) = -1)) := by
  constructor
  · obtain ⟨fuel, r, h⟩ := terminates_of_valid segs.length segs g rfl hne hv
    obtain ⟨new, newS, -, b2, -, b4, -⟩ := generate_bsp_tree_ok fuel segs g r hne hv h
    refine ⟨fuel, r, newS, fun fuel1 hle => generate_bsp_tree_mono fuel fuel1 hle segs g r h,
      b2, ?_⟩
    intro S hS i j hi hj hij
    obtain ⟨c1, c2⟩ := (is_convex_iff S.line_segs r.2.vertices).mp (b4 S hS).2 i j hi hj hij
    unfold side_of at c1 c2
    constructor
    · rcases point_on_side_cases (r.2.vertices.getD (S.line_segs.getD i default).v1 default)
        (r.2.vertices.getD (S.line_segs.getD i default).v2 default)
        (r.2.vertices.getD (S.line_segs.getD j default).v1 default) with h0 | h0 | h0
      · exact Or.inl h0
      · exact absurd h0 c1
      · exact Or.inr h0
    · rcases point_on_side_cases (r.2.vertices.getD (S.line_segs.getD i default).v1 default)
        (r.2.vertices.getD (S.line_segs.getD i default).v2 default)
        (r.2.vertices.getD (S.line_segs.getD j default).v2 default) with h0 | h0 | h0
      · exact Or.inl h0
      · exact absurd h0 c2
      · exact Or.inr h0
  · intro l vs
    rw [← Bool.not_eq_true, is_convex_iff]
    unfold side_of
    constructor
    · intro h
      by_contra hcon
      apply h
      intro i j hi hj hij
      constructor
      · intro h1; exact hcon ⟨i, j, hi, hj, hij, Or.inl h1⟩
      · intro h1; exact hcon ⟨i, j, hi, hj, hij, Or.inr h1⟩
    · rintro ⟨i, j, hi, hj, hij, h1 | h1⟩ h
      · exact (h i j hi hj hij).1 h1
      · exact (h i j hi hj hij).2 h1

/-- Claim C3: for every non-empty list of segments of the pool the build returns; joining,
for each vertex appended during the build, from the last back to the first, the two
fragments that meet in it, turns the multiset of the segments stored in the new leaf
sectors into the multiset of the input segments; and the total number of segments in the
new sectors is the number of input segments plus the number of appended vertices. -/
theorem bsp_completeness (segs : List LineSegment) (g : GameState K) (hne : segs ≠ [])
    (hv : ∀ s ∈ segs, seg_in_pool g.vertices.length s) :
    ∃ (fuel : Nat) (r : Nat × GameState K) (new : List (pol_Vec2 K)) (newS : List Sector),
      (∀ fuel1, fuel ≤ fuel1 → generate_bsp_tree fuel1 segs g = some r) ∧
      r.2.vertices = g.vertices ++ new ∧ r.2.sectors = g.sectors ++ newS ∧
      rejoins g.vertices.length new.length
        ((sector_segments newS : List LineSegment) : Multiset LineSegment)
        (segs : Multiset LineSegment) ∧
      (sector_segments newS).length = segs.length + new.length := by
  obtain ⟨fuel, r, h⟩ := terminates_of_valid segs.length segs g rfl hne hv
  obtain ⟨new, newS, b1, b2, -, -, b5⟩ := generate_bsp_tree_ok fuel segs g r hne hv h
  refine ⟨fuel, r, new, newS,
    fun fuel1 hle => generate_bsp_tree_mono fuel fuel1 hle segs g r h, b1, b2, b5, ?_⟩
  have := rejoins_card _ _ _ _ b5
  simpa using this

end ClaimsOnBuild

/-- Witness for claim C1 (amended), on the clockwise square. -/
theorem sector_convexity_witness :
    cw_square_segments ≠ [] ∧
    (∀ s ∈ cw_square_segments, seg_in_pool cw_square_game.vertices.length s) ∧
    ∃ (fuel : Nat) (r : Nat × GameState ℚ) (newS : List Sector),
      (∀ fuel1, fuel ≤ fuel1 → generate_bsp_tree fuel1 cw_square_segments cw_square_game = some r) ∧
      r.2.sectors = cw_square_game.sectors ++ newS :=
  ⟨by decide, by decide,
    (sector_convexity cw_square_segments cw_square_game (by decide) (by decide)).1.imp
      fun _ h => h.imp fun _ h => h.imp fun _ h => ⟨h.1, h.2.1⟩⟩

/-- Witness for claim C3, on Scenario B (a triangle and a segment crossing one edge). -/
theorem bsp_completeness_witness :
    scenario_b_segments ≠ [] ∧
    (∀ s ∈ scenario_b_segments, seg_in_pool scenario_b_game.vertices.length s) ∧
    ∃ (fuel : Nat) (r : Nat × GameState ℚ) (new : List (pol_Vec2 ℚ)) (newS : List Sector),
      (∀ fuel1, fuel ≤ fuel1 →
        generate_bsp_tree fuel1 scenario_b_segments scenario_b_game = some r) ∧
      r.2.vertices = scenario_b_game.vertices ++ new ∧
      r.2.sectors = scenario_b_game.sectors ++ newS ∧
      rejoins scenario_b_game.vertices.length new.length
        ((sector_segments newS : List LineSegment) : Multiset LineSegment)
        (scenario_b_segments : Multiset LineSegment) ∧
      (sector_segments newS).length = scenario_b_segments.length + new.length :=
  ⟨by decide, by decide,
    bsp_completeness scenario_b_segments scenario_b_game (by decide) (by decide)⟩

section SubSegFacts

variable {K : Type} [LinearOrderedField K]

/-- A sub-segment of a sub-segment is a sub-segment. -/
theorem sub_seg_trans (vs : List (pol_Vec2 K)) (s2 s1 s : LineSegment)
    (h21 : sub_seg vs s2 s1) (h1 : sub_seg vs s1 s) : sub_seg vs s2 s := by
  obtain ⟨u1, u2, hu0, hu12, hu1, e1, e2⟩ := h21
  obtain ⟨t1, t2, ht0, ht12, ht1, f1, f2⟩ := h1
  refine ⟨t1 + u1 * (t2 - t1), t1 + u2 * (t2 - t1), ?_, ?_, ?_, ?_, ?_⟩
  · have := mul_nonneg hu0 (by linarith : (0 : K) ≤ t2 - t1)
    linarith
  · have := mul_lt_mul_of_pos_right hu12 (by linarith : (0 : K) < t2 - t1)
    linarith
  · have := mul_le_mul_of_nonneg_right hu1 (by linarith : (0 : K) ≤ t2 - t1)
    linarith
  · rw [e1, f1, f2, pol_Vec2.mk.injEq]
    constructor <;> ring
  · rw [e2, f1, f2, pol_Vec2.mk.injEq]
    constructor <;> ring

/-- A point of a segment whose endpoints are not on side −1 is not on side −1. -/
theorem side_ne_neg_one_of_between (A B p q z : pol_Vec2 K) (t : K) (h0 : 0 ≤ t) (h1 : t ≤ 1)
    (hz : z = ⟨p.x + t * (q.x - p.x), p.y + t * (q.y - p.y)⟩)
    (hp : point_on_side A B p ≠ -1) (hq : point_on_side A B q ≠ -1) :
    point_on_side A B z ≠ -1 := by
  rw [Ne, point_on_side_eq_neg_one_iff, not_le] at hp hq ⊢
  have e : vec2_cross_product (vec2_subtract B A) (vec2_subtract z A) =
      (1 - t) * vec2_cross_product (vec2_subtract B A) (vec2_subtract p A) +
        t * vec2_cross_product (vec2_subtract B A) (vec2_subtract q A) := by
    rw [hz]; simp only [vec2_cross_product, vec2_subtract]; ring
  rw [e]
  generalize vec2_cross_product (vec2_subtract B A) (vec2_subtract p A) = cp at hp
  generalize vec2_cross_product (vec2_subtract B A) (vec2_subtract q A) = cq at hq
  rcases eq_or_lt_of_le h0 with h | h
  · rw [← h]; linarith
  · have a1 : 0 ≤ (1 - t) * (EPSILON - cp) := mul_nonneg (by linarith) (by linarith)
    have a2 : 0 < t * (EPSILON - cq) := mul_pos h (by linarith)
    linarith

/-- The endpoints of a sub-segment are not on side +1 of a segment `d` when the endpoints
of the segment are not. -/
theorem sub_seg_side_ne_one (vs : List (pol_Vec2 K)) (d s1 s : LineSegment)
    (hsub : sub_seg vs s1 s) (h : side_of vs d s.v1 ≠ 1 ∧ side_of vs d s.v2 ≠ 1) :
    side_of vs d s1.v1 ≠ 1 ∧ side_of vs d s1.v2 ≠ 1 := by
  obtain ⟨t1, t2, h0, h12, h1, e1, e2⟩ := hsub
  exact ⟨side_ne_one_of_between _ _ _ _ _ t1 h0 (by linarith) e1 h.1 h.2,
    side_ne_one_of_between _ _ _ _ _ t2 (by linarith) h1 e2 h.1 h.2⟩

/-- The endpoints of a sub-segment are not on side −1 of a segment `d` when the endpoints
of the segment are not. -/
theorem sub_seg_side_ne_neg_one (vs : List (pol_Vec2 K)) (d s1 s : LineSegment)
    (hsub : sub_seg vs s1 s) (h : side_of vs d s.v1 ≠ -1 ∧ side_of vs d s.v2 ≠ -1) :
    side_of vs d s1.v1 ≠ -1 ∧ side_of vs d s1.v2 ≠ -1 := by
  obtain ⟨t1, t2, h0, h12, h1, e1, e2⟩ := hsub
  exact ⟨side_ne_neg_one_of_between _ _ _ _ _ t1 h0 (by linarith) e1 h.1 h.2,
    side_ne_neg_one_of_between _ _ _ _ _ t2 (by linarith) h1 e2 h.1 h.2⟩

/-- The lists `split_segments` returns consist of sub-segments of the input; no endpoint
of the left list is on side +1 of the splitter and no endpoint of the right list on
side −1, in the pool the call returns. -/
theorem split_segments_sides (s0 : LineSegment) (tail : List LineSegment) (g : GameState K)
    (hv : segs_in_pool g.vertices.length (s0 :: tail)) :
    (∀ s1 ∈ (split_segments (s0 :: tail) g).1,
      (∃ s ∈ s0 :: tail, sub_seg (split_segments (s0 :: tail) g).2.2.vertices s1 s) ∧
      side_of (split_segments (s0 :: tail) g).2.2.vertices s0 s1.v1 ≠ 1 ∧
      side_of (split_segments (s0 :: tail) g).2.2.vertices s0 s1.v2 ≠ 1) ∧
    (∀ s1 ∈ (split_segments (s0 :: tail) g).2.1,
      (∃ s ∈ s0 :: tail, sub_seg (split_segments (s0 :: tail) g).2.2.vertices s1 s) ∧
      side_of (split_segments (s0 :: tail) g).2.2.vertices s0 s1.v1 ≠ -1 ∧
      side_of (split_segments (s0 :: tail) g).2.2.vertices s0 s1.v2 ≠ -1) := by
  have inv : SplitInv (g.vertices.getD s0.v1 default) (g.vertices.getD s0.v2 default)
      g.vertices tail (split_loop (s0 :: tail) g) := split_loop_inv (s0 :: tail) g hv
  obtain ⟨new, hnew⟩ := inv.ext
  obtain ⟨subL, hsubL, hfL⟩ := inv.subL
  obtain ⟨subR, hsubR, hfR⟩ := inv.subR
  have hs0 : seg_in_pool g.vertices.length s0 := hv s0 (List.mem_cons_self _ _)
  have hA : (split_loop (s0 :: tail) g).2.2.vertices.getD s0.v1 default =
      g.vertices.getD s0.v1 default := by
    rw [hnew]; exact getD_append_pool _ _ _ hs0.1
  have hB : (split_loop (s0 :: tail) g).2.2.vertices.getD s0.v2 default =
      g.vertices.getD s0.v2 default := by
    rw [hnew]; exact getD_append_pool _ _ _ hs0.2
  obtain ⟨z1, z2⟩ := point_on_side_self (g.vertices.getD s0.v1 default)
    (g.vertices.getD s0.v2 default)
  have hself1 : side_of (split_loop (s0 :: tail) g).2.2.vertices s0 s0.v1 = 0 := by
    unfold side_of; rw [hA, hB]; exact z1
  have hself2 : side_of (split_loop (s0 :: tail) g).2.2.vertices s0 s0.v2 = 0 := by
    unfold side_of; rw [hA, hB]; exact z2
  have hL : ∀ s1 ∈ (split_loop (s0 :: tail) g).1,
      (∃ s ∈ s0 :: tail, sub_seg (split_loop (s0 :: tail) g).2.2.vertices s1 s) ∧
      side_of (split_loop (s0 :: tail) g).2.2.vertices s0 s1.v1 ≠ 1 ∧
      side_of (split_loop (s0 :: tail) g).2.2.vertices s0 s1.v2 ≠ 1 := by
    intro s1 h1
    obtain ⟨b, hb, hr⟩ := forall₂_mem_left _ _ _ hfL s1 h1
    refine ⟨⟨b, List.mem_cons_of_mem _ (hsubL.subset hb), hr⟩, ?_⟩
    unfold side_of; rw [hA, hB]; exact inv.sideL s1 h1
  have hR : ∀ s1 ∈ (split_loop (s0 :: tail) g).2.1,
      (∃ s ∈ s0 :: tail, sub_seg (split_loop (s0 :: tail) g).2.2.vertices s1 s) ∧
      side_of (split_loop (s0 :: tail) g).2.2.vertices s0 s1.v1 ≠ -1 ∧
      side_of (split_loop (s0 :: tail) g).2.2.vertices s0 s1.v2 ≠ -1 := by
    intro s1 h1
    obtain ⟨b, hb, hr⟩ := forall₂_mem_left _ _ _ hfR s1 h1
    refine ⟨⟨b, List.mem_cons_of_mem _ (hsubR.subset hb), hr⟩, ?_⟩
    unfold side_of; rw [hA, hB]; exact inv.sideR s1 h1
  have hS : (∃ s ∈ s0 :: tail, sub_seg (split_loop (s0 :: tail) g).2.2.vertices s0 s) :=
    ⟨s0, List.mem_cons_self _ _, sub_seg_refl _ _⟩
  rw [split_segments_game_loop, split_segments_eq]
  split_ifs with h
  · refine ⟨hL, ?_⟩
    intro s1 h1
    have e : s1 = s0 := List.mem_singleton.mp h1
    rw [e, hself1, hself2]
    exact ⟨hS, by decide, by decide⟩
  · refine ⟨?_, hR⟩
    intro s1 h1
    rcases List.mem_append.mp h1 with h2 | h2
    · exact hL s1 h2
    · have e : s1 = s0 := List.mem_singleton.mp h2
      rw [e, hself1, hself2]
      exact ⟨hS, by decide, by decide⟩

/-- The segments of the sectors a build creates are sub-segments of its input, if this
holds of the recursive call. -/
theorem generate_child_sub
    (recurse : List LineSegment → GameState K → Option (Nat × GameState K))
    (hrec : ∀ segs g r, segs ≠ [] → segs_in_pool g.vertices.length segs →
      recurse segs g = some r → ∀ newS, r.2.sectors = g.sectors ++ newS →
      ∀ S ∈ newS, ∀ s1 ∈ S.line_segs, ∃ s ∈ segs, sub_seg r.2.vertices s1 s)
    (segs : List LineSegment) (g : GameState K) (r : Bool × Nat × GameState K)
    (hv : segs_in_pool g.vertices.length segs)
    (hr : generate_child recurse segs g = some r) :
    ∀ newS, r.2.2.sectors = g.sectors ++ newS →
      ∀ S ∈ newS, ∀ s1 ∈ S.line_segs, ∃ s ∈ segs, sub_seg r.2.2.vertices s1 s := by
  rw [generate_child_some_iff] at hr
  rcases hr with ⟨h1, -, h3⟩ | ⟨h1, rfl⟩
  · have hlen := length_of_not_convex segs g.vertices h1
    have hne : segs ≠ [] := by
      intro h; rw [h] at hlen; simp at hlen
    exact hrec segs g r.2 hne hv h3
  · intro newS hnewS S hS s1 hs1
    have : newS = [⟨segs⟩] := (List.append_cancel_left hnewS).symm
    rw [this, List.mem_singleton] at hS
    rw [hS] at hs1
    exact ⟨s1, hs1, sub_seg_refl _ _⟩

/-- The segments of the sectors a build creates are sub-segments of its input, in the final
pool. -/
theorem generate_bsp_tree_sub :
    ∀ (fuel : Nat) (segs : List LineSegment) (g : GameState K) (r : Nat × GameState K),
      segs ≠ [] → segs_in_pool g.vertices.length segs →
      generate_bsp_tree fuel segs g = some r → ∀ newS, r.2.sectors = g.sectors ++ newS →
      ∀ S ∈ newS, ∀ s1 ∈ S.line_segs, ∃ s ∈ segs, sub_seg r.2.vertices s1 s := by
  intro fuel
  induction fuel with
  | zero => intro segs g r _ _ h; rw [generate_bsp_tree] at h; exact absurd h (by simp)
  | succ n ih =>
    intro segs g r hne hv h newS hnewS S hS s1 hs1
    rw [generate_bsp_tree_some_iff] at h
    obtain ⟨cl, cr, g0, node, k, e1, e2, e3, -, -, e6⟩ := h
    obtain ⟨new0, p1, -, p3, -, p5, p6, -, -, -⟩ := split_segments_spec segs g hne hv
    obtain ⟨s0, tail, rfl⟩ := List.exists_cons_of_ne_nil hne
    obtain ⟨q1, q2⟩ := split_segments_sides s0 tail g hv
    rw [p1] at q1 q2
    have hg0v : g0.vertices = g.vertices ++ new0 := by rw [e1]; exact p1
    have hg0s : g0.sectors = g.sectors := by rw [e1]; exact p3
    have hvl : segs_in_pool g0.vertices.length (split_segments (s0 :: tail) g).1 := by
      rw [hg0v]; exact p5
    obtain ⟨newL, newSL, l1, l2, -, l4, -⟩ :=
      generate_child_ok (generate_bsp_tree n) (generate_bsp_tree_ok n) _ g0 cl hvl e2
    have hlen : (g.vertices ++ new0).length ≤ cl.2.2.vertices.length := by
      rw [l1, hg0v, List.length_append (g.vertices ++ new0)]; exact Nat.le_add_right _ _
    have hvr : segs_in_pool cl.2.2.vertices.length (split_segments (s0 :: tail) g).2.1 :=
      segs_in_pool_mono hlen p6
    obtain ⟨newR, newSR, r1, r2, -, r4, -⟩ :=
      generate_child_ok (generate_bsp_tree n) (generate_bsp_tree_ok n) _ cl.2.2 cr hvr e3
    have subL := generate_child_sub (generate_bsp_tree n) ih _ g0 cl hvl e2 newSL l2
    have subR := generate_child_sub (generate_bsp_tree n) ih _ cl.2.2 cr hvr e3 newSR r2
    have hrv : r.2.vertices = cr.2.2.vertices := by rw [e6]
    have hrs : r.2.sectors = cr.2.2.sectors := by rw [e6]
    have hnew : newS = newSL ++ newSR := by
      rw [hrs, r2, l2, hg0s, List.append_assoc] at hnewS
      exact (List.append_cancel_left hnewS).symm
    have hv0 : segs_in_pool (g.vertices ++ new0).length (s0 :: tail) :=
      segs_in_pool_mono (by rw [List.length_append]; exact Nat.le_add_right _ _) hv
    rw [hnew] at hS
    rw [hrv]
    rcases List.mem_append.mp hS with hSL | hSR
    · obtain ⟨s, hs, hsub⟩ := subL S hSL s1 hs1
      obtain ⟨⟨s2, hs2, hsub2⟩, -⟩ := q1 s hs
      have t1 : sub_seg cl.2.2.vertices s s2 := by
        rw [l1, hg0v]
        exact sub_seg_append _ newL s s2 (p5 s hs) (hv0 s2 hs2) hsub2
      have t2 := sub_seg_trans _ _ _ _ hsub t1
      rw [r1]
      exact ⟨s2, hs2, sub_seg_append _ newR s1 s2 ((l4 S hSL).1 s1 hs1)
        (segs_in_pool_mono hlen hv0 s2 hs2) t2⟩
    · obtain ⟨s, hs, hsub⟩ := subR S hSR s1 hs1
      obtain ⟨⟨s2, hs2, hsub2⟩, -⟩ := q2 s hs
      have t1 : sub_seg cr.2.2.vertices s s2 := by
        rw [r1, l1, hg0v, List.append_assoc]
        exact sub_seg_append _ (newL ++ newR) s s2 (p6 s hs) (hv0 s2 hs2) hsub2
      exact ⟨s2, hs2, sub_seg_trans _ _ _ _ hsub t1⟩

end SubSegFacts

section TreeFacts

variable {K : Type} [LinearOrderedField K]

/-- The traversal visits every leaf once. -/
theorem render_order_perm (vs : List (pol_Vec2 K)) (pos : pol_Vec2 K) :
    ∀ t : BspTree, (render_order vs pos t).Perm t.leaves := by
  intro t
  induction t with
  | leaf i => exact List.Perm.refl _
  | node i s l r ihl ihr =>
    unfold render_order BspTree.leaves
    split_ifs
    · exact List.perm_append_comm.trans (ihl.append ihr)
    · exact ihl.append ihr

/-- On a reference that leads to a tree, `render_bsp` returns once the fuel exceeds the
height of the tree, and appends the leaves in traversal order. -/
theorem render_bsp_of_encodes (h : GameState K) :
    ∀ (t : BspTree) (ref fuel : Nat), encodes h.nodes ref t → t.depth < fuel →
      ∀ D, render_bsp fuel ref h D = some (D ++ render_order h.vertices h.player_cam.pos t) := by
  intro t
  induction t with
  | leaf i =>
    intro ref fuel henc hd D
    obtain ⟨f, rfl⟩ : ∃ f, fuel = f + 1 := ⟨fuel - 1, by omega⟩
    obtain ⟨h1, h2⟩ := henc
    rw [render_bsp]
    simp only []
    rw [if_pos h1, h2]
    rfl
  | node i s l r ihl ihr =>
    intro ref fuel henc hd D
    obtain ⟨f, rfl⟩ : ∃ f, fuel = f + 1 := ⟨fuel - 1, by omega⟩
    obtain ⟨h1, h2, -, h4, h5, h6⟩ := henc
    have hdl : l.depth < f := by
      have : max l.depth r.depth + 1 < f + 1 := hd
      have := le_max_left l.depth r.depth
      omega
    have hdr : r.depth < f := by
      have : max l.depth r.depth + 1 < f + 1 := hd
      have := le_max_right l.depth r.depth
      omega
    rw [h2] at h1
    rw [h2, render_bsp]
    simp only []
    rw [if_neg (not_not.mpr h1), h4]
    unfold render_order
    by_cases hside : point_on_side (h.vertices.getD s.v1 default) (h.vertices.getD s.v2 default)
        h.player_cam.pos = 1
    · rw [if_pos hside, if_pos hside, ihr _ f h6 hdr D]
      simp only []
      rw [ihl _ f h5 hdl, List.append_assoc]
    · rw [if_neg hside, if_neg hside, ihl _ f h5 hdl D]
      simp only []
      rw [ihr _ f h6 hdr, List.append_assoc]

end TreeFacts

/-- The reference stored for a sector has the flag bit set. -/
theorem sector_ref_flag (n : Nat) : to_int32 (n ||| SECTOR_FLAG) &&& SECTOR_FLAG ≠ 0 := by
  have h : SECTOR_FLAG = 2 ^ 31 := by unfold SECTOR_FLAG; norm_num
  unfold to_int32
  rw [h, Nat.and_two_pow, Nat.testBit_mod_two_pow, Nat.testBit_lor, Nat.testBit_two_pow_self]
  simp

/-- The reference stored for a sector decodes to the index of the sector. -/
theorem sector_ref_index (n : Nat) (hn : n < 2 ^ 31) :
    to_int32 (n ||| SECTOR_FLAG) &&& 0x7FFFFFFF = n := by
  have h : SECTOR_FLAG = 2 ^ 31 := by unfold SECTOR_FLAG; norm_num
  have h7 : (0x7FFFFFFF : Nat) = 2 ^ 31 - 1 := by norm_num
  unfold to_int32
  rw [h, h7, Nat.and_pow_two_sub_one_eq_mod]
  apply Nat.eq_of_testBit_eq
  intro i
  rw [Nat.testBit_mod_two_pow, Nat.testBit_mod_two_pow, Nat.testBit_lor]
  by_cases hi : i < 31
  · have h32 : i < 32 := by omega
    have : (2 ^ 31).testBit i = false := by
      rw [Nat.testBit_two_pow]; simp; omega
    rw [this, Bool.or_false]
    simp [hi, h32]
  · have : n.testBit i = false :=
      Nat.testBit_lt_two_pow (lt_of_lt_of_le hn (Nat.pow_le_pow_right (by norm_num) (by omega)))
    simp [hi, this]

/-- The reference stored for a node is its index and has the flag bit clear. -/
theorem node_ref_flag (k : Nat) (hk : k < 2 ^ 31) :
    to_int32 k = k ∧ k &&& SECTOR_FLAG = 0 := by
  have h : SECTOR_FLAG = 2 ^ 31 := by unfold SECTOR_FLAG; norm_num
  constructor
  · unfold to_int32; exact Nat.mod_eq_of_lt (lt_trans hk (by norm_num))
  · rw [h, Nat.and_two_pow, Nat.testBit_lt_two_pow hk]
    simp

section TreeBuildFacts

variable {K : Type} [LinearOrderedField K]

/-- A tree stays encoded when the node list changes outside the nodes of the tree. -/
theorem encodes_congr (nodes nodes1 : List Node) :
    ∀ (t : BspTree) (ref : Nat), encodes nodes ref t →
      (∀ i ∈ t.node_indices, i < nodes1.length ∧
        nodes1.getD i default = nodes.getD i default) →
      encodes nodes1 ref t := by
  intro t
  induction t with
  | leaf i => intro ref h _; exact h
  | node i s l r ihl ihr =>
    intro ref h hagree
    obtain ⟨h1, h2, -, h4, h5, h6⟩ := h
    obtain ⟨a1, a2⟩ := hagree i (List.mem_cons_self _ _)
    refine ⟨h1, h2, a1, by rw [a2]; exact h4, ?_, ?_⟩
    · rw [a2]
      exact ihl _ h5 (fun j hj => hagree j
        (List.mem_cons_of_mem _ (List.mem_append_left _ hj)))
    · rw [a2]
      exact ihr _ h6 (fun j hj => hagree j
        (List.mem_cons_of_mem _ (List.mem_append_right _ hj)))

/-- The side facts of a tree stay true when vertices and sectors are appended. -/
theorem sides_all_append (vs ext : List (pol_Vec2 K)) (secs more : List Sector) :
    ∀ t : BspTree, sides_all vs secs t → sides_all (vs ++ ext) (secs ++ more) t := by
  intro t
  induction t with
  | leaf i => intro _; trivial
  | node i s l r ihl ihr =>
    intro h
    obtain ⟨h1, h2, h3, h4, h5⟩ := h
    have hlen : vs.length ≤ (vs ++ ext).length := by
      rw [List.length_append]; exact Nat.le_add_right _ _
    have hslen : secs.length ≤ (secs ++ more).length := by
      rw [List.length_append]; exact Nat.le_add_right _ _
    refine ⟨⟨lt_of_lt_of_le h1.1 hlen, lt_of_lt_of_le h1.2 hlen⟩, ?_, ?_, ihl h4, ihr h5⟩
    · intro j hj
      obtain ⟨b1, b2⟩ := h2 j hj
      refine ⟨lt_of_lt_of_le b1 hslen, ?_⟩
      rw [List.getD_append secs more default j b1]
      intro seg hseg
      obtain ⟨c1, c2, c3⟩ := b2 seg hseg
      rw [side_of_append vs ext s _ h1 c1.1, side_of_append vs ext s _ h1 c1.2]
      exact ⟨⟨lt_of_lt_of_le c1.1 hlen, lt_of_lt_of_le c1.2 hlen⟩, c2, c3⟩
    · intro j hj
      obtain ⟨b1, b2⟩ := h3 j hj
      refine ⟨lt_of_lt_of_le b1 hslen, ?_⟩
      rw [List.getD_append secs more default j b1]
      intro seg hseg
      obtain ⟨c1, c2, c3⟩ := b2 seg hseg
      rw [side_of_append vs ext s _ h1 c1.1, side_of_append vs ext s _ h1 c1.2]
      exact ⟨⟨lt_of_lt_of_le c1.1 hlen, lt_of_lt_of_le c1.2 hlen⟩, c2, c3⟩

/-- A finished `generate_child` does not shorten the node list, if the recursive call does
not. -/
theorem generate_child_nodes_length
    (recurse : List LineSegment → GameState K → Option (Nat × GameState K))
    (hrec : ∀ segs g r, recurse segs g = some r → g.nodes.length ≤ r.2.nodes.length)
    (segs : List LineSegment) (g : GameState K) (r : Bool × Nat × GameState K)
    (hr : generate_child recurse segs g = some r) : g.nodes.length ≤ r.2.2.nodes.length := by
  rw [generate_child_some_iff] at hr
  rcases hr with ⟨-, -, h3⟩ | ⟨-, rfl⟩
  · exact hrec _ _ _ h3
  · exact le_refl _

/-- A finished build has made the node list longer. -/
theorem generate_bsp_tree_nodes_length :
    ∀ (fuel : Nat) (segs : List LineSegment) (g : GameState K) (r : Nat × GameState K),
      generate_bsp_tree fuel segs g = some r → g.nodes.length < r.2.nodes.length := by
  intro fuel
  induction fuel with
  | zero => intro segs g r h; rw [generate_bsp_tree] at h; exact absurd h (by simp)
  | succ n ih =>
    intro segs g r h
    rw [generate_bsp_tree_some_iff] at h
    obtain ⟨cl, cr, g0, node, k, e1, e2, e3, -, -, e6⟩ := h
    have ih1 : ∀ (segs : List LineSegment) (g : GameState K) (r : Nat × GameState K),
        generate_bsp_tree n segs g = some r → g.nodes.length ≤ r.2.nodes.length :=
      fun segs g r h => (ih segs g r h).le
    have h1 := generate_child_nodes_length _ ih1 _ _ _ e2
    have h2 := generate_child_nodes_length _ ih1 _ _ _ e3
    have h0 : g0.nodes.length = g.nodes.length + 1 := by
      rw [e1]
      show ((split_segments segs g).2.2.nodes ++ [default]).length = _
      rw [List.length_append, split_segments_game,
        (split_segments_fold_frame _ _ segs.tail ([], [], g)).1]
      rfl
    rw [e6]
    show g.nodes.length < (cr.2.2.nodes.set k node).length
    rw [List.length_set]
    omega

/-- Reading the node just written. -/
theorem getD_set_self (l : List Node) (k : Nat) (x : Node) (h : k < l.length) :
    (l.set k x).getD k default = x := by
  simp [List.getD_eq_getElem?_getD, List.getElem?_set, h]

/-- Reading another node than the one just written. -/
theorem getD_set_ne (l : List Node) (k i : Nat) (x : Node) (h : k ≠ i) :
    (l.set k x).getD i default = l.getD i default := by
  simp [List.getD_eq_getElem?_getD, List.getElem?_set, h]

/-- An element read in the middle part of a list belongs to the middle part. -/
theorem getD_mem_middle (a b c : List Sector) (i : Nat) (h1 : a.length ≤ i)
    (h2 : i < a.length + b.length) : (a ++ b ++ c).getD i default ∈ b := by
  rw [List.getD_append (a ++ b) c default i (by rw [List.length_append]; exact h2),
    List.getD_append_right a b default i h1,
    List.getD_eq_getElem b default (by omega)]
  exact List.getElem_mem _

/-- What a finished `generate_child` has done to the node list, if the recursive call
does a build. -/
theorem generate_child_inv
    (recurse : List LineSegment → GameState K → Option (Nat × GameState K))
    (hrec : ∀ segs g r, segs ≠ [] → segs_in_pool g.vertices.length segs →
      recurse segs g = some r → r.2.nodes.length < 2 ^ 31 → r.2.sectors.length < 2 ^ 31 →
      ∃ t, ChildInv g r.2 r.1 t)
    (segs : List LineSegment) (g : GameState K) (r : Bool × Nat × GameState K)
    (hv : segs_in_pool g.vertices.length segs)
    (hr : generate_child recurse segs g = some r)
    (hb1 : r.2.2.nodes.length < 2 ^ 31) (hb2 : r.2.2.sectors.length < 2 ^ 31) :
    ∃ t, ChildInv g r.2.2 r.2.1 t := by
  rw [generate_child_some_iff] at hr
  rcases hr with ⟨h1, -, h3⟩ | ⟨h1, rfl⟩
  · have hlen := length_of_not_convex segs g.vertices h1
    have hne : segs ≠ [] := by
      intro h; rw [h] at hlen; simp at hlen
    exact hrec segs g r.2 hne hv h3 hb1 hb2
  · have hs : g.sectors.length < 2 ^ 31 := by
      have : (g.sectors ++ [(⟨segs⟩ : Sector)]).length < 2 ^ 31 := hb2
      rw [List.length_append, List.length_singleton] at this
      omega
    refine ⟨.leaf g.sectors.length, ?_⟩
    exact
      { enc := ⟨sector_ref_flag _, sector_ref_index _ hs⟩
        idx := by
          show [] = List.range' g.nodes.length (g.nodes.length - g.nodes.length)
          rw [Nat.sub_self]; rfl
        lvs := by
          show [g.sectors.length] = List.range' g.sectors.length
            ((g.sectors ++ [(⟨segs⟩ : Sector)]).length - g.sectors.length)
          rw [List.length_append, List.length_singleton, Nat.add_sub_cancel_left]
          rfl
        old := fun i _ => rfl
        grow := le_refl _
        sides := trivial }

/-- What a finished build has done to the node list: the index it returns leads to a tree
whose inner nodes are exactly the nodes appended and whose leaves are exactly the sectors
appended; at every inner node the leaves on the left hold segments with no endpoint on
side +1 of the splitter and the leaves on the right hold segments with no endpoint on
side −1. -/
theorem generate_bsp_tree_inv :
    ∀ (fuel : Nat) (segs : List LineSegment) (g : GameState K) (r : Nat × GameState K),
      segs ≠ [] → segs_in_pool g.vertices.length segs →
      generate_bsp_tree fuel segs g = some r →
      r.2.nodes.length < 2 ^ 31 → r.2.sectors.length < 2 ^ 31 →
      ∃ t, ChildInv g r.2 r.1 t := by
  intro fuel
  induction fuel with
  | zero => intro segs g r _ _ h; rw [generate_bsp_tree] at h; exact absurd h (by simp)
  | succ n ih =>
    intro segs g r hne hv h hb1 hb2
    rw [generate_bsp_tree_some_iff] at h
    obtain ⟨cl, cr, g0, node, k, e1, e2, e3, e4, e5, e6⟩ := h
    obtain ⟨new0, p1, p2, p3, -, p5, p6, -, -, -⟩ := split_segments_spec segs g hne hv
    obtain ⟨s0, tail, rfl⟩ := List.exists_cons_of_ne_nil hne
    obtain ⟨q1, q2⟩ := split_segments_sides s0 tail g hv
    rw [p1] at q1 q2
    have hs0 : seg_in_pool g.vertices.length s0 := hv s0 (List.mem_cons_self _ _)
    have hg0v : g0.vertices = g.vertices ++ new0 := by rw [e1]; exact p1
    have hg0s : g0.sectors = g.sectors := by rw [e1]; exact p3
    have hg0n : g0.nodes = g.nodes ++ [default] := by
      rw [e1]; show (split_segments (s0 :: tail) g).2.2.nodes ++ [default] = _; rw [p2]
    have hvl : segs_in_pool g0.vertices.length (split_segments (s0 :: tail) g).1 := by
      rw [hg0v]; exact p5
    obtain ⟨newL, newSL, l1, l2, -, l4, -⟩ :=
      generate_child_ok (generate_bsp_tree n) (generate_bsp_tree_ok n) _ g0 cl hvl e2
    have hlen : (g.vertices ++ new0).length ≤ cl.2.2.vertices.length := by
      rw [l1, hg0v, List.length_append (g.vertices ++ new0)]; exact Nat.le_add_right _ _
    have hvr : segs_in_pool cl.2.2.vertices.length (split_segments (s0 :: tail) g).2.1 :=
      segs_in_pool_mono hlen p6
    obtain ⟨newR, newSR, r1, r2, -, r4, -⟩ :=
      generate_child_ok (generate_bsp_tree n) (generate_bsp_tree_ok n) _ cl.2.2 cr hvr e3
    have subL := generate_child_sub (generate_bsp_tree n) (generate_bsp_tree_sub n) _ g0 cl hvl
      e2 newSL l2
    have subR := generate_child_sub (generate_bsp_tree n) (generate_bsp_tree_sub n) _ cl.2.2 cr
      hvr e3 newSR r2
    have hnl : ∀ (segs : List LineSegment) (g : GameState K) (r : Nat × GameState K),
        generate_bsp_tree n segs g = some r → g.nodes.length ≤ r.2.nodes.length :=
      fun segs g r h => (generate_bsp_tree_nodes_length n segs g r h).le
    have nl := generate_child_nodes_length _ hnl _ _ _ e2
    have nr := generate_child_nodes_length _ hnl _ _ _ e3
    have hrn : r.2.nodes = cr.2.2.nodes.set k node := by rw [e6]
    have hrs : r.2.sectors = cr.2.2.sectors := by rw [e6]
    have hrv : r.2.vertices = cr.2.2.vertices := by rw [e6]
    have hr1 : r.1 = k := by rw [e6]
    rw [hrn, List.length_set] at hb1
    rw [hrs] at hb2
    have hk0 : g0.nodes.length = g.nodes.length + 1 := by
      rw [hg0n, List.length_append, List.length_singleton]
    have hkb : g.nodes.length < 2 ^ 31 := by omega
    have hk : k = g.nodes.length := by
      rw [e5, p2]; exact (node_ref_flag _ hkb).1
    have hbL1 : cl.2.2.nodes.length < 2 ^ 31 := by omega
    have hbL2 : cl.2.2.sectors.length < 2 ^ 31 := by
      have : cl.2.2.sectors.length ≤ cr.2.2.sectors.length := by
        rw [r2, List.length_append]; exact Nat.le_add_right _ _
      omega
    obtain ⟨tl, il⟩ := generate_child_inv (generate_bsp_tree n) ih _ g0 cl hvl e2 hbL1 hbL2
    obtain ⟨tr, ir⟩ := generate_child_inv (generate_bsp_tree n) ih _ cl.2.2 cr hvr e3 hb1 hb2
    have hkF : k < cr.2.2.nodes.length := by omega
    have hFk : (cr.2.2.nodes.set k node).getD k default = node := getD_set_self _ _ _ hkF
    have hFne : ∀ i, k ≠ i → (cr.2.2.nodes.set k node).getD i default =
        cr.2.2.nodes.getD i default := fun i hi => getD_set_ne _ _ _ _ hi
    have hidxL : ∀ i ∈ tl.node_indices, k + 1 ≤ i ∧ i < cl.2.2.nodes.length := by
      intro i hi
      rw [il.idx, List.mem_range'_1] at hi
      omega
    have hidxR : ∀ i ∈ tr.node_indices, cl.2.2.nodes.length ≤ i ∧ i < cr.2.2.nodes.length := by
      intro i hi
      rw [ir.idx, List.mem_range'_1] at hi
      omega
    have hsl : cl.2.2.sectors.length = g.sectors.length + newSL.length := by
      rw [l2, hg0s, List.length_append]
    have hsr : cr.2.2.sectors.length = g.sectors.length + newSL.length + newSR.length := by
      rw [r2, List.length_append, hsl]
    have hsecs : cr.2.2.sectors = g.sectors ++ newSL ++ newSR := by rw [r2, l2, hg0s]
    have hlvL : ∀ i ∈ tl.leaves, g.sectors.length ≤ i ∧ i < g.sectors.length + newSL.length := by
      intro i hi
      rw [il.lvs, List.mem_range'_1, hg0s] at hi
      omega
    have hlvR : ∀ i ∈ tr.leaves, g.sectors.length + newSL.length ≤ i ∧
        i < g.sectors.length + newSL.length + newSR.length := by
      intro i hi
      rw [ir.lvs, List.mem_range'_1] at hi
      omega
    have hs0v1 : seg_in_pool (g.vertices ++ new0).length s0 :=
      ⟨lt_of_lt_of_le hs0.1 (by rw [List.length_append]; exact Nat.le_add_right _ _),
        lt_of_lt_of_le hs0.2 (by rw [List.length_append]; exact Nat.le_add_right _ _)⟩
    have hs0cl : seg_in_pool cl.2.2.vertices.length s0 :=
      ⟨lt_of_lt_of_le hs0v1.1 hlen, lt_of_lt_of_le hs0v1.2 hlen⟩
    have hlen2 : cl.2.2.vertices.length ≤ cr.2.2.vertices.length := by
      rw [r1, List.length_append]; exact Nat.le_add_right _ _
    have hs0cr : seg_in_pool cr.2.2.vertices.length s0 :=
      ⟨lt_of_lt_of_le hs0cl.1 hlen2, lt_of_lt_of_le hs0cl.2 hlen2⟩
    have hnode_s : node.splitter = s0 := by rw [e4]; rfl
    have hnode_l : node.left = cl.2.1 := by rw [e4]
    have hnode_r : node.right = cr.2.1 := by rw [e4]
    refine ⟨.node k s0 tl tr, ?_⟩
    rw [hr1]
    exact
      { enc := by
          rw [hrn]
          refine ⟨?_, rfl, by rw [List.length_set]; exact hkF, ?_, ?_, ?_⟩
          · rw [hk]; exact (node_ref_flag _ hkb).2
          · rw [hFk, hnode_s]
          · rw [hFk, hnode_l]
            refine encodes_congr cl.2.2.nodes _ tl _ il.enc ?_
            intro i hi
            obtain ⟨a1, a2⟩ := hidxL i hi
            refine ⟨by rw [List.length_set]; omega, ?_⟩
            rw [hFne i (by omega)]
            exact ir.old i a2
          · rw [hFk, hnode_r]
            refine encodes_congr cr.2.2.nodes _ tr _ ir.enc ?_
            intro i hi
            obtain ⟨a1, a2⟩ := hidxR i hi
            refine ⟨by rw [List.length_set]; exact a2, ?_⟩
            exact hFne i (by omega)
        idx := by
          rw [hrn, List.length_set]
          show k :: (tl.node_indices ++ tr.node_indices) = _
          rw [il.idx, ir.idx, hk0, hk]
          have e : cr.2.2.nodes.length - g.nodes.length =
              (cr.2.2.nodes.length - cl.2.2.nodes.length) +
                (cl.2.2.nodes.length - (g.nodes.length + 1)) + 1 := by omega
          have e2 : cl.2.2.nodes.length =
              (g.nodes.length + 1) + (cl.2.2.nodes.length - (g.nodes.length + 1)) := by omega
          rw [e, List.range'_succ, ← List.range'_append_1]
          congr 2
          rw [← e2]
        lvs := by
          rw [hrs]
          show tl.leaves ++ tr.leaves = _
          rw [il.lvs, ir.lvs, hg0s]
          have e : cr.2.2.sectors.length - g.sectors.length =
              (cr.2.2.sectors.length - cl.2.2.sectors.length) +
                (cl.2.2.sectors.length - g.sectors.length) := by omega
          have e2 : cl.2.2.sectors.length =
              g.sectors.length + (cl.2.2.sectors.length - g.sectors.length) := by omega
          rw [e, ← List.range'_append_1]
          congr 2
        old := by
          intro i hi
          rw [hrn, hFne i (by omega), ir.old i (by omega), il.old i (by omega), hg0n]
          exact List.getD_append _ _ _ _ hi
        grow := by
          rw [hrn, List.length_set]; omega
        sides := by
          rw [hrv, hrs]
          refine ⟨hs0cr, ?_, ?_, ?_, ir.sides⟩
          · intro i hi
            obtain ⟨a1, a2⟩ := hlvL i hi
            refine ⟨by omega, ?_⟩
            have hmem : cr.2.2.sectors.getD i default ∈ newSL := by
              rw [hsecs]; exact getD_mem_middle _ _ _ _ a1 a2
            intro seg hseg
            obtain ⟨b1, -⟩ := l4 _ hmem
            obtain ⟨s, hs, hsub⟩ := subL _ hmem seg hseg
            obtain ⟨-, c1, c2⟩ := q1 s hs
            have d1 : side_of cl.2.2.vertices s0 s.v1 ≠ 1 := by
              rw [l1, hg0v, side_of_append _ newL s0 _ hs0v1 (p5 s hs).1]; exact c1
            have d2 : side_of cl.2.2.vertices s0 s.v2 ≠ 1 := by
              rw [l1, hg0v, side_of_append _ newL s0 _ hs0v1 (p5 s hs).2]; exact c2
            obtain ⟨f1, f2⟩ := sub_seg_side_ne_one _ s0 seg s hsub ⟨d1, d2⟩
            obtain ⟨v1, v2⟩ := b1 seg hseg
            refine ⟨⟨lt_of_lt_of_le v1 hlen2, lt_of_lt_of_le v2 hlen2⟩, ?_, ?_⟩
            · rw [r1, side_of_append _ newR s0 _ hs0cl v1]; exact f1
            · rw [r1, side_of_append _ newR s0 _ hs0cl v2]; exact f2
          · intro i hi
            obtain ⟨a1, a2⟩ := hlvR i hi
            refine ⟨by omega, ?_⟩
            have hmem : cr.2.2.sectors.getD i default ∈ newSR := by
              rw [hsecs]
              have := getD_mem_middle (g.sectors ++ newSL) newSR [] i
                (by rw [List.length_append]; exact a1) (by rw [List.length_append]; exact a2)
              rwa [List.append_nil] at this
            intro seg hseg
            obtain ⟨b1, -⟩ := r4 _ hmem
            obtain ⟨s, hs, hsub⟩ := subR _ hmem seg hseg
            obtain ⟨-, c1, c2⟩ := q2 s hs
            have hext : cr.2.2.vertices = (g.vertices ++ new0) ++ (newL ++ newR) := by
              rw [r1, l1, hg0v, List.append_assoc]
            have d1 : side_of cr.2.2.vertices s0 s.v1 ≠ -1 := by
              rw [hext, side_of_append _ _ s0 _ hs0v1 (p6 s hs).1]; exact c1
            have d2 : side_of cr.2.2.vertices s0 s.v2 ≠ -1 := by
              rw [hext, side_of_append _ _ s0 _ hs0v1 (p6 s hs).2]; exact c2
            obtain ⟨f1, f2⟩ := sub_seg_side_ne_neg_one _ s0 seg s hsub ⟨d1, d2⟩
            exact ⟨b1 seg hseg, f1, f2⟩
          · rw [r1, r2]; exact sides_all_append _ _ _ _ tl il.sides }

end TreeBuildFacts

section TraversalClaim

variable {K : Type} [LinearOrderedField K]

/-- At every inner node of an encoded tree with side facts, the two child references lead
to trees, the leaves on the left hold segments with no endpoint on side +1 of the splitter
stored in the node, and the leaves on the right hold segments with no endpoint on
side −1. -/
theorem encodes_node_facts (nodes : List Node) (vs : List (pol_Vec2 K)) (secs : List Sector) :
    ∀ (t : BspTree) (ref : Nat), encodes nodes ref t → sides_all vs secs t →
      ∀ i ∈ t.node_indices, i &&& SECTOR_FLAG = 0 ∧ ∃ tl tr : BspTree,
        encodes nodes (nodes.getD i default).left tl ∧
        encodes nodes (nodes.getD i default).right tr ∧
        (∀ j ∈ tl.leaves, ∀ seg ∈ (secs.getD j default).line_segs,
          side_of vs (nodes.getD i default).splitter seg.v1 ≠ 1 ∧
          side_of vs (nodes.getD i default).splitter seg.v2 ≠ 1) ∧
        (∀ j ∈ tr.leaves, ∀ seg ∈ (secs.getD j default).line_segs,
          side_of vs (nodes.getD i default).splitter seg.v1 ≠ -1 ∧
          side_of vs (nodes.getD i default).splitter seg.v2 ≠ -1) := by
  intro t
  induction t with
  | leaf j => intro ref _ _ i hi; exact absurd hi (List.not_mem_nil i)
  | node k s l r ihl ihr =>
    intro ref henc hsides i hi
    obtain ⟨h1, h2, -, h4, h5, h6⟩ := henc
    obtain ⟨-, s2, s3, s4, s5⟩ := hsides
    rcases List.mem_cons.mp hi with rfl | hi
    · refine ⟨by rw [← h2]; exact h1, l, r, h5, h6, ?_, ?_⟩
      · intro j hj seg hseg
        rw [h4]
        exact ((s2 j hj).2 seg hseg).2
      · intro j hj seg hseg
        rw [h4]
        exact ((s3 j hj).2 seg hseg).2
    · rcases List.mem_append.mp hi with hi | hi
      · exact ihl _ h5 s4 i hi
      · exact ihr _ h6 s5 i hi

end TraversalClaim

/-- The build of the counter-clockwise square, whichever wall comes first. -/
theorem ccw_square_shapes : ∀ k ∈ List.range 4,
    build_shape (generate_bsp_tree 3 (ccw_square_segments.rotate k) ccw_square_game) =
      some (0, 3, 4, [1, 1, 1, 1], 4) := by
  decide!

/-- The build of the clockwise square, whichever wall comes first. -/
theorem cw_square_shapes : ∀ k ∈ List.range 4,
    build_shape (generate_bsp_tree 1 (cw_square_segments.rotate k) cw_square_game) =
      some (0, 1, 2, [1, 3], 4) := by
  decide!

/-- Reading a shape back. -/
theorem build_shape_eq_some {K : Type} (x : Option (Nat × GameState K))
    (s : Nat × Nat × Nat × List Nat × Nat) (h : build_shape x = some s) :
    ∃ r, x = some r ∧ r.1 = s.1 ∧ r.2.nodes.length = s.2.1 ∧ r.2.sectors.length = s.2.2.1 ∧
      r.2.sectors.map (fun S => S.line_segs.length) = s.2.2.2.1 ∧
      r.2.vertices.length = s.2.2.2.2 := by
  unfold build_shape at h
  obtain ⟨r, hr, hs⟩ := Option.map_eq_some'.mp h
  subst hs
  exact ⟨r, hr, rfl, rfl, rfl, rfl, rfl⟩

/-- Counterexample to claim C11 as stated: whatever the depth bound, the build of the
counter-clockwise square does not end with 1 node and 1 or 2 sectors. -/
theorem scenario_a_counterexample :
    ¬ ∃ (fuel : Nat) (r : Nat × GameState ℚ),
      generate_bsp_tree fuel ccw_square_segments ccw_square_game = some r ∧
      r.2.nodes.length = 1 ∧ (r.2.sectors.length = 1 ∨ r.2.sectors.length = 2) := by
  rintro ⟨fuel, r, h, hn, -⟩
  obtain ⟨r0, h0, -, hn0, -⟩ := build_shape_eq_some _ _ (ccw_square_shapes 0 (by decide))
  rw [List.rotate_zero] at h0
  have e1 := generate_bsp_tree_mono fuel (max fuel 3) (le_max_left _ _) _ _ r h
  have e2 := generate_bsp_tree_mono 3 (max fuel 3) (le_max_right _ _) _ _ r0 h0
  rw [e1] at e2
  have e3 : r = r0 := Option.some.inj e2
  rw [e3, hn0] at hn
  exact absurd hn (by decide)

/-- Claim C11, amended: for the square with corners (±100, ±100), whichever wall comes
first in the list, the build of the four walls running counter-clockwise returns the root
0 with exactly 3 nodes and 4 sectors of one wall each and appends no vertex: every other
wall has an endpoint on side −1 of the splitter, which `is_convex` rejects.  The build of
the same square with the walls running clockwise returns exactly 1 node and 2 sectors. -/
theorem scenario_a_square (k : Nat) :
    (∃ r : Nat × GameState ℚ,
      (∀ fuel, 3 ≤ fuel →
        generate_bsp_tree fuel (ccw_square_segments.rotate k) ccw_square_game = some r) ∧
      r.1 = 0 ∧ r.2.nodes.length = 3 ∧ r.2.sectors.length = 4 ∧
      (∀ S ∈ r.2.sectors, S.line_segs.length = 1) ∧ r.2.vertices.length = 4) ∧
    (∃ r : Nat × GameState ℚ,
      (∀ fuel, 1 ≤ fuel →
        generate_bsp_tree fuel (cw_square_segments.rotate k) cw_square_game = some r) ∧
      r.1 = 0 ∧ r.2.nodes.length = 1 ∧ r.2.sectors.length = 2 ∧ r.2.vertices.length = 4) := by
  have hk : k % 4 ∈ List.range 4 := List.mem_range.mpr (Nat.mod_lt _ (by decide))
  have e1 : ccw_square_segments.rotate k = ccw_square_segments.rotate (k % 4) :=
    (List.rotate_mod ccw_square_segments k).symm
  have e2 : cw_square_segments.rotate k = cw_square_segments.rotate (k % 4) :=
    (List.rotate_mod cw_square_segments k).symm
  rw [e1, e2]
  constructor
  · obtain ⟨r, hr, h1, h2, h3, h4, h5⟩ :=
      build_shape_eq_some _ _ (ccw_square_shapes (k % 4) hk)
    refine ⟨r, fun fuel hle => generate_bsp_tree_mono 3 fuel hle _ _ r hr, h1, h2, h3, ?_, h5⟩
    intro S hS
    have hm : S.line_segs.length ∈ r.2.sectors.map (fun S => S.line_segs.length) :=
      List.mem_map.mpr ⟨S, hS, rfl⟩
    rw [h4] at hm
    simpa using hm
  · obtain ⟨r, hr, h1, h2, h3, -, h5⟩ :=
      build_shape_eq_some _ _ (cw_square_shapes (k % 4) hk)
    exact ⟨r, fun fuel hle => generate_bsp_tree_mono 1 fuel hle _ _ r hr, h1, h2, h3, h5⟩

section ScenarioE

variable {K : Type} [LinearOrderedField K]

/-- In Scenario E the cross product that `point_on_side` compares with ε is 10·e. -/
theorem scenario_e_cross (e x : K) :
    vec2_cross_product (vec2_subtract (⟨10, 0⟩ : pol_Vec2 K) ⟨0, 0⟩)
      (vec2_subtract ⟨x, e⟩ ⟨0, 0⟩) = 10 * e := by
  simp [vec2_cross_product, vec2_subtract]

/-- The side of a point at height `e` above the splitter of Scenario E. -/
theorem scenario_e_side (e x : K) (h0 : 0 ≤ e) :
    (e < 1 / 10000000 → point_on_side (⟨0, 0⟩ : pol_Vec2 K) ⟨10, 0⟩ ⟨x, e⟩ = 0) ∧
    (1 / 10000000 ≤ e → point_on_side (⟨0, 0⟩ : pol_Vec2 K) ⟨10, 0⟩ ⟨x, e⟩ = -1) := by
  constructor
  · intro h
    rw [point_on_side_eq_zero_iff, scenario_e_cross, abs_of_nonneg (by positivity)]
    unfold EPSILON
    linarith
  · intro h
    rw [point_on_side_eq_neg_one_iff, scenario_e_cross]
    unfold EPSILON
    linarith

/-- Claim C12, amended: for the splitter (0,0)→(10,0) and the segment (0,e)→(10,e) with
0 ≤ e (in particular with 0 ≤ e < 1e-6), `point_on_side` returns 0 for both endpoints
when e < 1e-7 and −1 for both endpoints when 1e-7 ≤ e, because the cross product it
compares with ε is 10·e; in both cases the loop of `split_segments` appends the segment to
the left list and leaves the right list and the game state as they are, and
`split_segments` returns the left list [segment], the right list [splitter] and the
unchanged vertex pool. -/
theorem scenario_e_near_parallel (e : K) (h0 : 0 ≤ e) :
    (e < 1 / 10000000 →
      point_on_side (⟨0, 0⟩ : pol_Vec2 K) ⟨10, 0⟩ ⟨0, e⟩ = 0 ∧
      point_on_side (⟨0, 0⟩ : pol_Vec2 K) ⟨10, 0⟩ ⟨10, e⟩ = 0) ∧
    (1 / 10000000 ≤ e →
      point_on_side (⟨0, 0⟩ : pol_Vec2 K) ⟨10, 0⟩ ⟨0, e⟩ = -1 ∧
      point_on_side (⟨0, 0⟩ : pol_Vec2 K) ⟨10, 0⟩ ⟨10, e⟩ = -1) ∧
    (∀ (st : List LineSegment × List LineSegment × GameState K) (seg : LineSegment),
      st.2.2.vertices.getD seg.v1 default = ⟨0, e⟩ →
      st.2.2.vertices.getD seg.v2 default = ⟨10, e⟩ →
      split_segments_step ⟨0, 0⟩ ⟨10, 0⟩ st seg = (st.1 ++ [seg], st.2.1, st.2.2)) ∧
    split_segments scenario_e_segments (scenario_e_game e) =
      ([⟨2, 3⟩], [⟨0, 1⟩], scenario_e_game e) := by
  have hstep : ∀ (st : List LineSegment × List LineSegment × GameState K) (seg : LineSegment),
      st.2.2.vertices.getD seg.v1 default = ⟨0, e⟩ →
      st.2.2.vertices.getD seg.v2 default = ⟨10, e⟩ →
      split_segments_step ⟨0, 0⟩ ⟨10, 0⟩ st seg = (st.1 ++ [seg], st.2.1, st.2.2) := by
    intro st seg e1 e2
    have ha : point_on_side (⟨0, 0⟩ : pol_Vec2 K) ⟨10, 0⟩ ⟨0, e⟩ = 0 ∨
        point_on_side (⟨0, 0⟩ : pol_Vec2 K) ⟨10, 0⟩ ⟨0, e⟩ = -1 := by
      rcases lt_or_le e (1 / 10000000) with h | h
      · exact Or.inl ((scenario_e_side e 0 h0).1 h)
      · exact Or.inr ((scenario_e_side e 0 h0).2 h)
    have hb : point_on_side (⟨0, 0⟩ : pol_Vec2 K) ⟨10, 0⟩ ⟨10, e⟩ =
        point_on_side (⟨0, 0⟩ : pol_Vec2 K) ⟨10, 0⟩ ⟨0, e⟩ :=
      point_on_side_congr _ _ _ _ _ _ (by rw [scenario_e_cross, scenario_e_cross])
    unfold split_segments_step
    simp only [e1, e2, hb]
    rcases ha with ha | ha <;> rw [ha] <;> simp
  refine ⟨fun h => ⟨(scenario_e_side e 0 h0).1 h, (scenario_e_side e 10 h0).1 h⟩,
    fun h => ⟨(scenario_e_side e 0 h0).2 h, (scenario_e_side e 10 h0).2 h⟩, hstep, ?_⟩
  have := hstep ([], [], scenario_e_game e) ⟨2, 3⟩ rfl rfl
  unfold split_segments
  simp only [scenario_e_segments, List.headD_cons, List.tail_cons, List.foldl_cons,
    List.foldl_nil]
  have hA : (scenario_e_game e).vertices.getD (⟨0, 1⟩ : LineSegment).v1 default =
      (⟨0, 0⟩ : pol_Vec2 K) := rfl
  have hB : (scenario_e_game e).vertices.getD (⟨0, 1⟩ : LineSegment).v2 default =
      (⟨10, 0⟩ : pol_Vec2 K) := rfl
  rw [hA, hB, this]
  simp

end ScenarioE

/-- Counterexample to claim C12 as stated: for e = 5e-7, which is below 1e-6, the first
endpoint of the segment is on side −1 of the splitter, not on side 0. -/
theorem scenario_e_counterexample :
    (0 : ℚ) ≤ 1 / 2000000 ∧ (1 / 2000000 : ℚ) < 1 / 1000000 ∧
    point_on_side (⟨0, 0⟩ : pol_Vec2 ℚ) ⟨10, 0⟩ ⟨0, 1 / 2000000⟩ = -1 := by
  decide!

/-- Witness for claim C12 (amended), at e = 5e-7. -/
theorem scenario_e_near_parallel_witness :
    (0 : ℚ) ≤ 1 / 2000000 ∧ (1 / 2000000 : ℚ) < 1 / 1000000 ∧
    split_segments scenario_e_segments (scenario_e_game (1 / 2000000 : ℚ)) =
      ([⟨2, 3⟩], [⟨0, 1⟩], scenario_e_game (1 / 2000000 : ℚ)) :=
  ⟨by norm_num, by norm_num,
    (scenario_e_near_parallel (1 / 2000000 : ℚ) (by norm_num)).2.2.2⟩

section PartitionClaim

variable {K : Type} [LinearOrderedField K]

/-- A side other than +1 is −1 or 0, and a side other than −1 is +1 or 0. -/
theorem side_of_cases (vs : List (pol_Vec2 K)) (d : LineSegment) (i : Nat) :
    (side_of vs d i ≠ 1 → side_of vs d i = -1 ∨ side_of vs d i = 0) ∧
    (side_of vs d i ≠ -1 → side_of vs d i = 1 ∨ side_of vs d i = 0) := by
  unfold side_of
  rcases point_on_side_cases (vs.getD d.v1 default) (vs.getD d.v2 default)
    (vs.getD i default) with h | h | h
  · exact ⟨fun _ => Or.inr h, fun _ => Or.inr h⟩
  · exact ⟨fun _ => Or.inl h, fun hn => absurd h hn⟩
  · exact ⟨fun hn => absurd h hn, fun _ => Or.inl h⟩

/-- Claim C13, amended: in the loop of `split_segments`, a segment that does not straddle
the splitter is appended unchanged to exactly one list, the right list if one of its
endpoints is on side +1 and the left list otherwise, and the vertex pool is left as it
is.  In exact arithmetic, for a list of segments of the pool, after the call every segment
of the left list (fragments and the splitter included) has both endpoints on side −1 or 0
of the splitter and every segment of the right list has both endpoints on side +1 or 0, in
the vertex pool the call returns. -/
theorem partition_classification (s0 : LineSegment) (tail : List LineSegment)
    (g : GameState K) (hv : ∀ s ∈ s0 :: tail, seg_in_pool g.vertices.length s) :
    (∀ (A B : pol_Vec2 K) (st : List LineSegment × List LineSegment × GameState K)
        (seg : LineSegment),
      point_on_side A B (st.2.2.vertices.getD seg.v1 default) *
          point_on_side A B (st.2.2.vertices.getD seg.v2 default) ≠ -1 →
      ((point_on_side A B (st.2.2.vertices.getD seg.v1 default) = 1 ∨
          point_on_side A B (st.2.2.vertices.getD seg.v2 default) = 1) →
        split_segments_step A B st seg = (st.1, st.2.1 ++ [seg], st.2.2)) ∧
      (¬ (point_on_side A B (st.2.2.vertices.getD seg.v1 default) = 1 ∨
          point_on_side A B (st.2.2.vertices.getD seg.v2 default) = 1) →
        split_segments_step A B st seg = (st.1 ++ [seg], st.2.1, st.2.2))) ∧
    (∀ s1 ∈ (split_segments (s0 :: tail) g).1,
      (side_of (split_segments (s0 :: tail) g).2.2.vertices s0 s1.v1 = -1 ∨
        side_of (split_segments (s0 :: tail) g).2.2.vertices s0 s1.v1 = 0) ∧
      (side_of (split_segments (s0 :: tail) g).2.2.vertices s0 s1.v2 = -1 ∨
        side_of (split_segments (s0 :: tail) g).2.2.vertices s0 s1.v2 = 0)) ∧
    (∀ s1 ∈ (split_segments (s0 :: tail) g).2.1,
      (side_of (split_segments (s0 :: tail) g).2.2.vertices s0 s1.v1 = 1 ∨
        side_of (split_segments (s0 :: tail) g).2.2.vertices s0 s1.v1 = 0) ∧
      (side_of (split_segments (s0 :: tail) g).2.2.vertices s0 s1.v2 = 1 ∨
        side_of (split_segments (s0 :: tail) g).2.2.vertices s0 s1.v2 = 0)) := by
  refine ⟨?_, ?_, ?_⟩
  · intro A B st seg hn
    constructor
    · intro h1
      unfold split_segments_step
      simp only []
      rw [if_neg hn, if_pos h1]
    · intro h1
      unfold split_segments_step
      simp only []
      rw [if_neg hn, if_neg h1]
  · intro s1 hs1
    obtain ⟨-, h1, h2⟩ := (split_segments_sides s0 tail g hv).1 s1 hs1
    exact ⟨(side_of_cases _ _ _).1 h1, (side_of_cases _ _ _).1 h2⟩
  · intro s1 hs1
    obtain ⟨-, h1, h2⟩ := (split_segments_sides s0 tail g hv).2 s1 hs1
    exact ⟨(side_of_cases _ _ _).2 h1, (side_of_cases _ _ _).2 h2⟩

end PartitionClaim

/-- Witness for claim C13 (amended), on Scenario B, where the fourth segment is cut in two: the two
other edges of the triangle, the fragment above the splitter and the splitter are in the
left list, and the fragment below the splitter is the right list. -/
theorem partition_classification_witness :
    (∀ s ∈ (⟨0, 1⟩ : LineSegment) :: [⟨1, 2⟩, ⟨2, 0⟩, ⟨3, 4⟩],
      seg_in_pool scenario_b_game.vertices.length s) ∧
    (split_segments ((⟨0, 1⟩ : LineSegment) :: [⟨1, 2⟩, ⟨2, 0⟩, ⟨3, 4⟩]) scenario_b_game).1 =
      [⟨1, 2⟩, ⟨2, 0⟩, ⟨5, 4⟩, ⟨0, 1⟩] ∧
    (split_segments ((⟨0, 1⟩ : LineSegment) :: [⟨1, 2⟩, ⟨2, 0⟩, ⟨3, 4⟩]) scenario_b_game).2.1 =
      [⟨3, 5⟩] ∧
    (∀ s1 ∈ (split_segments ((⟨0, 1⟩ : LineSegment) :: [⟨1, 2⟩, ⟨2, 0⟩, ⟨3, 4⟩])
        scenario_b_game).1,
      (side_of (split_segments ((⟨0, 1⟩ : LineSegment) :: [⟨1, 2⟩, ⟨2, 0⟩, ⟨3, 4⟩])
          scenario_b_game).2.2.vertices ⟨0, 1⟩ s1.v1 = -1 ∨
        side_of (split_segments ((⟨0, 1⟩ : LineSegment) :: [⟨1, 2⟩, ⟨2, 0⟩, ⟨3, 4⟩])
          scenario_b_game).2.2.vertices ⟨0, 1⟩ s1.v1 = 0) ∧
      (side_of (split_segments ((⟨0, 1⟩ : LineSegment) :: [⟨1, 2⟩, ⟨2, 0⟩, ⟨3, 4⟩])
          scenario_b_game).2.2.vertices ⟨0, 1⟩ s1.v2 = -1 ∨
        side_of (split_segments ((⟨0, 1⟩ : LineSegment) :: [⟨1, 2⟩, ⟨2, 0⟩, ⟨3, 4⟩])
          scenario_b_game).2.2.vertices ⟨0, 1⟩ s1.v2 = 0)) :=
  ⟨by decide, by decide!, by decide!,
    (partition_classification ⟨0, 1⟩ [⟨1, 2⟩, ⟨2, 0⟩, ⟨3, 4⟩] scenario_b_game
      (by decide)).2.1⟩

section PlacementClaim

variable {K : Type} [LinearOrderedField K]

/-- When the loop of `split_segments` ends with an empty right list, no endpoint of the
segments it went through is on side +1 of the splitter. -/
theorem split_fold_right_nil (A B : pol_Vec2 K) (segs : List LineSegment) :
    ∀ st : List LineSegment × List LineSegment × GameState K,
      (segs.foldl (split_segments_step A B) st).2.1 = [] →
      ∀ s ∈ segs, point_on_side A B (st.2.2.vertices.getD s.v1 default) ≠ 1 ∧
        point_on_side A B (st.2.2.vertices.getD s.v2 default) ≠ 1 := by
  induction segs with
  | nil => intro st _ s hs; exact absurd hs (List.not_mem_nil s)
  | cons s0 rest ih =>
    intro st hnil s hs
    rw [List.foldl_cons] at hnil
    have hpre := (split_segments_fold_lists A B rest (split_segments_step A B st s0)).2
    rw [hnil] at hpre
    have h1 : (split_segments_step A B st s0).2.1 = [] := List.prefix_nil.mp hpre
    have hst : st.2.1 = [] := by
      have := (split_segments_step_lists A B st s0).2
      rw [h1] at this
      exact List.prefix_nil.mp this
    rcases split_segments_step_cases A B st s0 with
      ⟨X, t, -, -, -, -, -, (⟨-, -, -, e⟩ | ⟨-, -, e, -⟩)⟩ | ⟨-, e⟩ | ⟨hside, e⟩
    · rw [e] at h1; simp at h1
    · rw [e] at h1; simp at h1
    · rw [e] at h1; simp at h1
    · rcases List.mem_cons.mp hs with rfl | hs
      · exact hside
      · have := ih (split_segments_step A B st s0) hnil s hs
        rw [e] at this
        exact this

/-- Claim C14, amended: after its loop, `split_segments` appends the splitter to the left
list, unless the right list is empty at that point, in which case the splitter becomes
the right list and the left list stays as it is.  The right list is empty at that point
exactly when no endpoint of the other segments is on side +1 of the splitter, and then
the left list is the list of the other segments and the game state is unchanged.  The
result is the placement worded in the specification exactly when the two lists are both
empty or both non-empty at that point. -/
theorem splitter_placement (s0 : LineSegment) (tail : List LineSegment) (g : GameState K) :
    ((split_loop (s0 :: tail) g).2.1 = [] →
      split_segments (s0 :: tail) g =
        ((split_loop (s0 :: tail) g).1, [s0], (split_loop (s0 :: tail) g).2.2)) ∧
    ((split_loop (s0 :: tail) g).2.1 ≠ [] →
      split_segments (s0 :: tail) g =
        ((split_loop (s0 :: tail) g).1 ++ [s0], (split_loop (s0 :: tail) g).2.1,
          (split_loop (s0 :: tail) g).2.2)) ∧
    ((split_loop (s0 :: tail) g).2.1 = [] ↔ none_behind g.vertices s0 tail) ∧
    (none_behind g.vertices s0 tail → split_segments (s0 :: tail) g = (tail, [s0], g)) ∧
    (((split_segments (s0 :: tail) g).1, (split_segments (s0 :: tail) g).2.1) =
        splitter_placement_spec s0 (split_loop (s0 :: tail) g).1
          (split_loop (s0 :: tail) g).2.1 ↔
      ((split_loop (s0 :: tail) g).1 = [] ↔ (split_loop (s0 :: tail) g).2.1 = [])) := by
  have hall : none_behind g.vertices s0 tail → split_loop (s0 :: tail) g = (tail, [], g) := by
    intro h
    have := split_fold_all_left (g.vertices.getD s0.v1 default)
      (g.vertices.getD s0.v2 default) tail ([], [], g) h
    simpa [split_loop] using this
  refine ⟨?_, ?_, ⟨?_, ?_⟩, ?_, ?_⟩
  · intro h
    rw [split_segments_eq, if_pos h]; rfl
  · intro h
    rw [split_segments_eq, if_neg h]; rfl
  · intro h
    exact split_fold_right_nil _ _ tail ([], [], g) h
  · intro h
    rw [hall h]
  · intro h
    rw [split_segments_eq, hall h]
    simp
  · rw [split_segments_eq]
    unfold splitter_placement_spec
    by_cases hR : (split_loop (s0 :: tail) g).2.1 = []
    · by_cases hL : (split_loop (s0 :: tail) g).1 = []
      · simp [hR, hL]
      · simp [hR, hL]
    · by_cases hL : (split_loop (s0 :: tail) g).1 = []
      · simp [hR, hL]
      · simp [hR, hL]

end PlacementClaim

/-- Counterexample to claim C14 as stated.  For the counter-clockwise square the left list
is not empty after the loop, and the splitter is not appended to it but becomes the right
list; for the clockwise square the left list is empty after the loop, and the splitter
is not appended to the right list but becomes the left list.  In both cases the result is
not the placement worded in the specification. -/
theorem splitter_placement_counterexample :
    ((split_loop ccw_square_segments ccw_square_game).1 = [⟨1, 2⟩, ⟨2, 3⟩, ⟨3, 0⟩] ∧
      (split_segments ccw_square_segments ccw_square_game).1 = [⟨1, 2⟩, ⟨2, 3⟩, ⟨3, 0⟩] ∧
      (split_segments ccw_square_segments ccw_square_game).2.1 = [⟨0, 1⟩] ∧
      ((split_segments ccw_square_segments ccw_square_game).1,
          (split_segments ccw_square_segments ccw_square_game).2.1) ≠
        splitter_placement_spec ⟨0, 1⟩ (split_loop ccw_square_segments ccw_square_game).1
          (split_loop ccw_square_segments ccw_square_game).2.1) ∧
    ((split_loop cw_square_segments cw_square_game).1 = [] ∧
      (split_segments cw_square_segments cw_square_game).1 = [⟨0, 1⟩] ∧
      (split_segments cw_square_segments cw_square_game).2.1 = [⟨1, 2⟩, ⟨2, 3⟩, ⟨3, 0⟩] ∧
      ((split_segments cw_square_segments cw_square_game).1,
          (split_segments cw_square_segments cw_square_game).2.1) ≠
        splitter_placement_spec ⟨0, 1⟩ (split_loop cw_square_segments cw_square_game).1
          (split_loop cw_square_segments cw_square_game).2.1) := by
  decide!

section NonEmptyClaim

variable {K : Type} [LinearOrderedField K]

/-- One pass of the loop of `split_segments` leaves at least one of the two lists
non-empty. -/
theorem split_segments_step_nonempty (A B : pol_Vec2 K)
    (st : List LineSegment × List LineSegment × GameState K) (seg : LineSegment) :
    (split_segments_step A B st seg).1 ≠ [] ∨ (split_segments_step A B st seg).2.1 ≠ [] := by
  rcases split_segments_step_cases A B st seg with
    ⟨X, t, -, -, -, -, -, (⟨-, -, e, -⟩ | ⟨-, -, e, -⟩)⟩ | ⟨-, e⟩ | ⟨-, e⟩
  · left; rw [e]; simp
  · right; rw [e]; simp
  · right; rw [e]; simp
  · left; rw [e]; simp

/-- Claim C15: for every input list of at least 2 segments, both lists returned by
`split_segments` are non-empty; for a list of exactly 1 segment the left list is empty,
the right list is the splitter alone, and the game state is unchanged. -/
theorem split_segments_nonempty (segs : List LineSegment) (g : GameState K)
    (h : 2 ≤ segs.length) :
    ((split_segments segs g).1 ≠ [] ∧ (split_segments segs g).2.1 ≠ []) ∧
    ∀ (s0 : LineSegment) (g1 : GameState K), split_segments [s0] g1 = ([], [s0], g1) := by
  constructor
  · obtain ⟨s0, tail, rfl⟩ := List.exists_cons_of_ne_nil (l := segs)
      (by intro e; rw [e] at h; simp at h)
    obtain ⟨s1, rest, rfl⟩ := List.exists_cons_of_ne_nil (l := tail)
      (by intro e; rw [e] at h; simp at h)
    have hloop : (split_loop (s0 :: s1 :: rest) g).1 ≠ [] ∨
        (split_loop (s0 :: s1 :: rest) g).2.1 ≠ [] := by
      have hpre := split_segments_fold_lists (g.vertices.getD s0.v1 default)
        (g.vertices.getD s0.v2 default) rest
        (split_segments_step (g.vertices.getD s0.v1 default) (g.vertices.getD s0.v2 default)
          ([], [], g) s1)
      have e : split_loop (s0 :: s1 :: rest) g =
          rest.foldl (split_segments_step (g.vertices.getD s0.v1 default)
            (g.vertices.getD s0.v2 default))
            (split_segments_step (g.vertices.getD s0.v1 default)
              (g.vertices.getD s0.v2 default) ([], [], g) s1) := rfl
      rw [e]
      rcases split_segments_step_nonempty (g.vertices.getD s0.v1 default)
        (g.vertices.getD s0.v2 default) ([], [], g) s1 with h1 | h1
      · left
        intro hnil
        rw [hnil] at hpre
        exact h1 (List.prefix_nil.mp hpre.1)
      · right
        intro hnil
        rw [hnil] at hpre
        exact h1 (List.prefix_nil.mp hpre.2)
    rw [split_segments_eq]
    by_cases hR : (split_loop (s0 :: s1 :: rest) g).2.1 = []
    · rw [if_pos hR]
      rcases hloop with h1 | h1
      · exact ⟨h1, by simp⟩
      · exact absurd hR h1
    · rw [if_neg hR]
      exact ⟨by simp, hR⟩
  · intro s0 g1
    rfl

end NonEmptyClaim

/-- Witness for claim C15, on Scenario B. -/
theorem split_segments_nonempty_witness :
    2 ≤ scenario_b_segments.length ∧
    (split_segments scenario_b_segments scenario_b_game).1 ≠ [] ∧
    (split_segments scenario_b_segments scenario_b_game).2.1 ≠ [] :=
  ⟨by decide, (split_segments_nonempty scenario_b_segments scenario_b_game (by decide)).1⟩

section ColumnFacts

variable {K : Type} [LinearOrderedField K] [FloorRing K]

/-- One pass of the column loop of `render_line_segment` for a column that is not
skipped: the wall strip, then the floor below it when the floor is below the camera, then
the ceiling above it when the ceiling is above the camera. -/
theorem render_columns_succ (m : Libm K) (s : WallSpan K) (n : Nat) (x : Int) (sy1 sy2 : K)
    (h : ¬ (float_to_int (sy1 + 1 / 2) ≥ SCREEN_HEIGHT ∨ float_to_int (sy2 - 1 / 2) < 0 ∨
      float_to_int (sy2 - 1 / 2) < float_to_int (sy1 + 1 / 2))) :
    render_columns m s (n + 1) x sy1 sy2 =
      draw_column (wall_column s x sy1 sy2) s.tex ++
        (if s.view_floor_height < 0 then draw_plane_column m s.tex (floor_column s x sy2)
          else []) ++
        (if s.view_ceiling_height > 0 then draw_plane_column m s.tex (ceiling_column s x sy1)
          else []) ++
        render_columns m s n (x + 1) (sy1 + s.slope1) (sy2 + s.slope2) := by
  rw [render_columns]
  simp only []
  rw [if_neg h]
  rfl

/-- Claim C17: when the clipped view-space endpoints of a wall have the same depth
v1.y = v2.y ≠ 0, the value `u` of `render_line_segment` is the linear interpolation
(1 − tx)·u_start + tx·u_end, for every `tx`, `u_start` and `u_end`; and in every column
the loop draws, the texture column passed to `draw_column` is computed from that linear
interpolation at the `tx` of the column. -/
theorem perspective_u_parallel (s : WallSpan K) (h : s.v1.y = s.v2.y) (h0 : s.v1.y ≠ 0) :
    (∀ tx u_start u_end : K,
      perspective_u tx u_start u_end s.v1.y s.v2.y = (1 - tx) * u_start + tx * u_end) ∧
    (∀ (x : Int) (sy1 sy2 : K),
      (wall_column s x sy1 sy2).tex_x =
        float_to_int
          (((1 - column_tx s x) * s.u_start + column_tx s x * s.u_end -
            SDL_floorf ((1 - column_tx s x) * s.u_start + column_tx s x * s.u_end)) *
              (s.tex.w : K))) ∧
    (∀ (m : Libm K) (n : Nat) (x : Int) (sy1 sy2 : K),
      ¬ (float_to_int (sy1 + 1 / 2) ≥ SCREEN_HEIGHT ∨ float_to_int (sy2 - 1 / 2) < 0 ∨
        float_to_int (sy2 - 1 / 2) < float_to_int (sy1 + 1 / 2)) →
      ∃ rest, render_columns m s (n + 1) x sy1 sy2 =
        draw_column (wall_column s x sy1 sy2) s.tex ++ rest) := by
  have key : ∀ tx u_start u_end : K,
      perspective_u tx u_start u_end s.v1.y s.v2.y = (1 - tx) * u_start + tx * u_end := by
    intro tx us ue
    unfold perspective_u
    rw [← h]
    field_simp
  refine ⟨key, ?_, ?_⟩
  · intro x sy1 sy2
    unfold wall_column
    simp only [key]
  · intro m n x sy1 sy2 hskip
    rw [render_columns_succ m s n x sy1 sy2 hskip]
    simp only [List.append_assoc]
    exact ⟨_, rfl⟩

end ColumnFacts

/-- Witness for claim C17: a wall at depth 40 on both ends, with u from 0 to 1; in the
column x = 3 of 8 columns starting at screen x = 0, tx = 7/16 and u = 7/16. -/
theorem perspective_u_parallel_witness :
    (40 : ℚ) = 40 ∧ (40 : ℚ) ≠ 0 ∧
    perspective_u (7 / 16 : ℚ) 0 1 40 40 = (1 - 7 / 16) * 0 + 7 / 16 * 1 :=
  ⟨rfl, by norm_num,
    (perspective_u_parallel (K := ℚ)
      { tex := ⟨64, 64, []⟩, player_cam := ⟨⟨0, 0⟩, 40, 0⟩, v1 := ⟨-4, 40⟩, v2 := ⟨4, 40⟩,
        u_start := 0, u_end := 1, v_start := 0, v_end := 1, screen_x1 := 0, width := 8,
        slope1 := 0, slope2 := 0, view_floor_height := -40, view_ceiling_height := 24 }
      rfl (by norm_num)).1 (7 / 16) 0 1⟩

section RowFacts

variable {K : Type} [LinearOrderedField K] [FloorRing K]

/-- The pixel `draw_plane_column` writes for the row `y` is in column `x`, row `y`. -/
theorem draw_plane_pixel_pos (m : Libm K) (tex : SDL_Surface) (column : DrawPlaneColumn K)
    (y : Int) :
    (draw_plane_pixel m tex column y).x = column.x ∧
      (draw_plane_pixel m tex column y).y = y := by
  unfold draw_plane_pixel
  simp only []
  split_ifs <;> exact ⟨rfl, rfl⟩

/-- The first pixel `draw_plane_column` writes, when it writes any, is in its first row. -/
theorem draw_plane_column_first (m : Libm K) (tex : SDL_Surface) (column : DrawPlaneColumn K)
    (h : column.start_row ≤ column.end_row) :
    ∃ c, (⟨column.x, column.start_row, c⟩ : PixelWrite) ∈ draw_plane_column m tex column := by
  unfold draw_plane_column
  obtain ⟨n, hn⟩ : ∃ n : Nat, (column.end_row + 1 - column.start_row).toNat = n + 1 := by
    refine ⟨(column.end_row - column.start_row).toNat, ?_⟩
    omega
  rw [hn]
  unfold draw_plane_rows
  obtain ⟨hx, hy⟩ := draw_plane_pixel_pos m tex column column.start_row
  refine ⟨(draw_plane_pixel m tex column column.start_row).c, ?_⟩
  have e : (⟨column.x, column.start_row, (draw_plane_pixel m tex column column.start_row).c⟩ :
      PixelWrite) = draw_plane_pixel m tex column column.start_row := by
    cases hp : draw_plane_pixel m tex column column.start_row with
    | mk px py pc =>
      rw [hp] at hx hy
      simp only at hx hy
      rw [hx, hy]
  rw [e]
  exact List.mem_cons_self _ _

/-- When the interpolated top of the wall is within half a pixel of row 0, its bottom is
at least half a pixel below row 0 and the ceiling is above the camera, the column loop of
`render_line_segment` writes row 0 of the column twice: `draw_column` starts at row 0,
because `float_to_int (sy1 + 1/2) = 0`, and the ceiling rows of `draw_plane_column` are
[0, 0], because `float_to_int (sy1 - 1/2)` is 0 as well, the conversion truncating
toward zero. -/
theorem wall_ceiling_rows_meet (m : Libm K) (s : WallSpan K) (n : Nat) (x : Int) (sy1 sy2 : K)
    (h1 : -(1 / 2) < sy1) (h2 : sy1 < 1 / 2) (h3 : 1 / 2 ≤ sy2)
    (hc : 0 < s.view_ceiling_height) :
    ∃ rest : List PixelWrite, ∃ fl : List PixelWrite,
      render_columns m s (n + 1) x sy1 sy2 =
        draw_column (wall_column s x sy1 sy2) s.tex ++ fl ++
          draw_plane_column m s.tex (ceiling_column s x sy1) ++ rest ∧
      (wall_column s x sy1 sy2).x = x ∧ (wall_column s x sy1 sy2).y1 = 0 ∧
      (ceiling_column s x sy1).x = x ∧
      (ceiling_column s x sy1).start_row = 0 ∧ (ceiling_column s x sy1).end_row = 0 ∧
      (∃ c, (⟨x, 0, c⟩ : PixelWrite) ∈ draw_column (wall_column s x sy1 sy2) s.tex) ∧
      (∃ c, (⟨x, 0, c⟩ : PixelWrite) ∈
        draw_plane_column m s.tex (ceiling_column s x sy1)) := by
  have hS : SCREEN_HEIGHT = 400 := rfl
  have e1 : float_to_int (sy1 + 1 / 2) = 0 :=
    float_to_int_of_nonneg _ 0 (by linarith) (by push_cast; linarith) (by push_cast; linarith)
  have e2 : float_to_int (sy1 - 1 / 2) = 0 :=
    float_to_int_of_neg _ 0 (by linarith) (by push_cast; linarith) (by push_cast; linarith)
  have e3 : 0 ≤ float_to_int (sy2 - 1 / 2) := by
    unfold float_to_int
    rw [if_pos (by linarith)]
    exact Int.floor_nonneg.mpr (by linarith)
  have hskip : ¬ (float_to_int (sy1 + 1 / 2) ≥ SCREEN_HEIGHT ∨ float_to_int (sy2 - 1 / 2) < 0 ∨
      float_to_int (sy2 - 1 / 2) < float_to_int (sy1 + 1 / 2)) := by
    rw [e1, hS]; omega
  have hy1 : (wall_column s x sy1 sy2).y1 = 0 := by
    unfold wall_column
    simp only [e1]
    rfl
  have hy2 : 0 ≤ (wall_column s x sy1 sy2).y2 := by
    unfold wall_column
    simp only []
    unfold CLAMP MAX MIN
    rw [hS]
    split_ifs <;> omega
  have hce : (ceiling_column s x sy1).end_row = 0 := by
    unfold ceiling_column
    simp only [e2]
  refine ⟨render_columns m s n (x + 1) (sy1 + s.slope1) (sy2 + s.slope2),
    if s.view_floor_height < 0 then draw_plane_column m s.tex (floor_column s x sy2) else [],
    ?_, rfl, hy1, rfl, rfl, hce, ?_, ?_⟩
  · rw [render_columns_succ m s n x sy1 sy2 hskip, if_pos hc]
  · obtain ⟨c, hmem⟩ := draw_column_first (wall_column s x sy1 sy2) s.tex (by rw [hy1]; exact hy2)
    rw [hy1] at hmem
    exact ⟨c, hmem⟩
  · obtain ⟨c, hmem⟩ := draw_plane_column_first m s.tex (ceiling_column s x sy1)
      (by rw [hce]; exact le_refl _)
    exact ⟨c, hmem⟩

end RowFacts

/-- A parameter outside [0, 1] makes `line_segment_intersect` return the sentinel. -/
theorem line_segment_intersect_out_of_range {K : Type} [LinearOrderedField K]
    (v1 v2 v3 v4 : pol_Vec2 K)
    (h : ((v1.x - v3.x) * (v3.y - v4.y) - (v1.y - v3.y) * (v3.x - v4.x)) /
          ((v1.x - v2.x) * (v3.y - v4.y) - (v1.y - v2.y) * (v3.x - v4.x)) < 0 ∨
        ((v1.x - v3.x) * (v3.y - v4.y) - (v1.y - v3.y) * (v3.x - v4.x)) /
          ((v1.x - v2.x) * (v3.y - v4.y) - (v1.y - v2.y) * (v3.x - v4.x)) > 1 ∨
        -((v1.x - v2.x) * (v1.y - v3.y) - (v1.y - v2.y) * (v1.x - v3.x)) /
          ((v1.x - v2.x) * (v3.y - v4.y) - (v1.y - v2.y) * (v3.x - v4.x)) < 0 ∨
        -((v1.x - v2.x) * (v1.y - v3.y) - (v1.y - v2.y) * (v1.x - v3.x)) /
          ((v1.x - v2.x) * (v3.y - v4.y) - (v1.y - v2.y) * (v3.x - v4.x)) > 1) :
    line_segment_intersect v1 v2 v3 v4 = none := by
  unfold line_segment_intersect
  simp only []
  split_ifs
  · rfl
  · rfl

/-- The south face of the pillar, in the view space of `pillar_game`, meets neither of the
two clipping rays: the parameter along the wall would be −1/8 on the left ray and 9/8 on
the right ray. -/
theorem pillar_not_clipped (c : ℝ) (hc : c = Real.sqrt 2 / 2) (sgn : ℝ)
    (hs : sgn = 1 ∨ sgn = -1) :
    line_segment_intersect (VEC2ZERO : pol_Vec2 ℝ) ⟨sgn * (10000 * c), 10000 * c⟩
      ⟨-32, 40⟩ ⟨32, 40⟩ = none := by
  have hpos : 0 < Real.sqrt 2 := Real.sqrt_pos.mpr (by norm_num)
  have hc0 : c ≠ 0 := by rw [hc]; positivity
  apply line_segment_intersect_out_of_range
  have hu : -(((VEC2ZERO : pol_Vec2 ℝ).x - sgn * (10000 * c)) * ((VEC2ZERO : pol_Vec2 ℝ).y - 40) -
      ((VEC2ZERO : pol_Vec2 ℝ).y - 10000 * c) * ((VEC2ZERO : pol_Vec2 ℝ).x - -32)) /
      (((VEC2ZERO : pol_Vec2 ℝ).x - sgn * (10000 * c)) * (40 - 40) -
        ((VEC2ZERO : pol_Vec2 ℝ).y - 10000 * c) * (-32 - 32)) = 5 / 8 * sgn + 1 / 2 := by
    simp only [VEC2ZERO]
    field_simp
    ring
  right; right
  simp only []
  rw [hu]
  rcases hs with rfl | rfl
  · right; norm_num
  · left; norm_num

/-- Claim C16 fails on the code: with the map of `main` and the camera of `pillar_game`,
the top of the south face of the pillar is at screen height 0 in every column, and in the
first column, x = 64, `draw_column` writes the rows [0, 399] and `draw_plane_column` writes
the ceiling rows [0, 0]: the pixel (64, 0) is written by both. -/
theorem wall_ceiling_rows_overlap (tex : SDL_Surface) :
    ∃ (col : DrawColumn ℝ) (ccol : DrawPlaneColumn ℝ) (fl rest : List PixelWrite),
      render_line_segment
          ⟨Real.cos, Real.sin, Real.tan, fun y x => Complex.arg ⟨x, y⟩, Real.sqrt, Real.pi⟩
          (pillar_game
            ⟨Real.cos, Real.sin, Real.tan, fun y x => Complex.arg ⟨x, y⟩, Real.sqrt, Real.pi⟩)
          ⟨⟨16, 17⟩, 0, 64, tex⟩ =
        draw_column col tex ++ fl ++
          draw_plane_column
            ⟨Real.cos, Real.sin, Real.tan, fun y x => Complex.arg ⟨x, y⟩, Real.sqrt, Real.pi⟩
            tex ccol ++ rest ∧
      col.x = 64 ∧ col.y1 = 0 ∧ ccol.x = 64 ∧ ccol.start_row = 0 ∧ ccol.end_row = 0 ∧
      (∃ c, (⟨64, 0, c⟩ : PixelWrite) ∈ draw_column col tex) ∧
      (∃ c, (⟨64, 0, c⟩ : PixelWrite) ∈ draw_plane_column
        ⟨Real.cos, Real.sin, Real.tan, fun y x => Complex.arg ⟨x, y⟩, Real.sqrt, Real.pi⟩
        tex ccol) := by
  have hfov : (90 : ℝ) * (Real.pi / 180) / 2 = Real.pi / 4 := by ring
  have hfov2 : -((90 : ℝ) * (Real.pi / 180)) / 2 = -(Real.pi / 4) := by ring
  have hang : -((90 : ℝ) * (Real.pi / 180)) + 90 * (Real.pi / 180) = 0 := by ring
  have hclip1 := pillar_not_clipped (Real.cos (Real.pi / 4)) Real.cos_pi_div_four (-1)
    (Or.inr rfl)
  have hclip2 := pillar_not_clipped (Real.cos (Real.pi / 4)) Real.cos_pi_div_four 1
    (Or.inl rfl)
  have hside : point_on_side (⟨-32, 40⟩ : pol_Vec2 ℝ) ⟨32, 40⟩ VEC2ZERO = 1 := by
    rw [point_on_side_eq_one_iff]
    norm_num [vec2_cross_product, vec2_subtract, EPSILON, VEC2ZERO]
  have ha1 : ¬ Complex.arg ⟨40, 32⟩ < -(Real.pi / 4) := by
    have : 0 ≤ Complex.arg ⟨40, 32⟩ := Complex.arg_nonneg_iff.mpr (by norm_num)
    linarith [Real.pi_pos]
  have ha2 : ¬ Complex.arg ⟨40, -32⟩ > Real.pi / 4 :=
    not_lt.mpr (arg_le_pi_div_four 40 (-32) (by norm_num) (by norm_num))
  have hv1 : world_to_view
      ⟨Real.cos, Real.sin, Real.tan, fun y x => Complex.arg ⟨x, y⟩, Real.sqrt, Real.pi⟩
      (⟨-32, -32⟩ : pol_Vec2 ℝ) ⟨⟨0, -72⟩, 39, 90 * (Real.pi / 180)⟩ = ⟨-32, 40⟩ := by
    simp only [world_to_view, vec2_rotate, vec2_subtract, DEG2RAD, hang, Real.cos_zero,
      Real.sin_zero, pol_Vec2.mk.injEq]
    norm_num
  have hv2 : world_to_view
      ⟨Real.cos, Real.sin, Real.tan, fun y x => Complex.arg ⟨x, y⟩, Real.sqrt, Real.pi⟩
      (⟨32, -32⟩ : pol_Vec2 ℝ) ⟨⟨0, -72⟩, 39, 90 * (Real.pi / 180)⟩ = ⟨32, 40⟩ := by
    simp only [world_to_view, vec2_rotate, vec2_subtract, DEG2RAD, hang, Real.cos_zero,
      Real.sin_zero, pol_Vec2.mk.injEq]
    norm_num
  have hnn : ¬ ((40 : ℝ) ≤ 0 ∧ (40 : ℝ) ≤ 0) := by norm_num
  have hne1 : ¬ (1 : Int) ≠ 1 := by decide
  have hg1 : (pillar_game
      ⟨Real.cos, Real.sin, Real.tan, fun y x => Complex.arg ⟨x, y⟩, Real.sqrt,
        Real.pi⟩).vertices.getD 16 default = (⟨-32, -32⟩ : pol_Vec2 ℝ) := rfl
  have hg2 : (pillar_game
      ⟨Real.cos, Real.sin, Real.tan, fun y x => Complex.arg ⟨x, y⟩, Real.sqrt,
        Real.pi⟩).vertices.getD 17 default = (⟨32, -32⟩ : pol_Vec2 ℝ) := rfl
  have hcam : (pillar_game
      ⟨Real.cos, Real.sin, Real.tan, fun y x => Complex.arg ⟨x, y⟩, Real.sqrt,
        Real.pi⟩).player_cam = ⟨⟨0, -72⟩, 39, 90 * (Real.pi / 180)⟩ := rfl
  unfold render_line_segment
  simp only [hg1, hg2, hcam, DEG2RAD, FOV, hv1, hv2, hside, hnn, hne1,
    if_false, vec2_rotate, hfov, hfov2, Real.cos_neg, Real.sin_neg, Real.sin_pi_div_four,
    ← Real.cos_pi_div_four]
  have e1 : (⟨0 * Real.cos (Real.pi / 4) - 10000 * Real.cos (Real.pi / 4),
      0 * Real.cos (Real.pi / 4) + 10000 * Real.cos (Real.pi / 4)⟩ : pol_Vec2 ℝ) =
      ⟨-1 * (10000 * Real.cos (Real.pi / 4)), 10000 * Real.cos (Real.pi / 4)⟩ := by
    rw [pol_Vec2.mk.injEq]; constructor <;> ring
  have e2 : (⟨0 * Real.cos (Real.pi / 4) - 10000 * -Real.cos (Real.pi / 4),
      0 * -Real.cos (Real.pi / 4) + 10000 * Real.cos (Real.pi / 4)⟩ : pol_Vec2 ℝ) =
      ⟨1 * (10000 * Real.cos (Real.pi / 4)), 10000 * Real.cos (Real.pi / 4)⟩ := by
    rw [pol_Vec2.mk.injEq]; constructor <;> ring
  have hf : global_focal_length (K := ℝ)
      ⟨Real.cos, Real.sin, Real.tan, fun y x => Complex.arg ⟨x, y⟩, Real.sqrt, Real.pi⟩ = 1 := by
    simp only [global_focal_length, FOV, DEG2RAD, hfov, Real.tan_pi_div_four, div_one]
  have hd1 : (0 : ℝ) * 40 - 1 * -32 = 32 := by norm_num
  have hd2 : (0 : ℝ) * -32 + 1 * 40 = 40 := by norm_num
  have hd3 : (0 : ℝ) * 40 - 1 * 32 = -32 := by norm_num
  have hd4 : (0 : ℝ) * 32 + 1 * 40 = 40 := by norm_num
  simp only [e1, e2, hclip1, hclip2, Option.getD_none, vec2_angle, hd1, hd2, hd3, hd4, ha1, ha2,
    or_self, if_false, hf, SW2, SH2, global_yScale]
  have hdx : ¬ |(640 : ℝ) / 2 + 32 * 1 / 40 * (640 / 2) -
      (640 / 2 + -32 / 40 * 1 * (640 / 2))| < EPSILON := by
    rw [abs_lt, not_and_or]; right; norm_num [EPSILON]
  have hsc : float_to_int ((640 : ℝ) / 2 + -32 / 40 * 1 * (640 / 2) + 1 / 2) = 64 :=
    float_to_int_of_nonneg _ _ (by norm_num) (by norm_num) (by norm_num)
  have hec : float_to_int ((640 : ℝ) / 2 + 32 * 1 / 40 * (640 / 2) - 1 / 2) = 575 :=
    float_to_int_of_nonneg _ _ (by norm_num) (by norm_num) (by norm_num)
  have hn : ((575 : Int) + 1 - 64).toNat = 511 + 1 := by decide
  rw [if_neg hdx, hsc, hec, hn]
  refine (wall_ceiling_rows_meet _ _ 511 64 _ _ ?_ ?_ ?_ ?_).elim fun rest h =>
    h.elim fun fl h => ⟨_, _, fl, rest, h⟩
  · norm_num
  · norm_num
  · norm_num
  · norm_num

section PlaneFacts

variable {K : Type} [LinearOrderedField K] [FloorRing K]

/-- The pixel `draw_plane_column` writes for the row `y`, in terms of the texel. -/
theorem draw_plane_pixel_eq (m : Libm K) (tex : SDL_Surface) (column : DrawPlaneColumn K)
    (y : Int) :
    draw_plane_pixel m tex column y =
      if on_grid_line tex (plane_texel m tex column y) then ⟨column.x, y, ⟨0, 0, 0, 0⟩⟩
      else ⟨column.x, y, tex_read tex ((plane_texel m tex column y).1 +
        (plane_texel m tex column y).2 * tex.w)⟩ := rfl

/-- The rows of the loop of `draw_plane_column`. -/
theorem draw_plane_rows_eq (m : Libm K) (tex : SDL_Surface) (column : DrawPlaneColumn K) :
    ∀ (n : Nat) (y : Int), draw_plane_rows m tex column n y =
      (List.range n).map fun (k : Nat) => draw_plane_pixel m tex column (y + (k : Int)) := by
  intro n
  induction n with
  | zero => intro y; rfl
  | succ n ih =>
    intro y
    rw [draw_plane_rows, ih, List.range_succ_eq_map, List.map_cons, List.map_map]
    simp only [Nat.cast_zero, add_zero, List.cons.injEq, true_and]
    apply List.map_congr_left
    intro k _
    simp only [Function.comp, Nat.cast_succ]
    rw [add_assoc, add_comm 1]

end PlaneFacts

/-- The texel column computed for the pixel of `grid_column` is 0: the floor point is
(40/397, 25600/397), and 5/1588 of a tile is less than one texel. -/
theorem grid_column_texel_x :
    (plane_texel
      ⟨Real.cos, Real.sin, Real.tan, fun y x => Complex.arg ⟨x, y⟩, Real.sqrt, Real.pi⟩
      white_texture
      (grid_column
        ⟨Real.cos, Real.sin, Real.tan, fun y x => Complex.arg ⟨x, y⟩, Real.sqrt, Real.pi⟩)
      399).1 = 0 := by
  have hfov : (90 : ℝ) * (Real.pi / 180) / 2 = Real.pi / 4 := by ring
  have hf : global_focal_length (K := ℝ)
      ⟨Real.cos, Real.sin, Real.tan, fun y x => Complex.arg ⟨x, y⟩, Real.sqrt, Real.pi⟩ = 1 := by
    simp only [global_focal_length, FOV, DEG2RAD, hfov, Real.tan_pi_div_four, div_one]
  simp only [plane_texel, grid_column, white_texture, view_to_world, vec2_rotate, vec2_add,
    DEG2RAD, sub_self, Real.cos_zero, Real.sin_zero, hf, SH2, global_yScale]
  have hE : ((1 : ℝ) / 640 / 1 * (-40 * 1 / ((400 / 2 - ((399 : Int) : ℝ) + 1 / 2) /
      (400 / 2 * (640 / 400)))) * 1 -
        -40 * 1 / ((400 / 2 - ((399 : Int) : ℝ) + 1 / 2) / (400 / 2 * (640 / 400))) * 0 + 0) /
      32 = 5 / 1588 := by
    push_cast
    norm_num
  rw [hE]
  have hfl : SDL_floorf ((5 : ℝ) / 1588) = 0 := by
    unfold SDL_floorf
    have : ⌊(5 : ℝ) / 1588⌋ = 0 := by
      rw [Int.floor_eq_iff]
      constructor <;> norm_num
    rw [this]
    norm_num
  rw [hfl]
  have hti : float_to_int (((5 : ℝ) / 1588 - 0) * ((64 : Int) : ℝ)) = 0 :=
    float_to_int_of_nonneg _ 0 (by push_cast; norm_num) (by push_cast; norm_num)
      (by push_cast; norm_num)
  rw [hti]
  decide

section PlaneClaim

variable {K : Type} [LinearOrderedField K] [FloorRing K]

/-- Claim C18, amended: `draw_plane_column` writes one pixel for each row from `start_row`
to `end_row`, in this order; for each of these rows, if the computed texel is on the first
or last column or row of the texture, the pixel written is the all-zero colour, which is
black with alpha 0 (not opaque); otherwise the pixel written is exactly the texel
`tex[tex_x + tex_y·w]`. -/
theorem plane_grid_lines (m : Libm K) (tex : SDL_Surface) (column : DrawPlaneColumn K) :
    draw_plane_column m tex column =
      (List.range (column.end_row + 1 - column.start_row).toNat).map
        (fun (k : Nat) => draw_plane_pixel m tex column (column.start_row + (k : Int))) ∧
    ∀ y : Int,
      (on_grid_line tex (plane_texel m tex column y) →
        draw_plane_pixel m tex column y = ⟨column.x, y, ⟨0, 0, 0, 0⟩⟩ ∧
        (draw_plane_pixel m tex column y).c.a = 0) ∧
      (¬ on_grid_line tex (plane_texel m tex column y) →
        draw_plane_pixel m tex column y =
          ⟨column.x, y, tex.pixels.getD ((plane_texel m tex column y).1 +
            (plane_texel m tex column y).2 * tex.w).toNat default⟩) := by
  refine ⟨draw_plane_rows_eq m tex column _ _, fun y => ⟨fun h => ?_, fun h => ?_⟩⟩
  · rw [draw_plane_pixel_eq, if_pos h]
    exact ⟨rfl, rfl⟩
  · rw [draw_plane_pixel_eq, if_neg h]
    rfl

end PlaneClaim

/-- Counterexample to claim C18 as stated: for the floor pixel of `grid_column` and the
white texture, the texel is in the first column of the texture, and the alpha of the pixel
written is not 255. -/
theorem plane_grid_counterexample :
    on_grid_line white_texture
      (plane_texel
        ⟨Real.cos, Real.sin, Real.tan, fun y x => Complex.arg ⟨x, y⟩, Real.sqrt, Real.pi⟩
        white_texture
        (grid_column
          ⟨Real.cos, Real.sin, Real.tan, fun y x => Complex.arg ⟨x, y⟩, Real.sqrt, Real.pi⟩)
        399) ∧
    (draw_plane_pixel
        ⟨Real.cos, Real.sin, Real.tan, fun y x => Complex.arg ⟨x, y⟩, Real.sqrt, Real.pi⟩
        white_texture
        (grid_column
          ⟨Real.cos, Real.sin, Real.tan, fun y x => Complex.arg ⟨x, y⟩, Real.sqrt, Real.pi⟩)
        399).c.a ≠ 255 := by
  have h : on_grid_line white_texture
      (plane_texel
        ⟨Real.cos, Real.sin, Real.tan, fun y x => Complex.arg ⟨x, y⟩, Real.sqrt, Real.pi⟩
        white_texture
        (grid_column
          ⟨Real.cos, Real.sin, Real.tan, fun y x => Complex.arg ⟨x, y⟩, Real.sqrt, Real.pi⟩)
        399) := Or.inr (Or.inl grid_column_texel_x)
  refine ⟨h, ?_⟩
  rw [draw_plane_pixel_eq, if_pos h]
  decide

/-- A reference that leads to a tree whose node indices are `a, a+1, …, a+n-1` and whose
leaves are below `S` is well-formed for every parent index below `a`. -/
theorem encodes_root_ref (nodes : List Node) (S a n k : Nat) (t : BspTree) (ref : Nat)
    (henc : encodes nodes ref t) (hidx : t.node_indices = List.range' a n)
    (hlv : ∀ j ∈ t.leaves, j < S) (hk : k < a) : child_ref_ok (a + n) S k ref := by
  cases t with
  | leaf j =>
    obtain ⟨h1, h2⟩ := henc
    refine ⟨fun h => absurd h h1, fun _ => ?_⟩
    rw [h2]
    exact hlv j (List.mem_singleton.mpr rfl)
  | node i s l r =>
    obtain ⟨h1, h2, -, -, -, -⟩ := henc
    refine ⟨fun _ => ?_, fun h => absurd h1 h⟩
    have hi : i ∈ List.range' a n := by
      rw [← hidx]; exact List.mem_cons_self _ _
    rw [List.mem_range'_1] at hi
    rw [h2]
    omega

/-- In a tree whose node indices are `a, a+1, …, a+n-1` in the order root, left subtree,
right subtree, and whose leaves are below `S`, both child references of every node are
well-formed. -/
theorem encodes_refs_ok (nodes : List Node) (S : Nat) :
    ∀ (t : BspTree) (ref a n : Nat), encodes nodes ref t →
      t.node_indices = List.range' a n → (∀ j ∈ t.leaves, j < S) →
      ∀ k ∈ t.node_indices,
        child_ref_ok (a + n) S k (nodes.getD k default).left ∧
        child_ref_ok (a + n) S k (nodes.getD k default).right := by
  intro t
  induction t with
  | leaf j => intro ref a n _ _ _ k hk; exact absurd hk (List.not_mem_nil k)
  | node i s l r ihl ihr =>
    intro ref a n henc hidx hlv k hk
    obtain ⟨-, -, -, -, encl, encr⟩ := henc
    have hidx1 : List.range' a n = i :: (l.node_indices ++ r.node_indices) := hidx.symm
    obtain ⟨rfl, hn, hrest⟩ := List.range'_eq_cons_iff.mp hidx1
    obtain ⟨m, hm, hl, hr⟩ := List.range'_eq_append_iff.mp hrest.symm
    have hlvl : ∀ j ∈ l.leaves, j < S := fun j hj => hlv j (List.mem_append_left _ hj)
    have hlvr : ∀ j ∈ r.leaves, j < S := fun j hj => hlv j (List.mem_append_right _ hj)
    have mono : ∀ (N1 N2 k1 ref1 : Nat), N1 ≤ N2 → child_ref_ok N1 S k1 ref1 →
        child_ref_ok N2 S k1 ref1 := by
      intro N1 N2 k1 ref1 hle h
      exact ⟨fun h0 => ⟨(h.1 h0).1, lt_of_lt_of_le (h.1 h0).2 hle⟩, h.2⟩
    rcases List.mem_cons.mp hk with rfl | hk
    · constructor
      · exact mono _ _ _ _ (by omega)
          (encodes_root_ref nodes S (k + 1) m k l _ encl hl hlvl (Nat.lt_succ_self k))
      · exact mono _ _ _ _ (by omega)
          (encodes_root_ref nodes S (k + 1 + m) (n - 1 - m) k r _ encr hr hlvr (by omega))
    · rcases List.mem_append.mp hk with hk | hk
      · obtain ⟨c1, c2⟩ := ihl _ (a + 1) m encl hl hlvl k hk
        exact ⟨mono _ _ _ _ (by omega) c1, mono _ _ _ _ (by omega) c2⟩
      · obtain ⟨c1, c2⟩ := ihr _ (a + 1 + m) (n - 1 - m) encr hr hlvr k hk
        exact ⟨mono _ _ _ _ (by omega) c1, mono _ _ _ _ (by omega) c2⟩

/-- When every child reference is well-formed, a chain of children leads to greater
node indices only. -/
theorem node_child_chain_lt (nodes : List Node) (S : Nat)
    (h : ∀ k < nodes.length,
      child_ref_ok nodes.length S k (nodes.getD k default).left ∧
      child_ref_ok nodes.length S k (nodes.getD k default).right)
    (k j : Nat) (hc : Relation.TransGen (node_child nodes) k j) : k < j := by
  have step : ∀ a b, node_child nodes a b → a < b := by
    rintro a b ⟨ha, hflag, rfl | rfl⟩
    · exact ((h a ha).1.1 hflag).1
    · exact ((h a ha).2.1 hflag).1
  induction hc with
  | single hab => exact step _ _ hab
  | tail _ hbc ih => exact lt_trans ih (step _ _ hbc)

section AcyclicClaim

variable {K : Type} [LinearOrderedField K]

/-- The root index a build returns is the number of nodes it started with. -/
theorem generate_bsp_tree_root (fuel : Nat) (segs : List LineSegment) (g : GameState K)
    (r : Nat × GameState K) (h : generate_bsp_tree fuel segs g = some r) :
    r.1 = to_int32 g.nodes.length := by
  cases fuel with
  | zero => exact absurd h (by simp [generate_bsp_tree])
  | succ fuel =>
    obtain ⟨cl, cr, g0, node, k, -, -, -, -, hk, hr⟩ :=
      (generate_bsp_tree_some_iff fuel segs g r).mp h
    rw [hr, hk, split_segments_game]
    simp only []
    rw [(split_segments_fold_frame _ _ _ _).1]

/-- Claim C19: for every non-empty list of segments of the pool, built from a state with
no node and no sector, the build returns the root index 0; and, when the tree has fewer
than 2^31 nodes and sectors (so that the references fit their 31 bits), every child
reference stored in a node k with the sector flag clear is a node index greater than k and
less than the number of nodes, every child reference with the sector flag set decodes to
an index less than the number of sectors, and no node is reachable from itself through
child references. -/
theorem bsp_tree_acyclic (segs : List LineSegment) (g : GameState K) (hne : segs ≠ [])
    (hv : ∀ s ∈ segs, seg_in_pool g.vertices.length s) (hn : g.nodes = [])
    (hs : g.sectors = []) :
    ∃ (fuel : Nat) (r : Nat × GameState K),
      (∀ fuel1, fuel ≤ fuel1 → generate_bsp_tree fuel1 segs g = some r) ∧
      r.1 = 0 ∧
      (r.2.nodes.length < 2 ^ 31 → r.2.sectors.length < 2 ^ 31 →
        (∀ k < r.2.nodes.length,
          ((r.2.nodes.getD k default).left &&& SECTOR_FLAG = 0 →
            k < (r.2.nodes.getD k default).left ∧
            (r.2.nodes.getD k default).left < r.2.nodes.length) ∧
          ((r.2.nodes.getD k default).left &&& SECTOR_FLAG ≠ 0 →
            (r.2.nodes.getD k default).left &&& 0x7FFFFFFF < r.2.sectors.length) ∧
          ((r.2.nodes.getD k default).right &&& SECTOR_FLAG = 0 →
            k < (r.2.nodes.getD k default).right ∧
            (r.2.nodes.getD k default).right < r.2.nodes.length) ∧
          ((r.2.nodes.getD k default).right &&& SECTOR_FLAG ≠ 0 →
            (r.2.nodes.getD k default).right &&& 0x7FFFFFFF < r.2.sectors.length)) ∧
        ∀ k : Nat, ¬ Relation.TransGen (node_child r.2.nodes) k k) := by
  obtain ⟨fuel, r, h⟩ := terminates_of_valid segs.length segs g rfl hne hv
  refine ⟨fuel, r, fun fuel1 hle => generate_bsp_tree_mono fuel fuel1 hle segs g r h, ?_, ?_⟩
  · rw [generate_bsp_tree_root fuel segs g r h, hn]
    rfl
  · intro hb1 hb2
    obtain ⟨t, inv⟩ := generate_bsp_tree_inv fuel segs g r hne hv h hb1 hb2
    have hidx : t.node_indices = List.range' 0 r.2.nodes.length := by
      have := inv.idx
      rw [hn] at this
      simpa using this
    have hlvs : ∀ j ∈ t.leaves, j < r.2.sectors.length := by
      intro j hj
      rw [inv.lvs, hs, List.mem_range'_1] at hj
      simp at hj
      exact hj
    have hall : ∀ k < r.2.nodes.length,
        child_ref_ok r.2.nodes.length r.2.sectors.length k (r.2.nodes.getD k default).left ∧
        child_ref_ok r.2.nodes.length r.2.sectors.length k (r.2.nodes.getD k default).right := by
      intro k hk
      have hmem : k ∈ t.node_indices := by
        rw [hidx, List.mem_range'_1]; omega
      have := encodes_refs_ok r.2.nodes r.2.sectors.length t r.1 0 r.2.nodes.length inv.enc
        hidx hlvs k hmem
      simpa using this
    constructor
    · intro k hk
      obtain ⟨⟨a1, a2⟩, ⟨b1, b2⟩⟩ := hall k hk
      exact ⟨a1, a2, b1, b2⟩
    · intro k hc
      exact lt_irrefl k (node_child_chain_lt r.2.nodes r.2.sectors.length hall k k hc)

end AcyclicClaim

/-- Witness for claim C19, on Scenario B: the build returns the root 0, and the child
references of its nodes are well-formed. -/
theorem bsp_tree_acyclic_witness :
    scenario_b_segments ≠ [] ∧
    (∀ s ∈ scenario_b_segments, seg_in_pool scenario_b_game.vertices.length s) ∧
    scenario_b_game.nodes = [] ∧ scenario_b_game.sectors = [] ∧
    ∃ (fuel : Nat) (r : Nat × GameState ℚ),
      (∀ fuel1, fuel ≤ fuel1 →
        generate_bsp_tree fuel1 scenario_b_segments scenario_b_game = some r) ∧
      r.1 = 0 ∧
      (r.2.nodes.length < 2 ^ 31 → r.2.sectors.length < 2 ^ 31 →
        (∀ k < r.2.nodes.length,
          ((r.2.nodes.getD k default).left &&& SECTOR_FLAG = 0 →
            k < (r.2.nodes.getD k default).left ∧
            (r.2.nodes.getD k default).left < r.2.nodes.length) ∧
          ((r.2.nodes.getD k default).left &&& SECTOR_FLAG ≠ 0 →
            (r.2.nodes.getD k default).left &&& 0x7FFFFFFF < r.2.sectors.length) ∧
          ((r.2.nodes.getD k default).right &&& SECTOR_FLAG = 0 →
            k < (r.2.nodes.getD k default).right ∧
            (r.2.nodes.getD k default).right < r.2.nodes.length) ∧
          ((r.2.nodes.getD k default).right &&& SECTOR_FLAG ≠ 0 →
            (r.2.nodes.getD k default).right &&& 0x7FFFFFFF < r.2.sectors.length)) ∧
        ∀ k : Nat, ¬ Relation.TransGen (node_child r.2.nodes) k k) :=
  ⟨by decide, by decide, rfl, rfl,
    bsp_tree_acyclic scenario_b_segments scenario_b_game (by decide) (by decide) rfl rfl⟩

section CollectClaim

variable {K : Type} [LinearOrderedField K]

/-- Claim C20: for every non-empty list of segments of the pool, built from a state with
no node and no sector, when the tree has fewer than 2^31 nodes and sectors, there is a
depth bound from which on, for every camera, `render_bsp` started at node 0 with an empty
draw list returns a list in which each sector index 0, …, num_sectors − 1 occurs exactly
once and nothing else occurs: its length is num_sectors, it has at most 128 entries
exactly when num_sectors ≤ 128, and the lists of two cameras are permutations of each
other. -/
theorem render_bsp_collects_all (segs : List LineSegment) (g : GameState K) (hne : segs ≠ [])
    (hv : ∀ s ∈ segs, seg_in_pool g.vertices.length s) (hn : g.nodes = [])
    (hs : g.sectors = []) :
    ∃ (fuel : Nat) (r : Nat × GameState K),
      (∀ fuel1, fuel ≤ fuel1 → generate_bsp_tree fuel1 segs g = some r) ∧
      (r.2.nodes.length < 2 ^ 31 → r.2.sectors.length < 2 ^ 31 →
        ∃ (fuelR : Nat) (collected : PlayerCam K → List Nat),
          (∀ (cam : PlayerCam K) (fuel2 : Nat), fuelR ≤ fuel2 →
            render_bsp fuel2 0 { r.2 with player_cam := cam } [] = some (collected cam)) ∧
          (∀ cam : PlayerCam K,
            (collected cam).Perm (List.range r.2.sectors.length) ∧
            (∀ i < r.2.sectors.length, (collected cam).count i = 1) ∧
            (∀ i ∈ collected cam, i < r.2.sectors.length) ∧
            (collected cam).length = r.2.sectors.length ∧
            ((collected cam).length ≤ 128 ↔ r.2.sectors.length ≤ 128)) ∧
          ∀ cam1 cam2 : PlayerCam K, (collected cam1).Perm (collected cam2)) := by
  obtain ⟨fuel, r, h⟩ := terminates_of_valid segs.length segs g rfl hne hv
  refine ⟨fuel, r, fun fuel1 hle => generate_bsp_tree_mono fuel fuel1 hle segs g r h, ?_⟩
  intro hb1 hb2
  obtain ⟨t, inv⟩ := generate_bsp_tree_inv fuel segs g r hne hv h hb1 hb2
  have hroot : r.1 = 0 := by
    rw [generate_bsp_tree_root fuel segs g r h, hn]; rfl
  have hlvs : t.leaves = List.range r.2.sectors.length := by
    rw [inv.lvs, hs, List.range_eq_range']
    simp
  have hperm : ∀ cam : PlayerCam K,
      (render_order r.2.vertices cam.pos t).Perm (List.range r.2.sectors.length) := by
    intro cam
    have := render_order_perm r.2.vertices cam.pos t
    rw [hlvs] at this
    exact this
  refine ⟨t.depth + 1, fun cam => render_order r.2.vertices cam.pos t, ?_, ?_, ?_⟩
  · intro cam fuel2 hle
    have henc : encodes r.2.nodes 0 t := by rw [← hroot]; exact inv.enc
    have := render_bsp_of_encodes { r.2 with player_cam := cam } t 0 fuel2 henc (by omega) []
    simpa using this
  · intro cam
    have hp := hperm cam
    refine ⟨hp, ?_, ?_, ?_, ?_⟩
    · intro i hi
      rw [hp.count_eq]
      exact List.count_eq_one_of_mem (List.nodup_range _) (List.mem_range.mpr hi)
    · intro i hi
      exact List.mem_range.mp (hp.subset hi)
    · rw [hp.length_eq, List.length_range]
    · rw [hp.length_eq, List.length_range]
  · intro cam1 cam2
    exact (hperm cam1).trans (hperm cam2).symm

end CollectClaim

/-- Witness for claim C20, on Scenario B: the build returns, and the traversal collects
every sector exactly once for every camera. -/
theorem render_bsp_collects_all_witness :
    scenario_b_segments ≠ [] ∧
    (∀ s ∈ scenario_b_segments, seg_in_pool scenario_b_game.vertices.length s) ∧
    scenario_b_game.nodes = [] ∧ scenario_b_game.sectors = [] ∧
    ∃ (fuel : Nat) (r : Nat × GameState ℚ),
      (∀ fuel1, fuel ≤ fuel1 →
        generate_bsp_tree fuel1 scenario_b_segments scenario_b_game = some r) ∧
      (r.2.nodes.length < 2 ^ 31 → r.2.sectors.length < 2 ^ 31 →
        ∃ (fuelR : Nat) (collected : PlayerCam ℚ → List Nat),
          (∀ (cam : PlayerCam ℚ) (fuel2 : Nat), fuelR ≤ fuel2 →
            render_bsp fuel2 0 { r.2 with player_cam := cam } [] = some (collected cam)) ∧
          (∀ cam : PlayerCam ℚ,
            (collected cam).Perm (List.range r.2.sectors.length) ∧
            (∀ i < r.2.sectors.length, (collected cam).count i = 1) ∧
            (∀ i ∈ collected cam, i < r.2.sectors.length) ∧
            (collected cam).length = r.2.sectors.length ∧
            ((collected cam).length ≤ 128 ↔ r.2.sectors.length ≤ 128)) ∧
          ∀ cam1 cam2 : PlayerCam ℚ, (collected cam1).Perm (collected cam2)) :=
  ⟨by decide, by decide, rfl, rfl,
    render_bsp_collects_all scenario_b_segments scenario_b_game (by decide) (by decide)
      rfl rfl⟩

section SplitPointFacts

variable {K : Type} [LinearOrderedField K]

/-- For a straddle the determinant of `line_intersect` is at least 2ε in absolute value. -/
theorem straddle_det_bound (A B p q : pol_Vec2 K)
    (h : point_on_side A B p * point_on_side A B q = -1) :
    2 * EPSILON ≤ |(A.x - B.x) * (p.y - q.y) - (A.y - B.y) * (p.x - q.x)| := by
  rw [line_intersect_det_eq]
  rcases (side_mul_eq_neg_one_iff A B p q).mp h with ⟨h1, h2⟩ | ⟨h1, h2⟩
  · have c1 := (point_on_side_eq_neg_one_iff A B p).mp h1
    have c2 := (point_on_side_eq_one_iff A B q).mp h2
    rw [abs_of_nonpos (by linarith [EPSILON_pos (K := K)])]
    linarith
  · have c1 := (point_on_side_eq_one_iff A B p).mp h1
    have c2 := (point_on_side_eq_neg_one_iff A B q).mp h2
    rw [abs_of_nonneg (by linarith [EPSILON_pos (K := K)])]
    linarith

/-- One pass of the loop of `split_segments` either leaves the vertex pool as it is or
appends the split point of a straddle. -/
theorem split_segments_step_vertices (A B : pol_Vec2 K)
    (st : List LineSegment × List LineSegment × GameState K) (seg : LineSegment) :
    (¬ straddles A B st.2.2.vertices seg ∧
      (split_segments_step A B st seg).2.2.vertices = st.2.2.vertices) ∨
    (straddles A B st.2.2.vertices seg ∧
      ∃ X : pol_Vec2 K,
        line_intersect A B (st.2.2.vertices.getD seg.v1 default)
          (st.2.2.vertices.getD seg.v2 default) = some X ∧
        (split_segments_step A B st seg).2.2.vertices = st.2.2.vertices ++ [X]) := by
  by_cases h : straddles A B st.2.2.vertices seg
  · right
    obtain ⟨X, t, hX, hv, -⟩ := split_segments_step_straddle A B st seg h
    exact ⟨h, X, hX, hv⟩
  · left
    exact ⟨h, split_segments_step_no_straddle A B st seg h⟩

/-- The loop of `split_segments` only appends split points of straddles. -/
theorem split_segments_fold_defined (A B : pol_Vec2 K) (segs : List LineSegment) :
    ∀ st : List LineSegment × List LineSegment × GameState K,
      ∃ new : List (pol_Vec2 K),
        (segs.foldl (split_segments_step A B) st).2.2.vertices = st.2.2.vertices ++ new ∧
        ∀ X ∈ new, defined_split_point X := by
  induction segs with
  | nil => intro st; exact ⟨[], by simp, fun X hX => absurd hX (List.not_mem_nil X)⟩
  | cons s rest ih =>
    intro st
    obtain ⟨new, hnew, hdef⟩ := ih (split_segments_step A B st s)
    rw [List.foldl_cons]
    rcases split_segments_step_vertices A B st s with ⟨-, hv⟩ | ⟨hs, X, hX, hv⟩
    · exact ⟨new, by rw [hnew, hv], hdef⟩
    · refine ⟨X :: new, by rw [hnew, hv, List.append_assoc, List.singleton_append], ?_⟩
      intro Y hY
      rcases List.mem_cons.mp hY with rfl | hY
      · exact ⟨A, B, _, _, hs, hX⟩
      · exact hdef Y hY

/-- The vertices `split_segments` appends are split points of straddles. -/
theorem split_segments_defined (segs : List LineSegment) (g : GameState K) :
    ∃ new : List (pol_Vec2 K),
      (split_segments segs g).2.2.vertices = g.vertices ++ new ∧
      ∀ X ∈ new, defined_split_point X := by
  rw [split_segments_game]
  exact split_segments_fold_defined _ _ segs.tail ([], [], g)

/-- The vertices one half of `generate_bsp_tree` appends are split points of straddles,
when this holds of the recursive call. -/
theorem generate_child_defined
    (recurse : List LineSegment → GameState K → Option (Nat × GameState K))
    (hrec : ∀ (segs : List LineSegment) (g : GameState K) (r : Nat × GameState K),
      recurse segs g = some r →
      ∃ new : List (pol_Vec2 K), r.2.vertices = g.vertices ++ new ∧
        ∀ X ∈ new, defined_split_point X)
    (segs : List LineSegment) (g : GameState K) (c : Bool × Nat × GameState K)
    (h : generate_child recurse segs g = some c) :
    ∃ new : List (pol_Vec2 K), c.2.2.vertices = g.vertices ++ new ∧
      ∀ X ∈ new, defined_split_point X := by
  rcases (generate_child_some_iff recurse segs g c).mp h with ⟨-, -, hr⟩ | ⟨-, rfl⟩
  · exact hrec segs g c.2 hr
  · exact ⟨[], by simp, fun X hX => absurd hX (List.not_mem_nil X)⟩

/-- The vertices a build appends are split points of straddles. -/
theorem generate_bsp_tree_defined :
    ∀ (fuel : Nat) (segs : List LineSegment) (g : GameState K) (r : Nat × GameState K),
      generate_bsp_tree fuel segs g = some r →
      ∃ new : List (pol_Vec2 K), r.2.vertices = g.vertices ++ new ∧
        ∀ X ∈ new, defined_split_point X := by
  intro fuel
  induction fuel with
  | zero => intro segs g r h; exact absurd h (by simp [generate_bsp_tree])
  | succ fuel ih =>
    intro segs g r h
    obtain ⟨cl, cr, g0, node, k, hg0, hcl, hcr, -, -, hr⟩ :=
      (generate_bsp_tree_some_iff fuel segs g r).mp h
    obtain ⟨new0, e0, d0⟩ := split_segments_defined segs g
    obtain ⟨new1, e1, d1⟩ := generate_child_defined (generate_bsp_tree fuel) ih _ g0 cl hcl
    obtain ⟨new2, e2, d2⟩ := generate_child_defined (generate_bsp_tree fuel) ih _ cl.2.2 cr hcr
    have eg0 : g0.vertices = (split_segments segs g).2.2.vertices := by rw [hg0]
    refine ⟨new0 ++ new1 ++ new2, ?_, ?_⟩
    · rw [hr]
      simp only []
      rw [e2, e1, eg0, e0, List.append_assoc, List.append_assoc, List.append_assoc]
    · intro X hX
      rcases List.mem_append.mp hX with hX | hX
      · rcases List.mem_append.mp hX with hX | hX
        · exact d0 X hX
        · exact d1 X hX
      · exact d2 X hX

/-- Claim C21: for every splitter (A, B) and segment (p, q) with
point_on_side(A, B, p) · point_on_side(A, B, q) = −1, the determinant of `line_intersect`
is at least 2ε in absolute value and `line_intersect` returns a point, not the sentinel;
a pass of the loop of `split_segments` over such a segment appends exactly that point to
the vertex pool; and every vertex that `split_segments`, or a whole build, appends to
the pool is such a point. -/
theorem straddle_split_point_defined (A B p q : pol_Vec2 K)
    (h : point_on_side A B p * point_on_side A B q = -1) :
    2 * EPSILON ≤ |(A.x - B.x) * (p.y - q.y) - (A.y - B.y) * (p.x - q.x)| ∧
    (∃ X : pol_Vec2 K, line_intersect A B p q = some X) ∧
    line_intersect A B p q ≠ none ∧
    (∀ (st : List LineSegment × List LineSegment × GameState K) (seg : LineSegment),
      st.2.2.vertices.getD seg.v1 default = p → st.2.2.vertices.getD seg.v2 default = q →
      ∃ X : pol_Vec2 K, line_intersect A B p q = some X ∧
        (split_segments_step A B st seg).2.2.vertices = st.2.2.vertices ++ [X]) ∧
    (∀ (segs : List LineSegment) (g : GameState K),
      ∃ new : List (pol_Vec2 K),
        (split_segments segs g).2.2.vertices = g.vertices ++ new ∧
        ∀ X ∈ new, defined_split_point X) ∧
    (∀ (fuel : Nat) (segs : List LineSegment) (g : GameState K) (r : Nat × GameState K),
      generate_bsp_tree fuel segs g = some r →
      ∃ new : List (pol_Vec2 K), r.2.vertices = g.vertices ++ new ∧
        ∀ X ∈ new, defined_split_point X) := by
  obtain ⟨X, t, hX, -⟩ := line_intersect_straddle A B p q h
  refine ⟨straddle_det_bound A B p q h, ⟨X, hX⟩, by rw [hX]; exact Option.some_ne_none X, ?_,
    split_segments_defined, generate_bsp_tree_defined⟩
  intro st seg e1 e2
  have hs : straddles A B st.2.2.vertices seg := by
    unfold straddles; rw [e1, e2]; exact h
  obtain ⟨Y, -, hY, hv, -⟩ := split_segments_step_straddle A B st seg hs
  rw [e1, e2] at hY
  exact ⟨Y, hY, hv⟩

end SplitPointFacts

/-- Witness for claim C21: the splitter (0,0)→(4,0) and the segment (2,−1)→(2,1) of
Scenario B; the determinant is 8 and the split point is (2, 0). -/
theorem straddle_split_point_defined_witness :
    point_on_side (⟨0, 0⟩ : pol_Vec2 ℚ) ⟨4, 0⟩ ⟨2, -1⟩ *
      point_on_side (⟨0, 0⟩ : pol_Vec2 ℚ) ⟨4, 0⟩ ⟨2, 1⟩ = -1 ∧
    line_intersect (⟨0, 0⟩ : pol_Vec2 ℚ) ⟨4, 0⟩ ⟨2, -1⟩ ⟨2, 1⟩ = some ⟨2, 0⟩ ∧
    2 * (EPSILON : ℚ) ≤ |((0 : ℚ) - 4) * (-1 - 1) - (0 - 0) * (2 - 2)| :=
  ⟨by decide!, by decide!,
    (straddle_split_point_defined (⟨0, 0⟩ : pol_Vec2 ℚ) ⟨4, 0⟩ ⟨2, -1⟩ ⟨2, 1⟩
      (by decide!)).1⟩

section FinalPoolClaim

variable {K : Type} [LinearOrderedField K]

/-- Claim C22: for every non-empty list of segments of the pool the build returns, and
for every sector it creates, `is_convex` evaluated on the segment list of the sector
against the final vertex pool returns true: the segments of the sector only name vertices
of the final pool, and for every two distinct positions i, j both endpoints of segment j
are on side 0 or +1 of segment i in the final pool.  Appending vertices to a pool does not
change what `is_convex` returns for a list of segments of that pool. -/
theorem leaves_convex_in_final_pool (segs : List LineSegment) (g : GameState K)
    (hne : segs ≠ []) (hv : ∀ s ∈ segs, seg_in_pool g.vertices.length s) :
    (∃ (fuel : Nat) (r : Nat × GameState K) (new : List (pol_Vec2 K)) (newS : List Sector),
      (∀ fuel1, fuel ≤ fuel1 → generate_bsp_tree fuel1 segs g = some r) ∧
      r.2.vertices = g.vertices ++ new ∧ r.2.sectors = g.sectors ++ newS ∧
      ∀ S ∈ newS,
        is_convex S.line_segs r.2.vertices = true ∧
        (∀ s ∈ S.line_segs, seg_in_pool r.2.vertices.length s) ∧
        ∀ i j : Nat, i < S.line_segs.length → j < S.line_segs.length → i ≠ j →
          (side_of r.2.vertices (S.line_segs.getD i default)
              (S.line_segs.getD j default).v1 = 1 ∨
            side_of r.2.vertices (S.line_segs.getD i default)
              (S.line_segs.getD j default).v1 = 0) ∧
          (side_of r.2.vertices (S.line_segs.getD i default)
              (S.line_segs.getD j default).v2 = 1 ∨
            side_of r.2.vertices (S.line_segs.getD i default)
              (S.line_segs.getD j default).v2 = 0)) ∧
    (∀ (l : List LineSegment) (vs ext : List (pol_Vec2 K)),
      (∀ s ∈ l, seg_in_pool vs.length s) → is_convex l (vs ++ ext) = is_convex l vs) := by
  constructor
  · obtain ⟨fuel, r, h⟩ := terminates_of_valid segs.length segs g rfl hne hv
    obtain ⟨new, newS, b1, b2, -, b4, -⟩ := generate_bsp_tree_ok fuel segs g r hne hv h
    refine ⟨fuel, r, new, newS,
      fun fuel1 hle => generate_bsp_tree_mono fuel fuel1 hle segs g r h, b1, b2, ?_⟩
    intro S hS
    refine ⟨(b4 S hS).2, (b4 S hS).1, ?_⟩
    intro i j hi hj hij
    obtain ⟨c1, c2⟩ := (is_convex_iff S.line_segs r.2.vertices).mp (b4 S hS).2 i j hi hj hij
    exact ⟨(side_of_cases _ _ _).2 c1, (side_of_cases _ _ _).2 c2⟩
  · intro l vs ext hl
    exact is_convex_append l vs ext hl

end FinalPoolClaim

/-- The build of `late_split_game`: 4 nodes, 5 sectors, the first of them with two
segments, and two vertices appended to the 8 of the pool. -/
theorem late_split_shape :
    build_shape (generate_bsp_tree 4 late_split_segments late_split_game) =
      some (0, 4, 5, [2, 1, 1, 1, 1], 10) := by
  decide!

/-- Witness for claim C22, on `late_split_game`, where the sector [(5,0)→(7,0), splitter]
is created before the two crossing walls are split. -/
theorem leaves_convex_in_final_pool_witness :
    late_split_segments ≠ [] ∧
    (∀ s ∈ late_split_segments, seg_in_pool late_split_game.vertices.length s) ∧
    ∃ (fuel : Nat) (r : Nat × GameState ℚ) (new : List (pol_Vec2 ℚ)) (newS : List Sector),
      (∀ fuel1, fuel ≤ fuel1 →
        generate_bsp_tree fuel1 late_split_segments late_split_game = some r) ∧
      r.2.vertices = late_split_game.vertices ++ new ∧
      r.2.sectors = late_split_game.sectors ++ newS ∧
      ∀ S ∈ newS,
        is_convex S.line_segs r.2.vertices = true ∧
        (∀ s ∈ S.line_segs, seg_in_pool r.2.vertices.length s) ∧
        ∀ i j : Nat, i < S.line_segs.length → j < S.line_segs.length → i ≠ j →
          (side_of r.2.vertices (S.line_segs.getD i default)
              (S.line_segs.getD j default).v1 = 1 ∨
            side_of r.2.vertices (S.line_segs.getD i default)
              (S.line_segs.getD j default).v1 = 0) ∧
          (side_of r.2.vertices (S.line_segs.getD i default)
              (S.line_segs.getD j default).v2 = 1 ∨
            side_of r.2.vertices (S.line_segs.getD i default)
              (S.line_segs.getD j default).v2 = 0) :=
  ⟨by decide, by decide,
    (leaves_convex_in_final_pool late_split_segments late_split_game (by decide)
      (by decide)).1⟩

/-- Values of the rounding function: 0.1f, 0.000001f, two ties, and the start-up view
angle 90.0f*DEG2RAD stored as a `float`. -/
theorem f32_known_values :
    f32 (1 / 10) = 13421773 / 134217728 ∧
    EPSILON_f32 = 8796093 / 8796093022208 ∧
    f32 16777217 = 16777216 ∧ f32 16777219 = 16777220 ∧
    f32 ninety_degrees_f64 = 13176795 / 8388608 ∧
    world_to_view_angle_f32 collinear_cam = -6151831 / 140737488355328 := by
  decide!

/-- Counterexample to claim C10 as stated, in binary32: for the splitter (−7,8)→(7,0) and the
segment (−1,2)→(3,3) the endpoints are on sides +1 and −1, the code stores the split point
(8935691/4194304, 11671107/4194304), about (2.1304348, 2.7826087), as vertex 4, this point
is not on the line of the splitter (its exact cross product is 2^-21), and the code's own
`point_on_side` puts it on side −1 (computed cross product 2^-17, above ε).  For the
splitter (0,0)→(3701,3665) and the segment (−514,−509)→(4215,4174) the endpoints are on
sides −1 and +1, the determinant rounds to 0 and `line_intersect` returns the sentinel,
which `split_segments` appends. -/
theorem straddle_float_counterexample :
    (point_on_side_f32 ⟨-7, 8⟩ ⟨7, 0⟩ ⟨-1, 2⟩ * point_on_side_f32 ⟨-7, 8⟩ ⟨7, 0⟩ ⟨3, 3⟩ = -1 ∧
      line_intersect_f32 ⟨-7, 8⟩ ⟨7, 0⟩ ⟨-1, 2⟩ ⟨3, 3⟩ =
        some ⟨8935691 / 4194304, 11671107 / 4194304⟩ ∧
      (split_segments_f32 skew_split_segments skew_split_game).map (fun r => r.2.2.vertices) =
        some (skew_split_game.vertices ++ [⟨8935691 / 4194304, 11671107 / 4194304⟩]) ∧
      vec2_cross_product (vec2_subtract (⟨7, 0⟩ : pol_Vec2 ℚ) ⟨-7, 8⟩)
        (vec2_subtract ⟨8935691 / 4194304, 11671107 / 4194304⟩ ⟨-7, 8⟩) = 1 / 2097152 ∧
      point_on_side_f32 ⟨-7, 8⟩ ⟨7, 0⟩ ⟨8935691 / 4194304, 11671107 / 4194304⟩ = -1) ∧
    (point_on_side_f32 ⟨0, 0⟩ ⟨3701, 3665⟩ ⟨-514, -509⟩ *
        point_on_side_f32 ⟨0, 0⟩ ⟨3701, 3665⟩ ⟨4215, 4174⟩ = -1 ∧
      line_intersect_f32 ⟨0, 0⟩ ⟨3701, 3665⟩ ⟨-514, -509⟩ ⟨4215, 4174⟩ = none ∧
      split_segments_f32 [⟨0, 1⟩, ⟨2, 3⟩] cancel_split_game = none) := by
  decide!

/-- Counterexample to claim C13 as stated, in binary32: for the splitter (−7,8)→(7,0) and
the segment (−1,2)→(3,3), `split_segments` returns the right list [(2→4)], the fragment
from the endpoint on side +1 to the split point, and the code's own `point_on_side` puts
vertex 4, the split point it stored, on side −1 of the splitter, not on side +1 or 0. -/
theorem partition_float_counterexample :
    (split_segments_f32 skew_split_segments skew_split_game).map (fun r => (r.1, r.2.1)) =
      some ([⟨4, 3⟩, ⟨0, 1⟩], [⟨2, 4⟩]) ∧
    (split_segments_f32 skew_split_segments skew_split_game).map
        (fun r => point_on_side_f32 (r.2.2.vertices.getD 0 default)
          (r.2.2.vertices.getD 1 default) (r.2.2.vertices.getD 2 default)) = some 1 ∧
    (split_segments_f32 skew_split_segments skew_split_game).map
        (fun r => point_on_side_f32 (r.2.2.vertices.getD 0 default)
          (r.2.2.vertices.getD 1 default) (r.2.2.vertices.getD 4 default)) = some (-1) := by
  decide!

/-- Counterexample to claim C6 as stated, in binary32: for the wall (−6,6)→(−3,3) and the
camera of `init_game` at (3,−3), the angle passed to `vec2_rotate` is about −4.37e-8, not 0;
for every `SDL_cosf` and `SDL_sinf` that return 1 and the angle itself there (the
correctly rounded values), the world-space test gives side 0 and the view-space test
gives side +1, so the wall passes the backface test of `render_line_segment`. -/
theorem backface_float_counterexample :
    point_on_side_f32 ⟨-6, 6⟩ ⟨-3, 3⟩ collinear_cam.pos = 0 ∧
    ∀ m : Libm ℚ,
      m.cosf (world_to_view_angle_f32 collinear_cam) = 1 →
      m.sinf (world_to_view_angle_f32 collinear_cam) = world_to_view_angle_f32 collinear_cam →
      world_to_view_f32 m ⟨-6, 6⟩ collinear_cam = ⟨-9, 9⟩ ∧
      world_to_view_f32 m ⟨-3, 3⟩ collinear_cam = ⟨-12582911 / 2097152, 12582913 / 2097152⟩ ∧
      point_on_side_f32 (world_to_view_f32 m ⟨-6, 6⟩ collinear_cam)
        (world_to_view_f32 m ⟨-3, 3⟩ collinear_cam) VEC2ZERO = 1 := by
  refine ⟨by decide!, ?_⟩
  intro m hc hs
  unfold world_to_view_f32
  rw [hc, hs]
  decide!

section TraversalOrderClaim

variable {K : Type} [LinearOrderedField K]

/-- A tree has at least one leaf. -/
theorem BspTree.leaves_ne_nil : ∀ t : BspTree, t.leaves ≠ [] := by
  intro t
  induction t with
  | leaf i => simp [BspTree.leaves]
  | node i s l r ihl _ =>
    intro h
    rw [BspTree.leaves, List.append_eq_nil] at h
    exact ihl h.1

/-- Every inner node of an encoded tree with side facts is itself the root of an encoded
tree, whose leaves are among the leaves of the whole tree, in the same order; the leaves of
its left subtree hold segments with no endpoint on side +1 of the splitter stored in the
node, and the leaves of its right subtree hold segments with no endpoint on side −1. -/
theorem encodes_subtree (nodes : List Node) (vs : List (pol_Vec2 K)) (secs : List Sector) :
    ∀ (t : BspTree) (ref : Nat), encodes nodes ref t → sides_all vs secs t →
      ∀ i ∈ t.node_indices, ∃ tl tr : BspTree,
        encodes nodes i (BspTree.node i (nodes.getD i default).splitter tl tr) ∧
        List.Sublist (tl.leaves ++ tr.leaves) t.leaves ∧
        (∀ j ∈ tl.leaves, ∀ seg ∈ (secs.getD j default).line_segs,
          side_of vs (nodes.getD i default).splitter seg.v1 ≠ 1 ∧
          side_of vs (nodes.getD i default).splitter seg.v2 ≠ 1) ∧
        (∀ j ∈ tr.leaves, ∀ seg ∈ (secs.getD j default).line_segs,
          side_of vs (nodes.getD i default).splitter seg.v1 ≠ -1 ∧
          side_of vs (nodes.getD i default).splitter seg.v2 ≠ -1) := by
  intro t
  induction t with
  | leaf j => intro ref _ _ i hi; exact absurd hi (List.not_mem_nil i)
  | node k s l r ihl ihr =>
    intro ref henc hsides i hi
    obtain ⟨h1, h2, h3, h4, h5, h6⟩ := henc
    obtain ⟨-, s2, s3, s4, s5⟩ := hsides
    rcases List.mem_cons.mp hi with rfl | hi
    · refine ⟨l, r, ⟨by rw [← h2]; exact h1, rfl, h3, rfl, h5, h6⟩, List.Sublist.refl _, ?_, ?_⟩
      · intro j hj seg hseg
        rw [h4]
        exact ((s2 j hj).2 seg hseg).2
      · intro j hj seg hseg
        rw [h4]
        exact ((s3 j hj).2 seg hseg).2
    · rcases List.mem_append.mp hi with hi | hi
      · obtain ⟨tl, tr, e, hsub, a, b⟩ := ihl _ h5 s4 i hi
        exact ⟨tl, tr, e, hsub.trans (List.sublist_append_left _ _), a, b⟩
      · obtain ⟨tl, tr, e, hsub, a, b⟩ := ihr _ h6 s5 i hi
        exact ⟨tl, tr, e, hsub.trans (List.sublist_append_right _ _), a, b⟩

/-- The traversal at the root of an encoded tree: the leaves of the two subtrees, each
exactly once, those of the right subtree first exactly when the camera is on side +1 of
the splitter. -/
theorem render_bsp_at_node (game : GameState K) (i : Nat) (s : LineSegment)
    (tl tr : BspTree) (henc : encodes game.nodes i (BspTree.node i s tl tr)) :
    ∃ A B : List Nat, A.Perm tl.leaves ∧ B.Perm tr.leaves ∧
      ∀ (fuel : Nat) (D : List Nat), (BspTree.node i s tl tr).depth ≤ fuel →
        render_bsp fuel (game.nodes.getD i default).left game D = some (D ++ A) ∧
        render_bsp fuel (game.nodes.getD i default).right game D = some (D ++ B) ∧
        render_bsp (fuel + 1) i game D = some (D ++
          if point_on_side (game.vertices.getD s.v1 default) (game.vertices.getD s.v2 default)
              game.player_cam.pos = 1
          then B ++ A else A ++ B) := by
  refine ⟨render_order game.vertices game.player_cam.pos tl,
    render_order game.vertices game.player_cam.pos tr,
    render_order_perm _ _ tl, render_order_perm _ _ tr, ?_⟩
  intro fuel D hle
  have hd : (BspTree.node i s tl tr).depth = max tl.depth tr.depth + 1 := rfl
  rw [hd] at hle
  have henc1 := henc
  obtain ⟨-, -, -, -, encl, encr⟩ := henc1
  refine ⟨render_bsp_of_encodes game tl _ fuel encl
      (by have := le_max_left tl.depth tr.depth; omega) D,
    render_bsp_of_encodes game tr _ fuel encr
      (by have := le_max_right tl.depth tr.depth; omega) D, ?_⟩
  have := render_bsp_of_encodes game (BspTree.node i s tl tr) i (fuel + 1)
    henc (by rw [hd]; omega) D
  rw [this]
  rfl

/-- Claim C5: in `render_bsp`, at every internal node i with splitter s and subtrees tl
(under the left child) and tr (under the right child), the list appended to the draw list
consists of the leaves of tr, each once, followed by the leaves of tl, each once, if
point_on_side(s.v1, s.v2, camera.pos) = +1, and of the leaves of tl followed by the leaves
of tr otherwise; the leaves of each subtree are what `render_bsp` appends when started at
that child, and neither list is empty.  This holds at the root of every tree encoded in a
node list.  In the tree built by `generate_bsp_tree` (with fewer than 2^31 nodes and
sectors, so that the references fit their 31 bits) every node created is such a root, the
leaves of its two subtrees are distinct sectors created by the build, and the subtree
visited first is the one built from the segments on the camera's side: of every segment
stored in a sector under the left child, the endpoints that are vertices of the input pool
are on side −1 or 0 of the splitter, and under the right child on side +1 or 0. -/
theorem render_bsp_front_to_back (segs : List LineSegment) (g : GameState K) (hne : segs ≠ [])
    (hv : ∀ s ∈ segs, seg_in_pool g.vertices.length s) :
    (∀ (game : GameState K) (i : Nat) (s : LineSegment) (tl tr : BspTree),
      encodes game.nodes i (BspTree.node i s tl tr) →
      ∃ A B : List Nat, A.Perm tl.leaves ∧ B.Perm tr.leaves ∧ A ≠ [] ∧ B ≠ [] ∧
        ∀ (fuel : Nat) (D : List Nat), (BspTree.node i s tl tr).depth ≤ fuel →
          render_bsp fuel (game.nodes.getD i default).left game D = some (D ++ A) ∧
          render_bsp fuel (game.nodes.getD i default).right game D = some (D ++ B) ∧
          render_bsp (fuel + 1) i game D = some (D ++
            if point_on_side (game.vertices.getD s.v1 default)
                (game.vertices.getD s.v2 default) game.player_cam.pos = 1
            then B ++ A else A ++ B)) ∧
    ∃ (fuel : Nat) (r : Nat × GameState K),
      (∀ fuel1, fuel ≤ fuel1 → generate_bsp_tree fuel1 segs g = some r) ∧
      (r.2.nodes.length < 2 ^ 31 → r.2.sectors.length < 2 ^ 31 →
        ∀ i : Nat, g.nodes.length ≤ i → i < r.2.nodes.length →
          ∃ tl tr : BspTree,
            encodes r.2.nodes i (BspTree.node i (r.2.nodes.getD i default).splitter tl tr) ∧
            (tl.leaves ++ tr.leaves).Nodup ∧
            (∀ j ∈ tl.leaves ++ tr.leaves, g.sectors.length ≤ j ∧ j < r.2.sectors.length) ∧
            (∀ cam : PlayerCam K, ∃ A B : List Nat,
              A.Perm tl.leaves ∧ B.Perm tr.leaves ∧ A ≠ [] ∧ B ≠ [] ∧
              ∀ (fuel2 : Nat) (D : List Nat),
                (BspTree.node i (r.2.nodes.getD i default).splitter tl tr).depth ≤ fuel2 →
                render_bsp fuel2 (r.2.nodes.getD i default).left
                  { r.2 with player_cam := cam } D = some (D ++ A) ∧
                render_bsp fuel2 (r.2.nodes.getD i default).right
                  { r.2 with player_cam := cam } D = some (D ++ B) ∧
                render_bsp (fuel2 + 1) i { r.2 with player_cam := cam } D = some (D ++
                  if point_on_side
                      (r.2.vertices.getD (r.2.nodes.getD i default).splitter.v1 default)
                      (r.2.vertices.getD (r.2.nodes.getD i default).splitter.v2 default)
                      cam.pos = 1
                  then B ++ A else A ++ B)) ∧
            (∀ j ∈ tl.leaves, ∀ seg ∈ (r.2.sectors.getD j default).line_segs,
              (seg.v1 < g.vertices.length →
                side_of r.2.vertices (r.2.nodes.getD i default).splitter seg.v1 = -1 ∨
                side_of r.2.vertices (r.2.nodes.getD i default).splitter seg.v1 = 0) ∧
              (seg.v2 < g.vertices.length →
                side_of r.2.vertices (r.2.nodes.getD i default).splitter seg.v2 = -1 ∨
                side_of r.2.vertices (r.2.nodes.getD i default).splitter seg.v2 = 0)) ∧
            (∀ j ∈ tr.leaves, ∀ seg ∈ (r.2.sectors.getD j default).line_segs,
              (seg.v1 < g.vertices.length →
                side_of r.2.vertices (r.2.nodes.getD i default).splitter seg.v1 = 1 ∨
                side_of r.2.vertices (r.2.nodes.getD i default).splitter seg.v1 = 0) ∧
              (seg.v2 < g.vertices.length →
                side_of r.2.vertices (r.2.nodes.getD i default).splitter seg.v2 = 1 ∨
                side_of r.2.vertices (r.2.nodes.getD i default).splitter seg.v2 = 0))) := by
  have partA : ∀ (game : GameState K) (i : Nat) (s : LineSegment) (tl tr : BspTree),
      encodes game.nodes i (BspTree.node i s tl tr) →
      ∃ A B : List Nat, A.Perm tl.leaves ∧ B.Perm tr.leaves ∧ A ≠ [] ∧ B ≠ [] ∧
        ∀ (fuel : Nat) (D : List Nat), (BspTree.node i s tl tr).depth ≤ fuel →
          render_bsp fuel (game.nodes.getD i default).left game D = some (D ++ A) ∧
          render_bsp fuel (game.nodes.getD i default).right game D = some (D ++ B) ∧
          render_bsp (fuel + 1) i game D = some (D ++
            if point_on_side (game.vertices.getD s.v1 default)
                (game.vertices.getD s.v2 default) game.player_cam.pos = 1
            then B ++ A else A ++ B) := by
    intro game i s tl tr henc
    obtain ⟨A, B, hA, hB, hr⟩ := render_bsp_at_node game i s tl tr henc
    refine ⟨A, B, hA, hB, ?_, ?_, hr⟩
    · intro h
      rw [h] at hA
      exact BspTree.leaves_ne_nil tl (List.perm_nil.mp hA.symm)
    · intro h
      rw [h] at hB
      exact BspTree.leaves_ne_nil tr (List.perm_nil.mp hB.symm)
  refine ⟨partA, ?_⟩
  obtain ⟨fuel, r, h⟩ := terminates_of_valid segs.length segs g rfl hne hv
  refine ⟨fuel, r, fun fuel1 hle => generate_bsp_tree_mono fuel fuel1 hle segs g r h, ?_⟩
  intro hb1 hb2 i hi1 hi2
  obtain ⟨t, inv⟩ := generate_bsp_tree_inv fuel segs g r hne hv h hb1 hb2
  have hi : i ∈ t.node_indices := by
    rw [inv.idx, List.mem_range'_1]; omega
  obtain ⟨tl, tr, henc, hsub, sl, sr⟩ :=
    encodes_subtree r.2.nodes r.2.vertices r.2.sectors t r.1 inv.enc inv.sides i hi
  have hnd : t.leaves.Nodup := by
    rw [inv.lvs]; exact List.nodup_range' _ _
  refine ⟨tl, tr, henc, hnd.sublist hsub, ?_, ?_, ?_, ?_⟩
  · intro j hj
    have hj1 := hsub.subset hj
    rw [inv.lvs, List.mem_range'_1] at hj1
    have hgrow : g.sectors.length ≤ r.2.sectors.length := by
      by_contra hlt
      rw [Nat.sub_eq_zero_of_le (by omega)] at hj1
      omega
    omega
  · intro cam
    exact partA { r.2 with player_cam := cam } i _ tl tr henc
  · intro j hj seg hseg
    obtain ⟨c1, c2⟩ := sl j hj seg hseg
    exact ⟨fun _ => (side_of_cases _ _ _).1 c1, fun _ => (side_of_cases _ _ _).1 c2⟩
  · intro j hj seg hseg
    obtain ⟨c1, c2⟩ := sr j hj seg hseg
    exact ⟨fun _ => (side_of_cases _ _ _).2 c1, fun _ => (side_of_cases _ _ _).2 c2⟩

end TraversalOrderClaim

/-- Witness for claim C5, on `late_split_game`: the build returns, and every node it
creates is the root of an encoded tree whose leaves `render_bsp` appends in the stated
order, for every camera. -/
theorem render_bsp_front_to_back_witness :
    late_split_segments ≠ [] ∧
    (∀ s ∈ late_split_segments, seg_in_pool late_split_game.vertices.length s) ∧
    ∃ (fuel : Nat) (r : Nat × GameState ℚ),
      (∀ fuel1, fuel ≤ fuel1 →
        generate_bsp_tree fuel1 late_split_segments late_split_game = some r) ∧
      (r.2.nodes.length < 2 ^ 31 → r.2.sectors.length < 2 ^ 31 →
        ∀ i : Nat, late_split_game.nodes.length ≤ i → i < r.2.nodes.length →
          ∃ tl tr : BspTree,
            encodes r.2.nodes i (BspTree.node i (r.2.nodes.getD i default).splitter tl tr) ∧
            (tl.leaves ++ tr.leaves).Nodup ∧
            (∀ j ∈ tl.leaves ++ tr.leaves,
              late_split_game.sectors.length ≤ j ∧ j < r.2.sectors.length) ∧
            (∀ cam : PlayerCam ℚ, ∃ A B : List Nat,
              A.Perm tl.leaves ∧ B.Perm tr.leaves ∧ A ≠ [] ∧ B ≠ [] ∧
              ∀ (fuel2 : Nat) (D : List Nat),
                (BspTree.node i (r.2.nodes.getD i default).splitter tl tr).depth ≤ fuel2 →
                render_bsp fuel2 (r.2.nodes.getD i default).left
                  { r.2 with player_cam := cam } D = some (D ++ A) ∧
                render_bsp fuel2 (r.2.nodes.getD i default).right
                  { r.2 with player_cam := cam } D = some (D ++ B) ∧
                render_bsp (fuel2 + 1) i { r.2 with player_cam := cam } D = some (D ++
                  if point_on_side
                      (r.2.vertices.getD (r.2.nodes.getD i default).splitter.v1 default)
                      (r.2.vertices.getD (r.2.nodes.getD i default).splitter.v2 default)
                      cam.pos = 1
                  then B ++ A else A ++ B)) ∧
            (∀ j ∈ tl.leaves, ∀ seg ∈ (r.2.sectors.getD j default).line_segs,
              (seg.v1 < late_split_game.vertices.length →
                side_of r.2.vertices (r.2.nodes.getD i default).splitter seg.v1 = -1 ∨
                side_of r.2.vertices (r.2.nodes.getD i default).splitter seg.v1 = 0) ∧
              (seg.v2 < late_split_game.vertices.length →
                side_of r.2.vertices (r.2.nodes.getD i default).splitter seg.v2 = -1 ∨
                side_of r.2.vertices (r.2.nodes.getD i default).splitter seg.v2 = 0)) ∧
            (∀ j ∈ tr.leaves, ∀ seg ∈ (r.2.sectors.getD j default).line_segs,
              (seg.v1 < late_split_game.vertices.length →
                side_of r.2.vertices (r.2.nodes.getD i default).splitter seg.v1 = 1 ∨
                side_of r.2.vertices (r.2.nodes.getD i default).splitter seg.v1 = 0) ∧
              (seg.v2 < late_split_game.vertices.length →
                side_of r.2.vertices (r.2.nodes.getD i default).splitter seg.v2 = 1 ∨
                side_of r.2.vertices (r.2.nodes.getD i default).splitter seg.v2 = 0))) :=
  ⟨by decide, by decide,
    (render_bsp_front_to_back late_split_segments late_split_game (by decide)
      (by decide)).2⟩

/-- The traversal of the tree of `late_split_game`, from the root with an empty draw
list: a camera at (2, 1), on side −1 of the first splitter, collects the sectors in the
order 0, 1, 2, 3, 4, and a camera at (2, −5), on side +1 of it, collects sector 0, the
only leaf under the left child of the root, last. -/
theorem late_split_traversal :
    ((generate_bsp_tree 4 late_split_segments late_split_game).bind fun r =>
      render_bsp 5 r.1 { r.2 with player_cam := ⟨⟨2, 1⟩, 0, 0⟩ } []) = some [0, 1, 2, 3, 4] ∧
    ((generate_bsp_tree 4 late_split_segments late_split_game).bind fun r =>
      render_bsp 5 r.1 { r.2 with player_cam := ⟨⟨2, -5⟩, 0, 0⟩ } []) =
        some [4, 2, 1, 3, 0] := by
  decide!
